import Mathlib

/-!
Verification development for the SVG path-geometry engine of
`scripts/compose_svg_drawable.py`.

The embedding follows the source file closely:
* the tokenizer models the regex
  `[MmLlHhVvCcSsQqTtAaZz]|[-+]?(?:\d*\.\d+|\d+)(?:[eE][-+]?\d+)?`
  used by both `path_bbox` and `transform_path_data` (numeric literals are
  kept as exact rationals);
* `transform_path_data`, `fmt_number` and the composition-layout arithmetic
  of `build_vector_xml` involve only field operations, so they are embedded
  over `ℚ` (computable);
* `path_bbox` needs `math.sqrt` (cubic extrema) and trigonometry (arcs), so
  its interpreter is embedded over `ℝ`;
* Python exceptions become an explicit error type; the `while` loops become
  fuel-indexed recursion (the fuel given by the callers is sufficient for
  every terminating run of the Python loop; a run that exhausts it is one
  where the Python loop does not terminate).
-/

set_option allowUnsafeReducibility true in
attribute [semireducible] Rat.mul Rat.add Rat.sub Rat.neg Rat.div Rat.inv Rat.floor Rat.ceil

/-- Axis-aligned box `(minX, minY, maxX, maxY)`, the tuple used throughout
`compose_svg_drawable.py`. -/
structure Box (α : Type) where
  minX : α
  minY : α
  maxX : α
  maxY : α
deriving DecidableEq

/-- Embedding of `bbox_union` (lines 80-90): `None` is the identity. -/
def bbox_union {α : Type} [LinearOrder α] :
    Option (Box α) → Option (Box α) → Option (Box α)
  | bbox, none => bbox
  | none, other => other
  | some b, some o =>
      some ⟨min b.minX o.minX, min b.minY o.minY,
            max b.maxX o.maxX, max b.maxY o.maxY⟩

/-- Embedding of `bbox_translate` (lines 93-96). -/
def bbox_translate {α : Type} [Add α] :
    Option (Box α) → α → α → Option (Box α)
  | none, _, _ => none
  | some b, dx, dy => some ⟨b.minX + dx, b.minY + dy, b.maxX + dx, b.maxY + dy⟩

/-- Embedding of `bbox_scale` (lines 99-102). -/
def bbox_scale {α : Type} [Mul α] :
    Option (Box α) → α → Option (Box α)
  | none, _ => none
  | some b, k => some ⟨b.minX * k, b.minY * k, b.maxX * k, b.maxY * k⟩

/-- Tokens produced by the path-data tokenizer: a command letter or an exact
numeric literal. -/
inductive Tok where
  | cmd : Char → Tok
  | num : ℚ → Tok
deriving DecidableEq

/-- The twenty command letters of the tokenizer's character class
`[MmLlHhVvCcSsQqTtAaZz]`. -/
def commandChars : List Char :=
  ['M', 'm', 'L', 'l', 'H', 'h', 'V', 'v', 'C', 'c',
   'S', 's', 'Q', 'q', 'T', 't', 'A', 'a', 'Z', 'z']

/-- Numeric value of a decimal digit character. -/
def digitVal (c : Char) : ℕ := c.toNat - '0'.toNat

/-- Value of a digit string read as a natural number. -/
def digitsToNat (ds : List Char) : ℕ :=
  ds.foldl (fun acc c => 10 * acc + digitVal c) 0

/-- Value of a fractional digit string (the part after the decimal point). -/
def fracVal (ds : List Char) : ℚ :=
  (digitsToNat ds : ℚ) / (10 : ℚ) ^ ds.length

/-- Scan the mantissa `(?:\d*\.\d+|\d+)` at the head of the character list,
with the regex's preference for the first alternative.  Returns the exact
value and the remaining characters. -/
def scanMantissa (cs : List Char) : Option (ℚ × List Char) :=
  let p := cs.span Char.isDigit
  match p.2 with
  | '.' :: r2 =>
      let q := r2.span Char.isDigit
      if q.1.isEmpty then
        if p.1.isEmpty then none else some ((digitsToNat p.1 : ℚ), p.2)
      else some ((digitsToNat p.1 : ℚ) + fracVal q.1, q.2)
  | _ => if p.1.isEmpty then none else some ((digitsToNat p.1 : ℚ), p.2)

/-- Scan the optional exponent `(?:[eE][-+]?\d+)?`; `none` means the
exponent group is not consumed. -/
def scanExponent (cs : List Char) : Option (ℤ × List Char) :=
  match cs with
  | c :: rest =>
      if c = 'e' ∨ c = 'E' then
        let sp : ℤ × List Char :=
          match rest with
          | '+' :: r => (1, r)
          | '-' :: r => (-1, r)
          | r => (1, r)
        let q := sp.2.span Char.isDigit
        if q.1.isEmpty then none else some (sp.1 * (digitsToNat q.1 : ℤ), q.2)
      else none
  | [] => none

/-- Scan one numeric literal `[-+]?(?:\d*\.\d+|\d+)(?:[eE][-+]?\d+)?` at the
head of the character list. -/
def scanNumber (cs : List Char) : Option (ℚ × List Char) :=
  let sp : ℚ × List Char :=
    match cs with
    | '+' :: r => (1, r)
    | '-' :: r => (-1, r)
    | r => (1, r)
  match scanMantissa sp.2 with
  | none => none
  | some (m, r2) =>
      match scanExponent r2 with
      | none => some (sp.1 * m, r2)
      | some (e, r3) => some (sp.1 * m * (10 : ℚ) ^ e, r3)

/-- Fuel-indexed scanner implementing `re.findall` for the tokenizer regex:
command letters match the first alternative, numeric literals the second,
and any other character is skipped. -/
def tokenizeAux : ℕ → List Char → List Tok
  | 0, _ => []
  | _, [] => []
  | fuel + 1, c :: rest =>
      if c ∈ commandChars then Tok.cmd c :: tokenizeAux fuel rest
      else
        match scanNumber (c :: rest) with
        | some (q, rest') => Tok.num q :: tokenizeAux fuel rest'
        | none => tokenizeAux fuel rest

/-- Tokenization of a path-data string (the `re.findall` call shared by
`path_bbox` line 114 and `transform_path_data` line 516).  Each scanner
step consumes at least one character, so `s.length` fuel is sufficient. -/
def tokenize (s : String) : List Tok := tokenizeAux s.length s.data

/-- Round half-to-even, the rounding used by Python's `f"{v:.4f}"`
formatting (and by `round`, whose ties never occur under the guard in
`fmt_number`). -/
def roundHalfEven (q : ℚ) : ℤ :=
  let n := ⌊q⌋
  let frac := q - n
  if frac < 1 / 2 then n
  else if 1 / 2 < frac then n + 1
  else if n % 2 = 0 then n else n + 1

/-- Left-pad a string with zeros to the given length. -/
def padLeftZeros (s : String) (len : ℕ) : String :=
  if len ≤ s.length then s
  else String.mk (List.replicate (len - s.length) '0') ++ s

/-- Drop trailing `'0'` characters (Python's `rstrip("0")`). -/
def dropTrailingZeros (s : String) : String :=
  String.mk ((s.data.reverse.dropWhile (fun c => c == '0')).reverse)

/-- Embedding of the `f"{value:.4f}".rstrip("0").rstrip(".")` branch of
`fmt_number`: round to four decimal places (ties to even), render with the
sign taken from the value, strip trailing zeros and a trailing point. -/
def renderFixed4 (v : ℚ) : String :=
  let n : ℤ := roundHalfEven (v * 10000)
  let sgn : String := if v < 0 then "-" else ""
  let ip : ℕ := n.natAbs / 10000
  let fp : ℕ := n.natAbs % 10000
  let fracStr := dropTrailingZeros (padLeftZeros (toString fp) 4)
  if fracStr = "" then sgn ++ toString ip
  else sgn ++ toString ip ++ "." ++ fracStr

/-- Embedding of `fmt_number` (lines 414-417): values within `1e-6` of an
integer render as that integer, everything else as at most four decimals
with trailing zeros and point stripped. -/
def fmt_number (v : ℚ) : String :=
  if |v - round v| < 1 / 1000000 then toString (round v)
  else renderFixed4 v

/-- Errors of the two path interpreters.  `unexpectedEnd` is the bbox-mode
guard `"Unexpected end of path data"`; `indexOutOfRange` is the `IndexError`
the transform mode hits instead (its `read_number` has no bounds check);
`malformedNumber` is `float()` applied to a non-numeric token;
`missingCommand` is `"Path data missing command"`; `unsupportedCommand` is
`"Unsupported SVG path command"`; `fuelExhausted` marks a run on which the
Python `while` loop does not terminate (a `Z` re-entered via a numeric
token consumes nothing). -/
inductive PErr where
  | missingCommand
  | unexpectedEnd
  | malformedNumber
  | unsupportedCommand : Char → PErr
  | indexOutOfRange
  | fuelExhausted
deriving DecidableEq

deriving instance DecidableEq for Except

/-- Python `int()` truncation toward zero, for a rational. -/
def truncQ (q : ℚ) : ℤ := if 0 ≤ q then ⌊q⌋ else ⌈q⌉

/-- Interpreter state of `transform_path_data`: the active command, cursor,
subpath start, and the shorthand-reflection memories. -/
structure TState where
  cmd : Option Char
  x : ℚ
  y : ℚ
  startX : ℚ
  startY : ℚ
  lastCubic : Option (ℚ × ℚ)
  lastQuad : Option (ℚ × ℚ)
deriving DecidableEq

/-- Initial transform-interpreter state (lines 523-530). -/
def initT : TState := ⟨none, 0, 0, 0, 0, none, none⟩

/-- Transform-mode `read_number` (lines 533-537): no bounds check, so a
missing token is an `IndexError`; `float()` on a command token fails. -/
def readNumT : List Tok → Except PErr (ℚ × List Tok)
  | [] => .error .indexOutOfRange
  | Tok.num q :: rest => .ok (q, rest)
  | Tok.cmd _ :: _ => .error .malformedNumber

/-- Embedding of `transform_point` (lines 539-540). -/
def transform_point (scale tx ty px py : ℚ) : ℚ × ℚ :=
  (px * scale + tx, py * scale + ty)

/-- Resolution of the token at the head of the loop (lines 542-548): a
command letter becomes the active command; a number re-enters the active
command, failing when there is none. -/
def headCommand (t : Tok) (rest : List Tok) (st : TState) :
    Option (Char × List Tok × TState) :=
  match t with
  | Tok.cmd c => some (c, rest, { st with cmd := some c })
  | Tok.num _ =>
      match st.cmd with
      | none => none
      | some c => some (c, t :: rest, st)

/-- The `while` loop of `transform_path_data` (lines 542-726), fuel-indexed.
Each branch mirrors the corresponding Python branch: relative coordinates
are resolved against the cursor, shorthand controls are reflected, and each
emitted piece is the absolute command with `fmt_number`-formatted
coordinates. -/
def transformLoop (scale tx ty : ℚ) : ℕ → List Tok → TState →
    Except PErr (List String)
  | 0, _, _ => .error .fuelExhausted
  | _ + 1, [], _ => .ok []
  | fuel + 1, t :: rest, st =>
    match headCommand t rest st with
    | none => .error .missingCommand
    | some (c, toks, st) =>
      if c = 'M' ∨ c = 'm' then do
        let (x1r, t1) ← readNumT toks
        let (y1r, t2) ← readNumT t1
        let x1 := if c = 'm' then x1r + st.x else x1r
        let y1 := if c = 'm' then y1r + st.y else y1r
        let p := transform_point scale tx ty x1 y1
        let out ← transformLoop scale tx ty fuel t2
          { cmd := some (if c = 'M' then 'L' else 'l'),
            x := x1, y := y1, startX := x1, startY := y1,
            lastCubic := none, lastQuad := none }
        .ok (("M" ++ fmt_number p.1 ++ " " ++ fmt_number p.2) :: out)
      else if c = 'Z' ∨ c = 'z' then do
        let out ← transformLoop scale tx ty fuel toks
          { st with x := st.startX, y := st.startY,
                    lastCubic := none, lastQuad := none }
        .ok ("Z" :: out)
      else if c = 'L' ∨ c = 'l' then do
        let (x1r, t1) ← readNumT toks
        let (y1r, t2) ← readNumT t1
        let x1 := if c = 'l' then x1r + st.x else x1r
        let y1 := if c = 'l' then y1r + st.y else y1r
        let p := transform_point scale tx ty x1 y1
        let out ← transformLoop scale tx ty fuel t2
          { st with x := x1, y := y1, lastCubic := none, lastQuad := none }
        .ok (("L" ++ fmt_number p.1 ++ " " ++ fmt_number p.2) :: out)
      else if c = 'H' ∨ c = 'h' then do
        let (x1r, t1) ← readNumT toks
        let x1 := if c = 'h' then x1r + st.x else x1r
        let p := transform_point scale tx ty x1 st.y
        let out ← transformLoop scale tx ty fuel t1
          { st with x := x1, lastCubic := none, lastQuad := none }
        .ok (("L" ++ fmt_number p.1 ++ " " ++ fmt_number p.2) :: out)
      else if c = 'V' ∨ c = 'v' then do
        let (y1r, t1) ← readNumT toks
        let y1 := if c = 'v' then y1r + st.y else y1r
        let p := transform_point scale tx ty st.x y1
        let out ← transformLoop scale tx ty fuel t1
          { st with y := y1, lastCubic := none, lastQuad := none }
        .ok (("L" ++ fmt_number p.1 ++ " " ++ fmt_number p.2) :: out)
      else if c = 'C' ∨ c = 'c' then do
        let (x1r, t1) ← readNumT toks
        let (y1r, t2) ← readNumT t1
        let (x2r, t3) ← readNumT t2
        let (y2r, t4) ← readNumT t3
        let (x3r, t5) ← readNumT t4
        let (y3r, t6) ← readNumT t5
        let x1 := if c = 'c' then x1r + st.x else x1r
        let y1 := if c = 'c' then y1r + st.y else y1r
        let x2 := if c = 'c' then x2r + st.x else x2r
        let y2 := if c = 'c' then y2r + st.y else y2r
        let x3 := if c = 'c' then x3r + st.x else x3r
        let y3 := if c = 'c' then y3r + st.y else y3r
        let p1 := transform_point scale tx ty x1 y1
        let p2 := transform_point scale tx ty x2 y2
        let p3 := transform_point scale tx ty x3 y3
        let out ← transformLoop scale tx ty fuel t6
          { st with x := x3, y := y3,
                    lastCubic := some (x2, y2), lastQuad := none }
        .ok (("C" ++ fmt_number p1.1 ++ " " ++ fmt_number p1.2 ++ " "
                  ++ fmt_number p2.1 ++ " " ++ fmt_number p2.2 ++ " "
                  ++ fmt_number p3.1 ++ " " ++ fmt_number p3.2) :: out)
      else if c = 'S' ∨ c = 's' then do
        let (x2r, t1) ← readNumT toks
        let (y2r, t2) ← readNumT t1
        let (x3r, t3) ← readNumT t2
        let (y3r, t4) ← readNumT t3
        let x1 := match st.lastCubic with
          | some pc => 2 * st.x - pc.1
          | none => st.x
        let y1 := match st.lastCubic with
          | some pc => 2 * st.y - pc.2
          | none => st.y
        let x2 := if c = 's' then x2r + st.x else x2r
        let y2 := if c = 's' then y2r + st.y else y2r
        let x3 := if c = 's' then x3r + st.x else x3r
        let y3 := if c = 's' then y3r + st.y else y3r
        let p1 := transform_point scale tx ty x1 y1
        let p2 := transform_point scale tx ty x2 y2
        let p3 := transform_point scale tx ty x3 y3
        let out ← transformLoop scale tx ty fuel t4
          { st with x := x3, y := y3,
                    lastCubic := some (x2, y2), lastQuad := none }
        .ok (("C" ++ fmt_number p1.1 ++ " " ++ fmt_number p1.2 ++ " "
                  ++ fmt_number p2.1 ++ " " ++ fmt_number p2.2 ++ " "
                  ++ fmt_number p3.1 ++ " " ++ fmt_number p3.2) :: out)
      else if c = 'Q' ∨ c = 'q' then do
        let (x1r, t1) ← readNumT toks
        let (y1r, t2) ← readNumT t1
        let (x2r, t3) ← readNumT t2
        let (y2r, t4) ← readNumT t3
        let x1 := if c = 'q' then x1r + st.x else x1r
        let y1 := if c = 'q' then y1r + st.y else y1r
        let x2 := if c = 'q' then x2r + st.x else x2r
        let y2 := if c = 'q' then y2r + st.y else y2r
        let p1 := transform_point scale tx ty x1 y1
        let p2 := transform_point scale tx ty x2 y2
        let out ← transformLoop scale tx ty fuel t4
          { st with x := x2, y := y2,
                    lastQuad := some (x1, y1), lastCubic := none }
        .ok (("Q" ++ fmt_number p1.1 ++ " " ++ fmt_number p1.2 ++ " "
                  ++ fmt_number p2.1 ++ " " ++ fmt_number p2.2) :: out)
      else if c = 'T' ∨ c = 't' then do
        let (x2r, t1) ← readNumT toks
        let (y2r, t2) ← readNumT t1
        let x1 := match st.lastQuad with
          | some pq => 2 * st.x - pq.1
          | none => st.x
        let y1 := match st.lastQuad with
          | some pq => 2 * st.y - pq.2
          | none => st.y
        let x2 := if c = 't' then x2r + st.x else x2r
        let y2 := if c = 't' then y2r + st.y else y2r
        let p1 := transform_point scale tx ty x1 y1
        let p2 := transform_point scale tx ty x2 y2
        let out ← transformLoop scale tx ty fuel t2
          { st with x := x2, y := y2,
                    lastQuad := some (x1, y1), lastCubic := none }
        .ok (("Q" ++ fmt_number p1.1 ++ " " ++ fmt_number p1.2 ++ " "
                  ++ fmt_number p2.1 ++ " " ++ fmt_number p2.2) :: out)
      else if c = 'A' ∨ c = 'a' then do
        let (rx, t1) ← readNumT toks
        let (ry, t2) ← readNumT t1
        let (rot, t3) ← readNumT t2
        let (lar, t4) ← readNumT t3
        let (swr, t5) ← readNumT t4
        let (x2r, t6) ← readNumT t5
        let (y2r, t7) ← readNumT t6
        let la : ℤ := truncQ lar
        let sw : ℤ := truncQ swr
        let x2 := if c = 'a' then x2r + st.x else x2r
        let y2 := if c = 'a' then y2r + st.y else y2r
        let p := transform_point scale tx ty x2 y2
        let out ← transformLoop scale tx ty fuel t7
          { st with x := x2, y := y2,
                    lastCubic := none, lastQuad := none }
        .ok (("A" ++ fmt_number (rx * scale) ++ " " ++ fmt_number (ry * scale)
                  ++ " " ++ fmt_number rot ++ " " ++ toString la ++ " "
                  ++ toString sw ++ " "
                  ++ fmt_number p.1 ++ " " ++ fmt_number p.2) :: out)
      else .error (.unsupportedCommand c)

/-- Embedding of `transform_path_data` (lines 515-726): tokenize, return
`""` on zero tokens, otherwise run the loop and join the emitted pieces
with single spaces. -/
def transform_path_data (d : String) (scale tx ty : ℚ) : Except PErr String :=
  let toks := tokenize d
  if toks = [] then .ok ""
  else (transformLoop scale tx ty (toks.length + 1) toks initT).map
    (String.intercalate " ")

/-- Embedding of `cubic_point` (lines 143-150): the cubic Bézier point
formula. -/
noncomputable def cubic_point (p0 p1 p2 p3 t : ℝ) : ℝ :=
  let mt := 1 - t
  mt * mt * mt * p0 + 3 * mt * mt * t * p1 + 3 * mt * t * t * p2
    + t * t * t * p3

/-- Embedding of `quadratic_point` (lines 152-154). -/
noncomputable def quadratic_point (p0 p1 p2 t : ℝ) : ℝ :=
  let mt := 1 - t
  mt * mt * p0 + 2 * mt * t * p1 + t * t * p2

/-- Embedding of `cubic_extrema` (lines 156-176): roots of the derivative
quadratic `a t² + b t + c` in the open interval `(0,1)`, with the `1e-8`
degeneracy guards of the source. -/
noncomputable def cubic_extrema (p0 p1 p2 p3 : ℝ) : List ℝ :=
  let a := -p0 + 3 * p1 - 3 * p2 + p3
  let b := 2 * (p0 - 2 * p1 + p2)
  let c := p1 - p0
  if |a| < 1 / 100000000 then
    if |b| > 1 / 100000000 then
      let t := -c / b
      if 0 < t ∧ t < 1 then [t] else []
    else []
  else
    let disc := b * b - 4 * a * c
    if disc ≥ 0 then
      let root := Real.sqrt disc
      let t1 := (-b + root) / (2 * a)
      let t2 := (-b - root) / (2 * a)
      (if 0 < t1 ∧ t1 < 1 then [t1] else [])
        ++ (if 0 < t2 ∧ t2 < 1 then [t2] else [])
    else []

/-- Embedding of `quadratic_extrema` (lines 178-185). -/
noncomputable def quadratic_extrema (p0 p1 p2 : ℝ) : List ℝ :=
  let denom := p0 - 2 * p1 + p2
  if |denom| < 1 / 100000000 then []
  else
    let t := (p0 - p1) / denom
    if 0 < t ∧ t < 1 then [t] else []

/-- Embedding of `cubic_bbox` (lines 187-195) as the box it unions into the
accumulator: endpoints plus the curve evaluated at each retained root. -/
noncomputable def cubic_bbox (x0 y0 x1 y1 x2 y2 x3 y3 : ℝ) : Box ℝ :=
  let xs := x0 :: x3 :: (cubic_extrema x0 x1 x2 x3).map (cubic_point x0 x1 x2 x3)
  let ys := y0 :: y3 :: (cubic_extrema y0 y1 y2 y3).map (cubic_point y0 y1 y2 y3)
  ⟨xs.foldl min x0, ys.foldl min y0, xs.foldl max x0, ys.foldl max y0⟩

/-- Embedding of `quadratic_bbox` (lines 197-205). -/
noncomputable def quadratic_bbox (x0 y0 x1 y1 x2 y2 : ℝ) : Box ℝ :=
  let xs := x0 :: x2 :: (quadratic_extrema x0 x1 x2).map (quadratic_point x0 x1 x2)
  let ys := y0 :: y2 :: (quadratic_extrema y0 y1 y2).map (quadratic_point y0 y1 y2)
  ⟨xs.foldl min x0, ys.foldl min y0, xs.foldl max x0, ys.foldl max y0⟩

/-- Two-argument arctangent (`math.atan2`), via the complex argument. -/
noncomputable def atan2 (y x : ℝ) : ℝ := Complex.arg ⟨x, y⟩

/-- Embedding of the inner `angle` helper of `arc_bbox` (lines 243-244). -/
noncomputable def arc_angle (ux uy vx vy : ℝ) : ℝ :=
  atan2 (ux * vy - uy * vx) (ux * vx + uy * vy)

/-- Embedding of `arc_bbox` (lines 207-263) as the box contributed by the
arc: standard endpoint-to-center parameterization followed by sampling the
swept angle at 21 uniform points; a zero radius degrades to the
straight-line box. -/
noncomputable def arc_bbox (x0 y0 rx0 ry0 phi : ℝ) (large_arc sweep : Bool)
    (x1 y1 : ℝ) : Option (Box ℝ) :=
  if rx0 = 0 ∨ ry0 = 0 then
    some ⟨min x0 x1, min y0 y1, max x0 x1, max y0 y1⟩
  else
    let phi_rad := (phi - 360 * ⌊phi / 360⌋) * (Real.pi / 180)
    let cos_phi := Real.cos phi_rad
    let sin_phi := Real.sin phi_rad
    let dx := (x0 - x1) / 2
    let dy := (y0 - y1) / 2
    let x1p := cos_phi * dx + sin_phi * dy
    let y1p := -sin_phi * dx + cos_phi * dy
    let rxa := |rx0|
    let rya := |ry0|
    let lam := x1p * x1p / (rxa * rxa) + y1p * y1p / (rya * rya)
    let rx := if lam > 1 then rxa * Real.sqrt lam else rxa
    let ry := if lam > 1 then rya * Real.sqrt lam else rya
    let sign : ℝ := if large_arc = sweep then -1 else 1
    let num := rx * rx * (ry * ry) - rx * rx * (y1p * y1p) - ry * ry * (x1p * x1p)
    let den := rx * rx * (y1p * y1p) + ry * ry * (x1p * x1p)
    let coef := if den ≠ 0 then sign * Real.sqrt (max 0 (num / den)) else 0
    let cxp := coef * (rx * y1p / ry)
    let cyp := coef * (-ry * x1p / rx)
    let cx := cos_phi * cxp - sin_phi * cyp + (x0 + x1) / 2
    let cy := sin_phi * cxp + cos_phi * cyp + (y0 + y1) / 2
    let v1x := (x1p - cxp) / rx
    let v1y := (y1p - cyp) / ry
    let v2x := (-x1p - cxp) / rx
    let v2y := (-y1p - cyp) / ry
    let theta1 := arc_angle 1 0 v1x v1y
    let delta0 := arc_angle v1x v1y v2x v2y
    let delta :=
      if sweep = false ∧ delta0 > 0 then delta0 - 2 * Real.pi
      else if sweep = true ∧ delta0 < 0 then delta0 + 2 * Real.pi
      else delta0
    (List.range 21).foldl
      (fun bb i =>
        let t := (i : ℝ) / 20
        let theta := theta1 + delta * t
        let px := cx + rx * cos_phi * Real.cos theta - ry * sin_phi * Real.sin theta
        let py := cy + rx * sin_phi * Real.cos theta + ry * cos_phi * Real.sin theta
        bbox_union bb (some ⟨px, py, px, py⟩))
      none

/-- Interpreter state of `path_bbox` (lines 121-129): active command,
cursor, subpath start, shorthand memories and the accumulated box. -/
structure BState where
  cmd : Option Char
  x : ℝ
  y : ℝ
  startX : ℝ
  startY : ℝ
  lastCubic : Option (ℝ × ℝ)
  lastQuad : Option (ℝ × ℝ)
  bbox : Option (Box ℝ)

/-- Initial bbox-interpreter state. -/
noncomputable def initB : BState := ⟨none, 0, 0, 0, 0, none, none, none⟩

/-- Bbox-mode `read_number` (lines 131-137): bounds-checked, then `float()`
conversion of the token. -/
def readNumB : List Tok → Except PErr (ℚ × List Tok)
  | [] => .error .unexpectedEnd
  | Tok.num q :: rest => .ok (q, rest)
  | Tok.cmd _ :: _ => .error .malformedNumber

/-- Resolution of the head token in bbox mode (lines 265-271), identical in
shape to the transform mode's. -/
def headCommandB (t : Tok) (rest : List Tok) (st : BState) :
    Option (Char × List Tok × BState) :=
  match t with
  | Tok.cmd c => some (c, rest, { st with cmd := some c })
  | Tok.num _ =>
      match st.cmd with
      | none => none
      | some c => some (c, t :: rest, st)

/-- The `while` loop of `path_bbox` (lines 265-409), fuel-indexed, over `ℝ`.
Each branch mirrors the corresponding Python branch, accumulating boxes via
`bbox_union`. -/
noncomputable def bboxLoop : ℕ → List Tok → BState →
    Except PErr (Option (Box ℝ))
  | 0, _, _ => .error .fuelExhausted
  | _ + 1, [], st => .ok st.bbox
  | fuel + 1, t :: rest, st =>
    match headCommandB t rest st with
    | none => .error .missingCommand
    | some (c, toks, st) =>
      if c = 'M' ∨ c = 'm' then do
        let (x1r, t1) ← readNumB toks
        let (y1r, t2) ← readNumB t1
        let x1 : ℝ := if c = 'm' then ↑x1r + st.x else ↑x1r
        let y1 : ℝ := if c = 'm' then ↑y1r + st.y else ↑y1r
        bboxLoop fuel t2
          { cmd := some (if c = 'M' then 'L' else 'l'),
            x := x1, y := y1, startX := x1, startY := y1,
            lastCubic := none, lastQuad := none,
            bbox := bbox_union st.bbox (some ⟨x1, y1, x1, y1⟩) }
      else if c = 'Z' ∨ c = 'z' then
        bboxLoop fuel toks
          { st with x := st.startX, y := st.startY,
                    lastCubic := none, lastQuad := none,
                    bbox := bbox_union st.bbox
                      (some ⟨st.startX, st.startY, st.startX, st.startY⟩) }
      else if c = 'L' ∨ c = 'l' then do
        let (x1r, t1) ← readNumB toks
        let (y1r, t2) ← readNumB t1
        let x1 : ℝ := if c = 'l' then ↑x1r + st.x else ↑x1r
        let y1 : ℝ := if c = 'l' then ↑y1r + st.y else ↑y1r
        bboxLoop fuel t2
          { st with x := x1, y := y1, lastCubic := none, lastQuad := none,
                    bbox := bbox_union st.bbox
                      (some ⟨min st.x x1, min st.y y1, max st.x x1, max st.y y1⟩) }
      else if c = 'H' ∨ c = 'h' then do
        let (x1r, t1) ← readNumB toks
        let x1 : ℝ := if c = 'h' then ↑x1r + st.x else ↑x1r
        bboxLoop fuel t1
          { st with x := x1, lastCubic := none, lastQuad := none,
                    bbox := bbox_union st.bbox
                      (some ⟨min st.x x1, st.y, max st.x x1, st.y⟩) }
      else if c = 'V' ∨ c = 'v' then do
        let (y1r, t1) ← readNumB toks
        let y1 : ℝ := if c = 'v' then ↑y1r + st.y else ↑y1r
        bboxLoop fuel t1
          { st with y := y1, lastCubic := none, lastQuad := none,
                    bbox := bbox_union st.bbox
                      (some ⟨st.x, min st.y y1, st.x, max st.y y1⟩) }
      else if c = 'C' ∨ c = 'c' then do
        let (x1r, t1) ← readNumB toks
        let (y1r, t2) ← readNumB t1
        let (x2r, t3) ← readNumB t2
        let (y2r, t4) ← readNumB t3
        let (x3r, t5) ← readNumB t4
        let (y3r, t6) ← readNumB t5
        let x1 : ℝ := if c = 'c' then ↑x1r + st.x else ↑x1r
        let y1 : ℝ := if c = 'c' then ↑y1r + st.y else ↑y1r
        let x2 : ℝ := if c = 'c' then ↑x2r + st.x else ↑x2r
        let y2 : ℝ := if c = 'c' then ↑y2r + st.y else ↑y2r
        let x3 : ℝ := if c = 'c' then ↑x3r + st.x else ↑x3r
        let y3 : ℝ := if c = 'c' then ↑y3r + st.y else ↑y3r
        bboxLoop fuel t6
          { st with x := x3, y := y3,
                    lastCubic := some (x2, y2), lastQuad := none,
                    bbox := bbox_union st.bbox
                      (some (cubic_bbox st.x st.y x1 y1 x2 y2 x3 y3)) }
      else if c = 'S' ∨ c = 's' then do
        let (x2r, t1) ← readNumB toks
        let (y2r, t2) ← readNumB t1
        let (x3r, t3) ← readNumB t2
        let (y3r, t4) ← readNumB t3
        let x1 : ℝ := match st.lastCubic with
          | some pc => 2 * st.x - pc.1
          | none => st.x
        let y1 : ℝ := match st.lastCubic with
          | some pc => 2 * st.y - pc.2
          | none => st.y
        let x2 : ℝ := if c = 's' then ↑x2r + st.x else ↑x2r
        let y2 : ℝ := if c = 's' then ↑y2r + st.y else ↑y2r
        let x3 : ℝ := if c = 's' then ↑x3r + st.x else ↑x3r
        let y3 : ℝ := if c = 's' then ↑y3r + st.y else ↑y3r
        bboxLoop fuel t4
          { st with x := x3, y := y3,
                    lastCubic := some (x2, y2), lastQuad := none,
                    bbox := bbox_union st.bbox
                      (some (cubic_bbox st.x st.y x1 y1 x2 y2 x3 y3)) }
      else if c = 'Q' ∨ c = 'q' then do
        let (x1r, t1) ← readNumB toks
        let (y1r, t2) ← readNumB t1
        let (x2r, t3) ← readNumB t2
        let (y2r, t4) ← readNumB t3
        let x1 : ℝ := if c = 'q' then ↑x1r + st.x else ↑x1r
        let y1 : ℝ := if c = 'q' then ↑y1r + st.y else ↑y1r
        let x2 : ℝ := if c = 'q' then ↑x2r + st.x else ↑x2r
        let y2 : ℝ := if c = 'q' then ↑y2r + st.y else ↑y2r
        bboxLoop fuel t4
          { st with x := x2, y := y2,
                    lastQuad := some (x1, y1), lastCubic := none,
                    bbox := bbox_union st.bbox
                      (some (quadratic_bbox st.x st.y x1 y1 x2 y2)) }
      else if c = 'T' ∨ c = 't' then do
        let (x2r, t1) ← readNumB toks
        let (y2r, t2) ← readNumB t1
        let x1 : ℝ := match st.lastQuad with
          | some pq => 2 * st.x - pq.1
          | none => st.x
        let y1 : ℝ := match st.lastQuad with
          | some pq => 2 * st.y - pq.2
          | none => st.y
        let x2 : ℝ := if c = 't' then ↑x2r + st.x else ↑x2r
        let y2 : ℝ := if c = 't' then ↑y2r + st.y else ↑y2r
        bboxLoop fuel t2
          { st with x := x2, y := y2,
                    lastQuad := some (x1, y1), lastCubic := none,
                    bbox := bbox_union st.bbox
                      (some (quadratic_bbox st.x st.y x1 y1 x2 y2)) }
      else if c = 'A' ∨ c = 'a' then do
        let (rx, t1) ← readNumB toks
        let (ry, t2) ← readNumB t1
        let (rot, t3) ← readNumB t2
        let (lar, t4) ← readNumB t3
        let (swr, t5) ← readNumB t4
        let (x2r, t6) ← readNumB t5
        let (y2r, t7) ← readNumB t6
        let large_arc : Bool := truncQ lar != 0
        let sweep : Bool := truncQ swr != 0
        let x2 : ℝ := if c = 'a' then ↑x2r + st.x else ↑x2r
        let y2 : ℝ := if c = 'a' then ↑y2r + st.y else ↑y2r
        bboxLoop fuel t7
          { st with x := x2, y := y2,
                    lastCubic := none, lastQuad := none,
                    bbox := bbox_union st.bbox
                      (arc_bbox st.x st.y ↑rx ↑ry ↑rot large_arc sweep x2 y2) }
      else .error (.unsupportedCommand c)

/-- Embedding of `path_bbox` (lines 113-411): tokenize, return `None` (not
an error) on zero tokens, otherwise run the interpreter loop. -/
noncomputable def path_bbox (d : String) : Except PErr (Option (Box ℝ)) :=
  let toks := tokenize d
  if toks = [] then .ok none
  else bboxLoop (toks.length + 1) toks initB

/-- One parsed `<path>` element, as stored by `parse_svg` (lines 45-54). -/
structure PathRec where
  d : String
  fill : String
  bbox : Option (Box ℚ)
deriving DecidableEq

/-- A parsed SVG icon, as returned by `parse_svg` (lines 59-67). -/
structure ParsedIcon where
  width : Option ℚ
  height : Option ℚ
  min_x : ℚ
  min_y : ℚ
  vb_width : ℚ
  vb_height : ℚ
  paths : List PathRec
deriving DecidableEq

/-- Embedding of `width_dp = base["width"] or base["vb_width"]` (line 730);
Python's `or` treats both `None` and `0.0` as missing. -/
def width_dp (base : ParsedIcon) : ℚ :=
  match base.width with
  | some w => if w = 0 then base.vb_width else w
  | none => base.vb_width

/-- Embedding of the gap unit conversion (lines 733-737): `gap` in viewBox
units, converted through `vb_width / width_dp` when `width_dp` is truthy. -/
def gap_vb (base : ParsedIcon) (gap_dp : ℚ) : ℚ :=
  if width_dp base ≠ 0 then gap_dp * (base.vb_width / width_dp base)
  else gap_dp

/-- Embedding of `base_offset_x = -base["min_x"]` (line 740). -/
def base_offset_x (base : ParsedIcon) : ℚ := -base.min_x

/-- Embedding of `base_offset_y = -base["min_y"]` (line 741). -/
def base_offset_y (base : ParsedIcon) : ℚ := -base.min_y

/-- Embedding of `overlay_offset_x = -overlay["min_x"]` (line 743). -/
def overlay_offset_x (overlay : ParsedIcon) : ℚ := -overlay.min_x

/-- Embedding of `overlay_offset_y = -overlay["min_y"]` (line 744). -/
def overlay_offset_y (overlay : ParsedIcon) : ℚ := -overlay.min_y

/-- Union of the per-path content boxes of an icon (the folds at lines
746-748 and 759-761). -/
def paths_bbox (icon : ParsedIcon) : Option (Box ℚ) :=
  icon.paths.foldl (fun bb p => bbox_union bb p.bbox) none

/-- Embedding of `overlay_bbox` with its viewport default (lines 746-756). -/
def overlay_bbox (overlay : ParsedIcon) : Box ℚ :=
  match paths_bbox overlay with
  | some b => b
  | none => ⟨overlay.min_x, overlay.min_y,
             overlay.min_x + overlay.vb_width,
             overlay.min_y + overlay.vb_height⟩

/-- Embedding of `overlay_bbox_norm` (line 758): the overlay content box
translated into viewport-local coordinates. -/
def overlay_bbox_norm (overlay : ParsedIcon) : Box ℚ :=
  let b := overlay_bbox overlay
  ⟨b.minX + overlay_offset_x overlay, b.minY + overlay_offset_y overlay,
   b.maxX + overlay_offset_x overlay, b.maxY + overlay_offset_y overlay⟩

/-- Embedding of `base_bbox` with its viewport default (lines 759-764). -/
def base_bbox (base : ParsedIcon) : Box ℚ :=
  match paths_bbox base with
  | some b => b
  | none => ⟨0, 0, base.vb_width, base.vb_height⟩

/-- Embedding of `base_translate_x` (lines 766-774): offset plus the
recentering shift of the base content box onto the viewport center. -/
def base_translate_x (base : ParsedIcon) : ℚ :=
  let bb := base_bbox base
  let shifted_min := bb.minX + base_offset_x base
  let shifted_max := bb.maxX + base_offset_x base
  let base_center := (shifted_min + shifted_max) / 2
  base_offset_x base + (base.vb_width / 2 - base_center)

/-- Embedding of `base_translate_y` (lines 766-775). -/
def base_translate_y (base : ParsedIcon) : ℚ :=
  let bb := base_bbox base
  let shifted_min := bb.minY + base_offset_y base
  let shifted_max := bb.maxY + base_offset_y base
  let base_center := (shifted_min + shifted_max) / 2
  base_offset_y base + (base.vb_height / 2 - base_center)

/-- Embedding of `overlay_scaled_bbox = bbox_scale(overlay_bbox_norm, scale)`
(line 780). -/
def overlay_scaled_bbox (overlay : ParsedIcon) (scale : ℚ) : Box ℚ :=
  let b := overlay_bbox_norm overlay
  ⟨b.minX * scale, b.minY * scale, b.maxX * scale, b.maxY * scale⟩

/-- Embedding of `overlay_translate_x = vb_width - overlay_scaled_bbox[2]`
(lines 781, 784). -/
def overlay_translate_x (base overlay : ParsedIcon) (scale : ℚ) : ℚ :=
  base.vb_width - (overlay_scaled_bbox overlay scale).maxX

/-- Embedding of `overlay_translate_y = -overlay_scaled_bbox[1]`
(lines 782, 785). -/
def overlay_translate_y (overlay : ParsedIcon) (scale : ℚ) : ℚ :=
  -(overlay_scaled_bbox overlay scale).minY

/-- Embedding of `max_dim` (lines 787-790): the larger dimension of the
normalized overlay content box. -/
def max_dim (overlay : ParsedIcon) : ℚ :=
  max ((overlay_bbox_norm overlay).maxX - (overlay_bbox_norm overlay).minX)
      ((overlay_bbox_norm overlay).maxY - (overlay_bbox_norm overlay).minY)

/-- Embedding of `hole_scale` (lines 791-794): the cut-out scale. -/
def hole_scale (base overlay : ParsedIcon) (scale gap_dp : ℚ) : ℚ :=
  if max_dim overlay ≤ 0 then scale
  else scale * (1 + (2 * gap_vb base gap_dp) / max_dim overlay)

/-- Embedding of `overlay_center_x` (line 777). -/
def overlay_center_x (overlay : ParsedIcon) : ℚ :=
  ((overlay_bbox_norm overlay).minX + (overlay_bbox_norm overlay).maxX) / 2

/-- Embedding of `overlay_center_y` (line 778). -/
def overlay_center_y (overlay : ParsedIcon) : ℚ :=
  ((overlay_bbox_norm overlay).minY + (overlay_bbox_norm overlay).maxY) / 2

/-- Embedding of `hole_translate_x` (lines 796-802): keeps the enlarged
silhouette concentric with the placed overlay. -/
def hole_translate_x (base overlay : ParsedIcon) (scale gap_dp : ℚ) : ℚ :=
  let cX := overlay_center_x overlay
  (cX * scale + overlay_translate_x base overlay scale)
    - cX * hole_scale base overlay scale gap_dp

/-- Embedding of `hole_translate_y` (lines 797-803). -/
def hole_translate_y (base overlay : ParsedIcon) (scale gap_dp : ℚ) : ℚ :=
  let cY := overlay_center_y overlay
  (cY * scale + overlay_translate_y overlay scale)
    - cY * hole_scale base overlay scale gap_dp

/-- The algebraic hole paths (lines 889-898): every overlay path transformed
under the cut-out scale and translation. -/
def algebraic_hole_paths (base overlay : ParsedIcon) (scale gap_dp : ℚ) :
    Except PErr (List String) :=
  let hs := hole_scale base overlay scale gap_dp
  overlay.paths.mapM (fun p =>
    transform_path_data p.d hs
      (overlay_offset_x overlay * hs + hole_translate_x base overlay scale gap_dp)
      (overlay_offset_y overlay * hs + hole_translate_y base overlay scale gap_dp))

/-- Outcome of the external polygon-geometry capability (shapely), which the
spec places outside the core: when smoothing is requested and the capability
is present, it yields the smoothed hole paths and, possibly, the smoothed
base outline (lines 823-887).  `none` models an absent capability. -/
def smooth_resolved (base : ParsedIcon) (gap_dp : ℚ) (smooth : Bool)
    (outcome : Option (List String × Option (List String))) :
    List String × Option (List String) :=
  if gap_vb base gap_dp > 0 ∧ smooth then
    match outcome with
    | some r => r
    | none => ([], none)
  else ([], none)

/-- Embedding of the final value of `hole_paths` (lines 819-898): empty
unless `gap > 0`; under a positive gap, the smooth result when it produced
paths, otherwise the algebraic fallback. -/
def hole_paths (base overlay : ParsedIcon) (scale gap_dp : ℚ) (smooth : Bool)
    (outcome : Option (List String × Option (List String))) :
    Except PErr (List String) :=
  if gap_vb base gap_dp > 0 then
    let sh := (smooth_resolved base gap_dp smooth outcome).1
    if sh = [] then algebraic_hole_paths base overlay scale gap_dp
    else .ok sh
  else .ok []

/-- Embedding of the final value of `smooth_base_paths` (lines 821, 861-884):
populated only inside the `gap > 0`, smoothing-available branch. -/
def smooth_base_paths (base : ParsedIcon) (gap_dp : ℚ) (smooth : Bool)
    (outcome : Option (List String × Option (List String))) :
    Option (List String) :=
  (smooth_resolved base gap_dp smooth outcome).2

/-- The base paths transformed under the centering translation, no scale
(lines 950-954). -/
def transformed_base_paths (base : ParsedIcon) : Except PErr (List String) :=
  base.paths.mapM (fun p =>
    transform_path_data p.d 1 (base_translate_x base) (base_translate_y base))

/-- Embedding of `combined_base` and `fill_type` (lines 946-959): the
smoothed outline when present (empty fill type), otherwise the transformed
base paths with the hole paths appended and the even-odd fill-type attribute
exactly when hole paths exist. -/
def combined_base_and_fill (base overlay : ParsedIcon) (scale gap_dp : ℚ)
    (smooth : Bool)
    (outcome : Option (List String × Option (List String))) :
    Except PErr (String × String) := do
  let hp ← hole_paths base overlay scale gap_dp smooth outcome
  match smooth_base_paths base gap_dp smooth outcome with
  | some (p :: ps) => .ok (String.intercalate " " (p :: ps), "")
  | _ => do
      let tbp ← transformed_base_paths base
      let combined := String.intercalate " " tbp
      let combined :=
        if hp = [] then combined
        else combined ++ " " ++ String.intercalate " " hp
      let fill := if hp = [] then "" else " android:fillType=\"evenOdd\""
      .ok (combined, fill)

/-- The emitted base `<path>` line (lines 960-963). -/
def base_path_line (base overlay : ParsedIcon) (scale gap_dp : ℚ)
    (smooth : Bool)
    (outcome : Option (List String × Option (List String))) :
    Except PErr String := do
  let cf ← combined_base_and_fill base overlay scale gap_dp smooth outcome
  .ok ("    <path android:fillColor=\"@android:color/white\"" ++ cf.2
        ++ " android:pathData=\"" ++ cf.1 ++ "\" />")

/-- Absolute commands as emitted by the transform interpreter, with exact
(unformatted) coordinates.  `transform_path_data` renders exactly these via
`fmt_number`; keeping them unformatted isolates the effect of the 4-decimal
formatting. -/
inductive AbsCmd where
  | move : ℚ → ℚ → AbsCmd
  | line : ℚ → ℚ → AbsCmd
  | curve : ℚ → ℚ → ℚ → ℚ → ℚ → ℚ → AbsCmd
  | quad : ℚ → ℚ → ℚ → ℚ → AbsCmd
  | arc : ℚ → ℚ → ℚ → ℤ → ℤ → ℚ → ℚ → AbsCmd
  | close : AbsCmd
deriving DecidableEq

/-- Rendering of one absolute command in the emission format of
`transform_path_data`. -/
def renderAbsCmd : AbsCmd → String
  | .move x y => "M" ++ fmt_number x ++ " " ++ fmt_number y
  | .line x y => "L" ++ fmt_number x ++ " " ++ fmt_number y
  | .curve x1 y1 x2 y2 x3 y3 =>
      "C" ++ fmt_number x1 ++ " " ++ fmt_number y1 ++ " "
          ++ fmt_number x2 ++ " " ++ fmt_number y2 ++ " "
          ++ fmt_number x3 ++ " " ++ fmt_number y3
  | .quad x1 y1 x2 y2 =>
      "Q" ++ fmt_number x1 ++ " " ++ fmt_number y1 ++ " "
          ++ fmt_number x2 ++ " " ++ fmt_number y2
  | .arc rx ry rot la sw x y =>
      "A" ++ fmt_number rx ++ " " ++ fmt_number ry ++ " " ++ fmt_number rot
          ++ " " ++ toString la ++ " " ++ toString sw ++ " "
          ++ fmt_number x ++ " " ++ fmt_number y
  | .close => "Z"

/-- The token sequence denoting one absolute command (exact values). -/
def absTokens : AbsCmd → List Tok
  | .move x y => [Tok.cmd 'M', Tok.num x, Tok.num y]
  | .line x y => [Tok.cmd 'L', Tok.num x, Tok.num y]
  | .curve x1 y1 x2 y2 x3 y3 =>
      [Tok.cmd 'C', Tok.num x1, Tok.num y1, Tok.num x2, Tok.num y2,
       Tok.num x3, Tok.num y3]
  | .quad x1 y1 x2 y2 =>
      [Tok.cmd 'Q', Tok.num x1, Tok.num y1, Tok.num x2, Tok.num y2]
  | .arc rx ry rot la sw x y =>
      [Tok.cmd 'A', Tok.num rx, Tok.num ry, Tok.num rot,
       Tok.num (la : ℚ), Tok.num (sw : ℚ), Tok.num x, Tok.num y]
  | .close => [Tok.cmd 'Z']

/-- Token sequence of a whole absolute-command list. -/
def tokens_of_abs (cs : List AbsCmd) : List Tok := (cs.map absTokens).flatten

/-- The transform interpreter loop with exact emission: identical control
flow and state updates to `transformLoop`, but each emitted piece is the
`AbsCmd` whose `renderAbsCmd` is the string `transformLoop` emits. -/
def transformAbsLoop (scale tx ty : ℚ) : ℕ → List Tok → TState →
    Except PErr (List AbsCmd)
  | 0, _, _ => .error .fuelExhausted
  | _ + 1, [], _ => .ok []
  | fuel + 1, t :: rest, st =>
    match headCommand t rest st with
    | none => .error .missingCommand
    | some (c, toks, st) =>
      if c = 'M' ∨ c = 'm' then do
        let (x1r, t1) ← readNumT toks
        let (y1r, t2) ← readNumT t1
        let x1 := if c = 'm' then x1r + st.x else x1r
        let y1 := if c = 'm' then y1r + st.y else y1r
        let p := transform_point scale tx ty x1 y1
        let out ← transformAbsLoop scale tx ty fuel t2
          { cmd := some (if c = 'M' then 'L' else 'l'),
            x := x1, y := y1, startX := x1, startY := y1,
            lastCubic := none, lastQuad := none }
        .ok (AbsCmd.move p.1 p.2 :: out)
      else if c = 'Z' ∨ c = 'z' then do
        let out ← transformAbsLoop scale tx ty fuel toks
          { st with x := st.startX, y := st.startY,
                    lastCubic := none, lastQuad := none }
        .ok (AbsCmd.close :: out)
      else if c = 'L' ∨ c = 'l' then do
        let (x1r, t1) ← readNumT toks
        let (y1r, t2) ← readNumT t1
        let x1 := if c = 'l' then x1r + st.x else x1r
        let y1 := if c = 'l' then y1r + st.y else y1r
        let p := transform_point scale tx ty x1 y1
        let out ← transformAbsLoop scale tx ty fuel t2
          { st with x := x1, y := y1, lastCubic := none, lastQuad := none }
        .ok (AbsCmd.line p.1 p.2 :: out)
      else if c = 'H' ∨ c = 'h' then do
        let (x1r, t1) ← readNumT toks
        let x1 := if c = 'h' then x1r + st.x else x1r
        let p := transform_point scale tx ty x1 st.y
        let out ← transformAbsLoop scale tx ty fuel t1
          { st with x := x1, lastCubic := none, lastQuad := none }
        .ok (AbsCmd.line p.1 p.2 :: out)
      else if c = 'V' ∨ c = 'v' then do
        let (y1r, t1) ← readNumT toks
        let y1 := if c = 'v' then y1r + st.y else y1r
        let p := transform_point scale tx ty st.x y1
        let out ← transformAbsLoop scale tx ty fuel t1
          { st with y := y1, lastCubic := none, lastQuad := none }
        .ok (AbsCmd.line p.1 p.2 :: out)
      else if c = 'C' ∨ c = 'c' then do
        let (x1r, t1) ← readNumT toks
        let (y1r, t2) ← readNumT t1
        let (x2r, t3) ← readNumT t2
        let (y2r, t4) ← readNumT t3
        let (x3r, t5) ← readNumT t4
        let (y3r, t6) ← readNumT t5
        let x1 := if c = 'c' then x1r + st.x else x1r
        let y1 := if c = 'c' then y1r + st.y else y1r
        let x2 := if c = 'c' then x2r + st.x else x2r
        let y2 := if c = 'c' then y2r + st.y else y2r
        let x3 := if c = 'c' then x3r + st.x else x3r
        let y3 := if c = 'c' then y3r + st.y else y3r
        let p1 := transform_point scale tx ty x1 y1
        let p2 := transform_point scale tx ty x2 y2
        let p3 := transform_point scale tx ty x3 y3
        let out ← transformAbsLoop scale tx ty fuel t6
          { st with x := x3, y := y3,
                    lastCubic := some (x2, y2), lastQuad := none }
        .ok (AbsCmd.curve p1.1 p1.2 p2.1 p2.2 p3.1 p3.2 :: out)
      else if c = 'S' ∨ c = 's' then do
        let (x2r, t1) ← readNumT toks
        let (y2r, t2) ← readNumT t1
        let (x3r, t3) ← readNumT t2
        let (y3r, t4) ← readNumT t3
        let x1 := match st.lastCubic with
          | some pc => 2 * st.x - pc.1
          | none => st.x
        let y1 := match st.lastCubic with
          | some pc => 2 * st.y - pc.2
          | none => st.y
        let x2 := if c = 's' then x2r + st.x else x2r
        let y2 := if c = 's' then y2r + st.y else y2r
        let x3 := if c = 's' then x3r + st.x else x3r
        let y3 := if c = 's' then y3r + st.y else y3r
        let p1 := transform_point scale tx ty x1 y1
        let p2 := transform_point scale tx ty x2 y2
        let p3 := transform_point scale tx ty x3 y3
        let out ← transformAbsLoop scale tx ty fuel t4
          { st with x := x3, y := y3,
                    lastCubic := some (x2, y2), lastQuad := none }
        .ok (AbsCmd.curve p1.1 p1.2 p2.1 p2.2 p3.1 p3.2 :: out)
      else if c = 'Q' ∨ c = 'q' then do
        let (x1r, t1) ← readNumT toks
        let (y1r, t2) ← readNumT t1
        let (x2r, t3) ← readNumT t2
        let (y2r, t4) ← readNumT t3
        let x1 := if c = 'q' then x1r + st.x else x1r
        let y1 := if c = 'q' then y1r + st.y else y1r
        let x2 := if c = 'q' then x2r + st.x else x2r
        let y2 := if c = 'q' then y2r + st.y else y2r
        let p1 := transform_point scale tx ty x1 y1
        let p2 := transform_point scale tx ty x2 y2
        let out ← transformAbsLoop scale tx ty fuel t4
          { st with x := x2, y := y2,
                    lastQuad := some (x1, y1), lastCubic := none }
        .ok (AbsCmd.quad p1.1 p1.2 p2.1 p2.2 :: out)
      else if c = 'T' ∨ c = 't' then do
        let (x2r, t1) ← readNumT toks
        let (y2r, t2) ← readNumT t1
        let x1 := match st.lastQuad with
          | some pq => 2 * st.x - pq.1
          | none => st.x
        let y1 := match st.lastQuad with
          | some pq => 2 * st.y - pq.2
          | none => st.y
        let x2 := if c = 't' then x2r + st.x else x2r
        let y2 := if c = 't' then y2r + st.y else y2r
        let p1 := transform_point scale tx ty x1 y1
        let p2 := transform_point scale tx ty x2 y2
        let out ← transformAbsLoop scale tx ty fuel t2
          { st with x := x2, y := y2,
                    lastQuad := some (x1, y1), lastCubic := none }
        .ok (AbsCmd.quad p1.1 p1.2 p2.1 p2.2 :: out)
      else if c = 'A' ∨ c = 'a' then do
        let (rx, t1) ← readNumT toks
        let (ry, t2) ← readNumT t1
        let (rot, t3) ← readNumT t2
        let (lar, t4) ← readNumT t3
        let (swr, t5) ← readNumT t4
        let (x2r, t6) ← readNumT t5
        let (y2r, t7) ← readNumT t6
        let la : ℤ := truncQ lar
        let sw : ℤ := truncQ swr
        let x2 := if c = 'a' then x2r + st.x else x2r
        let y2 := if c = 'a' then y2r + st.y else y2r
        let p := transform_point scale tx ty x2 y2
        let out ← transformAbsLoop scale tx ty fuel t7
          { st with x := x2, y := y2,
                    lastCubic := none, lastQuad := none }
        .ok (AbsCmd.arc (rx * scale) (ry * scale) rot la sw p.1 p.2 :: out)
      else .error (.unsupportedCommand c)

/-- Exact-emission variant of `transform_path_data`: the list of absolute
commands with exact coordinates. -/
def transform_abs (d : String) (scale tx ty : ℚ) : Except PErr (List AbsCmd) :=
  let toks := tokenize d
  if toks = [] then .ok []
  else transformAbsLoop scale tx ty (toks.length + 1) toks initT

/-- Bounding-box interpretation of a token list (the body of `path_bbox`
after tokenization). -/
noncomputable def bbox_of_tokens (toks : List Tok) : Except PErr (Option (Box ℝ)) :=
  if toks = [] then .ok none
  else bboxLoop (toks.length + 1) toks initB

/-- The effect of one absolute command on the bbox-interpreter state: what
`bboxLoop` does to the state when it consumes exactly the tokens of that
command. -/
noncomputable def absStep (st : BState) : AbsCmd → BState
  | .move x y =>
      { cmd := some 'L', x := ↑x, y := ↑y, startX := ↑x, startY := ↑y,
        lastCubic := none, lastQuad := none,
        bbox := bbox_union st.bbox (some ⟨↑x, ↑y, ↑x, ↑y⟩) }
  | .line x y =>
      { st with cmd := some 'L', x := ↑x, y := ↑y,
                lastCubic := none, lastQuad := none,
                bbox := bbox_union st.bbox
                  (some ⟨min st.x ↑x, min st.y ↑y, max st.x ↑x, max st.y ↑y⟩) }
  | .curve x1 y1 x2 y2 x3 y3 =>
      { st with cmd := some 'C', x := ↑x3, y := ↑y3,
                lastCubic := some (↑x2, ↑y2), lastQuad := none,
                bbox := bbox_union st.bbox
                  (some (cubic_bbox st.x st.y ↑x1 ↑y1 ↑x2 ↑y2 ↑x3 ↑y3)) }
  | .quad x1 y1 x2 y2 =>
      { st with cmd := some 'Q', x := ↑x2, y := ↑y2,
                lastQuad := some (↑x1, ↑y1), lastCubic := none,
                bbox := bbox_union st.bbox
                  (some (quadratic_bbox st.x st.y ↑x1 ↑y1 ↑x2 ↑y2)) }
  | .arc rx ry rot la sw x y =>
      { st with cmd := some 'A', x := ↑x, y := ↑y,
                lastCubic := none, lastQuad := none,
                bbox := bbox_union st.bbox
                  (arc_bbox st.x st.y ↑rx ↑ry ↑rot
                    (truncQ (la : ℚ) != 0) (truncQ (sw : ℚ) != 0) ↑x ↑y) }
  | .close =>
      { st with cmd := some 'Z', x := st.startX, y := st.startY,
                lastCubic := none, lastQuad := none,
                bbox := bbox_union st.bbox
                  (some ⟨st.startX, st.startY, st.startX, st.startY⟩) }

/-- The straight-segment command letters (no curve or arc geometry). -/
def straightChars : List Char := ['M', 'm', 'L', 'l', 'H', 'h', 'V', 'v', 'Z', 'z']

/-- A token is straight when it is a number or a straight command letter. -/
def straightTok : Tok → Bool
  | Tok.cmd c => straightChars.contains c
  | Tok.num _ => true

/-- A token list is straight when all its tokens are. -/
def straightToks (toks : List Tok) : Bool := toks.all straightTok

/-- The token list starts with a moveto (or is empty). -/
def headIsMove : List Tok → Bool
  | [] => true
  | Tok.cmd c :: _ => c == 'M' || c == 'm'
  | Tok.num _ :: _ => false

/-- A token is one the interpreters support: a number, or a letter of the
tokenizer's command class. -/
def supportedTok : Tok → Bool
  | Tok.cmd c => commandChars.contains c
  | Tok.num _ => true

/-- First control point used by an `S`/`s` command in transform mode:
reflection of the last cubic control about the cursor, or the cursor. -/
def s_reflect_x (st : TState) : ℚ :=
  match st.lastCubic with
  | some pc => 2 * st.x - pc.1
  | none => st.x

/-- Second coordinate of the `S`/`s` implied control point. -/
def s_reflect_y (st : TState) : ℚ :=
  match st.lastCubic with
  | some pc => 2 * st.y - pc.2
  | none => st.y

/-- First coordinate of the `S`/`s` implied control point in bbox mode
(lines 341-346): reflection of the last cubic control about the cursor, or
the cursor. -/
noncomputable def s_reflect_bx (st : BState) : ℝ :=
  match st.lastCubic with
  | some pc => 2 * st.x - pc.1
  | none => st.x

/-- Second coordinate of the `S`/`s` implied control point in bbox mode. -/
noncomputable def s_reflect_by (st : BState) : ℝ :=
  match st.lastCubic with
  | some pc => 2 * st.y - pc.2
  | none => st.y

/-- The next token is not a number (so no implicit command repetition). -/
def headNotNumber : List Tok → Prop
  | Tok.num _ :: _ => False
  | _ => True

/-- Exactness condition for `cubic_extrema`: whenever the source's `1e-8`
guards take a degenerate branch, the discarded coefficient is exactly zero
(so no true critical point of the derivative quadratic is dropped). -/
def cubicExtremaExact (p0 p1 p2 p3 : ℝ) : Prop :=
  (|(-p0 + 3 * p1 - 3 * p2 + p3 : ℝ)| < 1 / 100000000 →
    -p0 + 3 * p1 - 3 * p2 + p3 = 0) ∧
  (|(-p0 + 3 * p1 - 3 * p2 + p3 : ℝ)| < 1 / 100000000 →
    ¬ (|(2 * (p0 - 2 * p1 + p2) : ℝ)| > 1 / 100000000) →
    2 * (p0 - 2 * p1 + p2) = 0)

/-- Exactness condition for `quadratic_extrema`. -/
def quadExtremaExact (p0 p1 p2 : ℝ) : Prop :=
  |(p0 - 2 * p1 + p2 : ℝ)| < 1 / 100000000 → p0 - 2 * p1 + p2 = 0

/-- Membership of a point in a box. -/
def inBox (px py : ℝ) (b : Box ℝ) : Prop :=
  b.minX ≤ px ∧ px ≤ b.maxX ∧ b.minY ≤ py ∧ py ≤ b.maxY

/-- Token sequence of an explicit absolute command group (letter followed by
its operands). -/
def groupTokens (g : Char × List ℚ) : List Tok :=
  Tok.cmd g.1 :: g.2.map Tok.num

/-- Token sequence of a list of explicit command groups. -/
def groupsTokens (gs : List (Char × List ℚ)) : List Tok :=
  (gs.map groupTokens).flatten

/-- Shape of an explicit absolute command group from
`{M, L, C, Q, Z}` with its exact operand count. -/
def groupShapeOK (g : Char × List ℚ) : Prop :=
  (g.1 = 'M' ∧ g.2.length = 2) ∨ (g.1 = 'L' ∧ g.2.length = 2) ∨
  (g.1 = 'C' ∧ g.2.length = 6) ∨ (g.1 = 'Q' ∧ g.2.length = 4) ∨
  (g.1 = 'Z' ∧ g.2 = [])

/-- The canonical reformatting of an explicit command group: same letter,
operands rendered by `fmt_number` in the emitter's spacing. -/
def renderGroup : Char × List ℚ → String
  | ('M', [x, y]) => "M" ++ fmt_number x ++ " " ++ fmt_number y
  | ('L', [x, y]) => "L" ++ fmt_number x ++ " " ++ fmt_number y
  | ('C', [x1, y1, x2, y2, x3, y3]) =>
      "C" ++ fmt_number x1 ++ " " ++ fmt_number y1 ++ " "
          ++ fmt_number x2 ++ " " ++ fmt_number y2 ++ " "
          ++ fmt_number x3 ++ " " ++ fmt_number y3
  | ('Q', [x1, y1, x2, y2]) =>
      "Q" ++ fmt_number x1 ++ " " ++ fmt_number y1 ++ " "
          ++ fmt_number x2 ++ " " ++ fmt_number y2
  | ('Z', []) => "Z"
  | _ => ""

/-- Canonical numeric reformatting of a path given as explicit command
groups. -/
def canonical_form (gs : List (Char × List ℚ)) : String :=
  String.intercalate " " (gs.map renderGroup)

/-- The command letters of a path-data string, in order. -/
def cmdsOf (s : String) : List Char :=
  (tokenize s).filterMap (fun t =>
    match t with
    | Tok.cmd c => some c
    | Tok.num _ => none)

/-- Corner-wise affine image of a box: scale then translate, exactly
`bbox_translate (bbox_scale (some b) k) tx ty`. -/
def boxAffine (k tx ty : ℝ) (b : Box ℝ) : Box ℝ :=
  ⟨b.minX * k + tx, b.minY * k + ty, b.maxX * k + tx, b.maxY * k + ty⟩

/-- An emitted absolute command with straight geometry only. -/
def straightAbs : AbsCmd → Bool
  | .move _ _ => true
  | .line _ _ => true
  | .close => true
  | _ => false

/-- Simulation invariant tying a transform-interpreter state `ts`, the
bbox-interpreter state `st` of the run on the original tokens, and the
bbox-interpreter state `fs` of the replay on the emitted tokens: `st` is
the real cast of `ts`, the active command is straight, and `fs` carries the
affine image of `st`'s cursor, subpath start and accumulated box (cursor
fields only once a command is active, since before the first command the
replay's cursor is never read from a moveto-led path). -/
def simInv (k tx ty : ℚ) (ts : TState) (st fs : BState) : Prop :=
  st.cmd = ts.cmd ∧
  (ts.cmd = none ∨ ∃ c, ts.cmd = some c ∧ straightChars.contains c = true) ∧
  st.x = ↑ts.x ∧ st.y = ↑ts.y ∧ st.startX = ↑ts.startX ∧ st.startY = ↑ts.startY ∧
  (ts.cmd ≠ none →
    fs.x = st.x * ↑k + ↑tx ∧ fs.y = st.y * ↑k + ↑ty ∧
    fs.startX = st.startX * ↑k + ↑tx ∧ fs.startY = st.startY * ↑k + ↑ty) ∧
  fs.bbox = st.bbox.map (boxAffine ↑k ↑tx ↑ty)

/-! ### Helper lemmas -/

/-- Unfolding of `path_bbox` through the tokenizer. -/
theorem path_bbox_eq (d : String) : path_bbox d = bbox_of_tokens (tokenize d) := rfl

/-- Unfolding of `bbox_of_tokens` on a non-empty token list. -/
theorem bbox_of_tokens_run (ts : List Tok) (h : ts ≠ []) :
    bbox_of_tokens ts = bboxLoop (ts.length + 1) ts initB := by
  simp [bbox_of_tokens, h]

/-- The tokenizer only emits numbers and command-class letters. -/
theorem tokenizeAux_supported (fuel : ℕ) :
    ∀ cs : List Char, (tokenizeAux fuel cs).all supportedTok = true := by
  induction fuel with
  | zero => intro cs; cases cs <;> rfl
  | succ n ih =>
    intro cs
    cases cs with
    | nil => rfl
    | cons c rest =>
      rw [tokenizeAux]
      by_cases hc : c ∈ commandChars
      · rw [if_pos hc]
        simp only [List.all_cons, Bool.and_eq_true]
        exact ⟨by simp [supportedTok, hc], ih rest⟩
      · rw [if_neg hc]
        cases h : scanNumber (c :: rest) with
        | none => exact ih rest
        | some p =>
          simp only [List.all_cons, Bool.and_eq_true]
          exact ⟨rfl, ih p.2⟩

/-! ### Step lemmas for the interpreter loops -/

/-- Running the bbox loop on an empty token list returns the accumulator. -/
theorem bboxLoop_nil (n : ℕ) (st : BState) :
    bboxLoop (n + 1) [] st = .ok st.bbox := by
  rw [bboxLoop]

/-- A numeric token re-enters the active command: the loop behaves as if the
letter were present. -/
theorem bboxLoop_num_entry (n : ℕ) (c : Char) (q : ℚ) (rest : List Tok)
    (st : BState) (h : st.cmd = some c) :
    bboxLoop (n + 1) (Tok.num q :: rest) st
      = bboxLoop (n + 1) (Tok.cmd c :: Tok.num q :: rest) st := by
  have hst : { st with cmd := some c } = st := by
    cases st; cases h; rfl
  rw [bboxLoop, bboxLoop]
  simp only [headCommandB, h, hst]

/-- One `M` command in bbox mode. -/
theorem bboxLoop_cmd_M (n : ℕ) (x y : ℚ) (rest : List Tok) (st : BState) :
    bboxLoop (n + 1) (Tok.cmd 'M' :: Tok.num x :: Tok.num y :: rest) st
      = bboxLoop n rest
        { cmd := some 'L', x := ↑x, y := ↑y, startX := ↑x, startY := ↑y,
          lastCubic := none, lastQuad := none,
          bbox := bbox_union st.bbox (some ⟨↑x, ↑y, ↑x, ↑y⟩) } := by
  rw [bboxLoop]
  simp only [headCommandB, readNumB, bind, Except.bind]
  simp

/-- One `m` command in bbox mode. -/
theorem bboxLoop_cmd_m (n : ℕ) (x y : ℚ) (rest : List Tok) (st : BState) :
    bboxLoop (n + 1) (Tok.cmd 'm' :: Tok.num x :: Tok.num y :: rest) st
      = bboxLoop n rest
        { cmd := some 'l', x := ↑x + st.x, y := ↑y + st.y,
          startX := ↑x + st.x, startY := ↑y + st.y,
          lastCubic := none, lastQuad := none,
          bbox := bbox_union st.bbox
            (some ⟨↑x + st.x, ↑y + st.y, ↑x + st.x, ↑y + st.y⟩) } := by
  rw [bboxLoop]
  simp only [headCommandB, readNumB, bind, Except.bind]
  simp

/-- One `Z` command in bbox mode. -/
theorem bboxLoop_cmd_Z (n : ℕ) (rest : List Tok) (st : BState) :
    bboxLoop (n + 1) (Tok.cmd 'Z' :: rest) st
      = bboxLoop n rest
        { st with cmd := some 'Z', x := st.startX, y := st.startY,
                  lastCubic := none, lastQuad := none,
                  bbox := bbox_union st.bbox
                    (some ⟨st.startX, st.startY, st.startX, st.startY⟩) } := by
  rw [bboxLoop]
  simp only [headCommandB, readNumB, bind, Except.bind]
  simp

/-- One `z` command in bbox mode. -/
theorem bboxLoop_cmd_z (n : ℕ) (rest : List Tok) (st : BState) :
    bboxLoop (n + 1) (Tok.cmd 'z' :: rest) st
      = bboxLoop n rest
        { st with cmd := some 'z', x := st.startX, y := st.startY,
                  lastCubic := none, lastQuad := none,
                  bbox := bbox_union st.bbox
                    (some ⟨st.startX, st.startY, st.startX, st.startY⟩) } := by
  rw [bboxLoop]
  simp only [headCommandB, readNumB, bind, Except.bind]
  simp

/-- One `L` command in bbox mode. -/
theorem bboxLoop_cmd_L (n : ℕ) (x y : ℚ) (rest : List Tok) (st : BState) :
    bboxLoop (n + 1) (Tok.cmd 'L' :: Tok.num x :: Tok.num y :: rest) st
      = bboxLoop n rest
        { st with cmd := some 'L', x := ↑x, y := ↑y,
                  lastCubic := none, lastQuad := none,
                  bbox := bbox_union st.bbox
                    (some ⟨min st.x ↑x, min st.y ↑y, max st.x ↑x, max st.y ↑y⟩) } := by
  rw [bboxLoop]
  simp only [headCommandB, readNumB, bind, Except.bind]
  simp

/-- One `l` command in bbox mode. -/
theorem bboxLoop_cmd_l (n : ℕ) (x y : ℚ) (rest : List Tok) (st : BState) :
    bboxLoop (n + 1) (Tok.cmd 'l' :: Tok.num x :: Tok.num y :: rest) st
      = bboxLoop n rest
        { st with cmd := some 'l', x := ↑x + st.x, y := ↑y + st.y,
                  lastCubic := none, lastQuad := none,
                  bbox := bbox_union st.bbox
                    (some ⟨min st.x (↑x + st.x), min st.y (↑y + st.y),
                           max st.x (↑x + st.x), max st.y (↑y + st.y)⟩) } := by
  rw [bboxLoop]
  simp only [headCommandB, readNumB, bind, Except.bind]
  simp

/-- One `H` command in bbox mode. -/
theorem bboxLoop_cmd_H (n : ℕ) (x : ℚ) (rest : List Tok) (st : BState) :
    bboxLoop (n + 1) (Tok.cmd 'H' :: Tok.num x :: rest) st
      = bboxLoop n rest
        { st with cmd := some 'H', x := ↑x,
                  lastCubic := none, lastQuad := none,
                  bbox := bbox_union st.bbox
                    (some ⟨min st.x ↑x, st.y, max st.x ↑x, st.y⟩) } := by
  rw [bboxLoop]
  simp only [headCommandB, readNumB, bind, Except.bind]
  simp

/-- One `h` command in bbox mode. -/
theorem bboxLoop_cmd_h (n : ℕ) (x : ℚ) (rest : List Tok) (st : BState) :
    bboxLoop (n + 1) (Tok.cmd 'h' :: Tok.num x :: rest) st
      = bboxLoop n rest
        { st with cmd := some 'h', x := ↑x + st.x,
                  lastCubic := none, lastQuad := none,
                  bbox := bbox_union st.bbox
                    (some ⟨min st.x (↑x + st.x), st.y, max st.x (↑x + st.x), st.y⟩) } := by
  rw [bboxLoop]
  simp only [headCommandB, readNumB, bind, Except.bind]
  simp

/-- One `V` command in bbox mode. -/
theorem bboxLoop_cmd_V (n : ℕ) (y : ℚ) (rest : List Tok) (st : BState) :
    bboxLoop (n + 1) (Tok.cmd 'V' :: Tok.num y :: rest) st
      = bboxLoop n rest
        { st with cmd := some 'V', y := ↑y,
                  lastCubic := none, lastQuad := none,
                  bbox := bbox_union st.bbox
                    (some ⟨st.x, min st.y ↑y, st.x, max st.y ↑y⟩) } := by
  rw [bboxLoop]
  simp only [headCommandB, readNumB, bind, Except.bind]
  simp

/-- One `v` command in bbox mode. -/
theorem bboxLoop_cmd_v (n : ℕ) (y : ℚ) (rest : List Tok) (st : BState) :
    bboxLoop (n + 1) (Tok.cmd 'v' :: Tok.num y :: rest) st
      = bboxLoop n rest
        { st with cmd := some 'v', y := ↑y + st.y,
                  lastCubic := none, lastQuad := none,
                  bbox := bbox_union st.bbox
                    (some ⟨st.x, min st.y (↑y + st.y), st.x, max st.y (↑y + st.y)⟩) } := by
  rw [bboxLoop]
  simp only [headCommandB, readNumB, bind, Except.bind]
  simp

/-- One absolute `C` command in bbox mode. -/
theorem bboxLoop_cmd_C (n : ℕ) (x1 y1 x2 y2 x3 y3 : ℚ) (rest : List Tok)
    (st : BState) :
    bboxLoop (n + 1) (Tok.cmd 'C' :: Tok.num x1 :: Tok.num y1 :: Tok.num x2 ::
        Tok.num y2 :: Tok.num x3 :: Tok.num y3 :: rest) st
      = bboxLoop n rest
        { st with cmd := some 'C', x := ↑x3, y := ↑y3,
                  lastCubic := some (↑x2, ↑y2), lastQuad := none,
                  bbox := bbox_union st.bbox
                    (some (cubic_bbox st.x st.y ↑x1 ↑y1 ↑x2 ↑y2 ↑x3 ↑y3)) } := by
  rw [bboxLoop]
  simp only [headCommandB, readNumB, bind, Except.bind]
  simp

/-- One absolute `S` command in bbox mode: the first control point is the
reflection of the last cubic control about the cursor, or the cursor. -/
theorem bboxLoop_cmd_S (n : ℕ) (x2 y2 x3 y3 : ℚ) (rest : List Tok)
    (st : BState) :
    bboxLoop (n + 1) (Tok.cmd 'S' :: Tok.num x2 :: Tok.num y2 :: Tok.num x3 ::
        Tok.num y3 :: rest) st
      = bboxLoop n rest
        { st with cmd := some 'S', x := ↑x3, y := ↑y3,
                  lastCubic := some (↑x2, ↑y2), lastQuad := none,
                  bbox := bbox_union st.bbox
                    (some (cubic_bbox st.x st.y
                      (match st.lastCubic with
                        | some pc => 2 * st.x - pc.1
                        | none => st.x)
                      (match st.lastCubic with
                        | some pc => 2 * st.y - pc.2
                        | none => st.y)
                      ↑x2 ↑y2 ↑x3 ↑y3)) } := by
  rw [bboxLoop]
  simp only [headCommandB, readNumB, bind, Except.bind]
  simp

/-! ### Claim C9 -/

/-- Claim C9 counterexample: `"@@@"` is non-empty and yields zero tokens,
yet `path_bbox` returns `None` and `transform_path_data` returns `""` — no
`MalformedPathData` error is raised. -/
theorem c9_counterexample :
    ("@@@" : String) ≠ "" ∧ tokenize "@@@" = [] ∧
    path_bbox "@@@" = .ok none ∧ transform_path_data "@@@" 1 0 0 = .ok "" := by
  refine ⟨by decide, by decide, ?_, by decide⟩
  rw [path_bbox_eq, show tokenize "@@@" = [] from by decide]
  rfl

/-- Claim C9 amended: for every non-empty path-data string from which the
tokenizer extracts zero tokens, both interpreters succeed silently —
`path_bbox` returns the null box and `transform_path_data` the empty string
(no error of any kind is raised). -/
theorem c9_zero_tokens (d : String) (scale tx ty : ℚ)
    (_h1 : d ≠ "") (h2 : tokenize d = []) :
    path_bbox d = .ok none ∧ transform_path_data d scale tx ty = .ok "" := by
  refine ⟨?_, ?_⟩
  · rw [path_bbox_eq, h2]; rfl
  · simp [transform_path_data, h2]

/-- Claim C9 witness: the amended theorem applied at `"@#$"`. -/
theorem c9_witness :
    (("@#$" : String) ≠ "" ∧ tokenize "@#$" = []) ∧
    (path_bbox "@#$" = .ok none ∧ transform_path_data "@#$" 1 2 3 = .ok "") :=
  ⟨⟨by decide, by decide⟩, c9_zero_tokens "@#$" 1 2 3 (by decide) (by decide)⟩

/-! ### Claim C10 -/

/-- Claim C10 counterexample: `-0.00001` and `0.00001` are distinct inputs
in the 4-decimal branch that agree after rounding to 4 decimal places
(both round to 0), yet they render as `"-0"` and `"0"` — not identically. -/
theorem c10_counterexample :
    ((-1 : ℚ) / 100000 ≠ 1 / 100000) ∧
    roundHalfEven ((-1 : ℚ) / 100000 * 10000)
      = roundHalfEven ((1 : ℚ) / 100000 * 10000) ∧
    ¬ |(-1 : ℚ) / 100000 - round ((-1 : ℚ) / 100000)| < 1 / 1000000 ∧
    ¬ |(1 : ℚ) / 100000 - round ((1 : ℚ) / 100000)| < 1 / 1000000 ∧
    fmt_number ((-1 : ℚ) / 100000) = "-0" ∧
    fmt_number ((1 : ℚ) / 100000) = "0" ∧
    ("-0" : String) ≠ "0" := by decide

/-- Claim C10 amended: a value within `1e-6` of an integer renders as that
integer; two values in the 4-decimal branch render identically when they
agree after rounding to 4 decimal places AND have the same sign (a negative
value that rounds to zero renders as `"-0"`, unlike its positive
counterpart). -/
theorem c10_fmt_number :
    (∀ v : ℚ, |v - round v| < 1 / 1000000 →
      fmt_number v = toString (round v)) ∧
    (∀ v w : ℚ, ¬ |v - round v| < 1 / 1000000 → ¬ |w - round w| < 1 / 1000000 →
      roundHalfEven (v * 10000) = roundHalfEven (w * 10000) →
      (v < 0 ↔ w < 0) → fmt_number v = fmt_number w) := by
  constructor
  · intro v h
    rw [fmt_number, if_pos h]
  · intro v w hv hw hr hs
    have hsgn : (if v < 0 then "-" else "") = (if w < 0 then "-" else "") := by
      by_cases h : v < 0
      · rw [if_pos h, if_pos (hs.mp h)]
      · rw [if_neg h, if_neg (fun h0 => h (hs.mpr h0))]
    rw [fmt_number, if_neg hv, fmt_number, if_neg hw, renderFixed4, renderFixed4,
      hr, hsgn]

/-- Claim C10 witness: the near-integer branch at `0.9999995`, and the
4-decimal branch at `0.00012` vs `0.00013` (both render as `"0.0001"`). -/
theorem c10_witness :
    (|(1999999 : ℚ) / 2000000 - round ((1999999 : ℚ) / 2000000)| < 1 / 1000000 ∧
      fmt_number ((1999999 : ℚ) / 2000000)
        = toString (round ((1999999 : ℚ) / 2000000))) ∧
    (¬ |(12 : ℚ) / 100000 - round ((12 : ℚ) / 100000)| < 1 / 1000000 ∧
      ¬ |(13 : ℚ) / 100000 - round ((13 : ℚ) / 100000)| < 1 / 1000000 ∧
      roundHalfEven ((12 : ℚ) / 100000 * 10000)
        = roundHalfEven ((13 : ℚ) / 100000 * 10000) ∧
      ((12 : ℚ) / 100000 < 0 ↔ (13 : ℚ) / 100000 < 0) ∧
      fmt_number ((12 : ℚ) / 100000) = fmt_number ((13 : ℚ) / 100000)) :=
  ⟨⟨by decide, c10_fmt_number.1 _ (by decide)⟩,
   ⟨by decide, by decide, by decide, by decide,
    c10_fmt_number.2 _ _ (by decide) (by decide) (by decide) (by decide)⟩⟩

/-! ### Claim C8 -/

/-- Claim C8 counterexample: `"M 0 0 X 5 5"` contains the unsupported
letter `X`, yet both interpreters produce a result instead of failing: the
tokenizer silently drops `X` and the remaining numbers continue the
implicit lineto. -/
theorem c8_counterexample :
    ('X' ∈ ("M 0 0 X 5 5" : String).data) ∧ 'X' ∉ commandChars ∧
    transform_path_data "M 0 0 X 5 5" 1 0 0 = .ok "M0 0 L5 5" ∧
    path_bbox "M 0 0 X 5 5" = .ok (some ⟨0, 0, 5, 5⟩) := by
  refine ⟨by decide, by decide, by decide, ?_⟩
  rw [path_bbox_eq, show tokenize "M 0 0 X 5 5"
    = [Tok.cmd 'M', Tok.num 0, Tok.num 0, Tok.num 5, Tok.num 5] from by decide]
  rw [bbox_of_tokens_run _ (by simp),
    show ([Tok.cmd 'M', Tok.num 0, Tok.num 0, Tok.num 5, Tok.num 5] : List Tok).length + 1
      = 5 + 1 from by simp]
  rw [bboxLoop_cmd_M, show (5 : ℕ) = 4 + 1 from rfl,
    bboxLoop_num_entry 4 'L' 5 _ _ rfl, bboxLoop_cmd_L, show (4 : ℕ) = 3 + 1 from rfl,
    bboxLoop_nil]
  simp only [initB, bbox_union]
  norm_num [min_def, max_def]

/-- Claim C8 amended: letters outside the command class never reach the
interpreters — the tokenizer's regex silently discards them (every token is
a number or a supported command letter), so a path containing such a letter
is interpreted as if the letter were absent; `"M 0 0 X 5 5"` is interpreted
exactly like `"M 0 0 5 5"` in both modes, producing results rather than an
`UnsupportedPathCommand` error. -/
theorem c8_unsupported_dropped :
    (∀ s : String, (tokenize s).all supportedTok = true) ∧
    tokenize "M 0 0 X 5 5" = tokenize "M 0 0 5 5" ∧
    transform_path_data "M 0 0 X 5 5" 1 0 0
      = transform_path_data "M 0 0 5 5" 1 0 0 ∧
    path_bbox "M 0 0 X 5 5" = path_bbox "M 0 0 5 5" := by
  refine ⟨fun s => tokenizeAux_supported _ _, by decide, by decide, ?_⟩
  rw [path_bbox_eq, path_bbox_eq,
    show tokenize "M 0 0 X 5 5" = tokenize "M 0 0 5 5" from by decide]

/-! ### Claim C3 -/

/-- Claim C3: for every base icon and overlay icon with a non-null content
bounding box and every scale, the layout anchors the scaled overlay flush
against the base viewport's top-right corner:
`overlay_translate_x = vb_width - scaledBox.maxX`,
`overlay_translate_y = -scaledBox.minY`, hence the placed overlay's maximum
x coordinate equals the base viewport width exactly. -/
theorem c3_overlay_anchor (base overlay : ParsedIcon) (s : ℚ) (b : Box ℚ)
    (hb : paths_bbox overlay = some b) (_hs : 0 < s) :
    overlay_bbox overlay = b ∧
    overlay_translate_x base overlay s
      = base.vb_width - (overlay_scaled_bbox overlay s).maxX ∧
    overlay_translate_y overlay s = -(overlay_scaled_bbox overlay s).minY ∧
    (overlay_scaled_bbox overlay s).maxX + overlay_translate_x base overlay s
      = base.vb_width := by
  refine ⟨by simp [overlay_bbox, hb], rfl, rfl, ?_⟩
  rw [overlay_translate_x]
  ring

/-- Claim C3 witness: the spec's example — base viewport `0,0,24,24`,
overlay content box `4,4,20,20`, scale `1/2`, so the scaled normalized box
is `2,2,10,10`, the overlay translation is `(14, -2)`, and the placed
`maxX` is exactly `24`. -/
theorem c3_witness :
    (paths_bbox ⟨some 24, some 24, 0, 0, 24, 24,
        [⟨"", "#000000", some ⟨4, 4, 20, 20⟩⟩]⟩ = some ⟨4, 4, 20, 20⟩
      ∧ (0 : ℚ) < 1 / 2) ∧
    (overlay_scaled_bbox ⟨some 24, some 24, 0, 0, 24, 24,
        [⟨"", "#000000", some ⟨4, 4, 20, 20⟩⟩]⟩ (1 / 2) = ⟨2, 2, 10, 10⟩ ∧
      overlay_translate_x ⟨some 24, some 24, 0, 0, 24, 24, []⟩
        ⟨some 24, some 24, 0, 0, 24, 24,
          [⟨"", "#000000", some ⟨4, 4, 20, 20⟩⟩]⟩ (1 / 2) = 14) ∧
    (overlay_scaled_bbox ⟨some 24, some 24, 0, 0, 24, 24,
          [⟨"", "#000000", some ⟨4, 4, 20, 20⟩⟩]⟩ (1 / 2)).maxX
      + overlay_translate_x ⟨some 24, some 24, 0, 0, 24, 24, []⟩
        ⟨some 24, some 24, 0, 0, 24, 24,
          [⟨"", "#000000", some ⟨4, 4, 20, 20⟩⟩]⟩ (1 / 2) = 24 :=
  ⟨⟨by decide, by decide⟩, ⟨by decide, by decide⟩,
    (c3_overlay_anchor ⟨some 24, some 24, 0, 0, 24, 24, []⟩
      ⟨some 24, some 24, 0, 0, 24, 24, [⟨"", "#000000", some ⟨4, 4, 20, 20⟩⟩]⟩
      (1 / 2) ⟨4, 4, 20, 20⟩ (by decide) (by decide)).2.2.2⟩

/-! ### Claim C4 -/

/-- Claim C4: with a positive gap, the cut-out scale is
`scale * (1 + 2*gapInViewUnits/maxOverlayDimension)` when the overlay's
larger dimension is positive and `scale` otherwise, where the gap in view
units is `gap * (vb_width / declaredWidth)` (and just `gap` when the icon
declares no physical width). -/
theorem c4_cutout_scale (base overlay : ParsedIcon) (scale gap_dp : ℚ)
    (_hgap : 0 < gap_dp) (hvb : 0 < base.vb_width) :
    (0 < max_dim overlay →
      hole_scale base overlay scale gap_dp
        = scale * (1 + (2 * gap_vb base gap_dp) / max_dim overlay)) ∧
    (max_dim overlay ≤ 0 → hole_scale base overlay scale gap_dp = scale) ∧
    (base.width = none → gap_vb base gap_dp = gap_dp) ∧
    (∀ w : ℚ, base.width = some w → w ≠ 0 →
      gap_vb base gap_dp = gap_dp * (base.vb_width / w)) := by
  refine ⟨fun h => ?_, fun h => ?_, fun h => ?_, fun w hw hw0 => ?_⟩
  · rw [hole_scale, if_neg (not_le.mpr h)]
  · rw [hole_scale, if_pos h]
  · have hwd : width_dp base = base.vb_width := by rw [width_dp, h]
    rw [gap_vb, hwd, if_pos (ne_of_gt hvb)]
    field_simp
  · have hwd : width_dp base = w := by simp [width_dp, hw, hw0]
    rw [gap_vb, hwd, if_pos hw0]

/-- Claim C4 witness: a base icon of declared width 48 and viewport width
24 converts a gap of 2 into 1 view unit; an overlay content box `4,4,20,20`
has `max_dim = 16`, so the cut-out scale at overlay scale `1/2` is
`(1/2)*(1 + 2/16)`. -/
theorem c4_witness :
    ((0 : ℚ) < 2 ∧
      (0 : ℚ) < (⟨some 48, some 48, 0, 0, 24, 24, []⟩ : ParsedIcon).vb_width) ∧
    (0 : ℚ) < max_dim ⟨some 24, some 24, 0, 0, 24, 24,
        [⟨"", "#000000", some ⟨4, 4, 20, 20⟩⟩]⟩ ∧
    hole_scale ⟨some 48, some 48, 0, 0, 24, 24, []⟩
        ⟨some 24, some 24, 0, 0, 24, 24, [⟨"", "#000000", some ⟨4, 4, 20, 20⟩⟩]⟩
        (1 / 2) 2
      = (1 / 2) * (1 + (2 * gap_vb ⟨some 48, some 48, 0, 0, 24, 24, []⟩ 2)
          / max_dim ⟨some 24, some 24, 0, 0, 24, 24,
              [⟨"", "#000000", some ⟨4, 4, 20, 20⟩⟩]⟩) :=
  ⟨⟨by decide, by decide⟩, by decide,
    (c4_cutout_scale ⟨some 48, some 48, 0, 0, 24, 24, []⟩
      ⟨some 24, some 24, 0, 0, 24, 24, [⟨"", "#000000", some ⟨4, 4, 20, 20⟩⟩]⟩
      (1 / 2) 2 (by decide) (by decide)).1 (by decide)⟩

/-! ### Claim C5 -/

/-- Claim C5: with gap parameter 0 the gap in view units is 0, so the
cut-out scale equals the overlay scale exactly, no hole path is produced,
the smoothed base outline is never used, the base path data is exactly the
transformed base outlines with nothing appended, and the even-odd fill-type
attribute is absent from the emitted base path element. -/
theorem c5_zero_gap (base overlay : ParsedIcon) (scale : ℚ) (smooth : Bool)
    (outcome : Option (List String × Option (List String))) :
    gap_vb base 0 = 0 ∧
    hole_scale base overlay scale 0 = scale ∧
    hole_paths base overlay scale 0 smooth outcome = .ok [] ∧
    smooth_base_paths base 0 smooth outcome = none ∧
    combined_base_and_fill base overlay scale 0 smooth outcome
      = (transformed_base_paths base).map
          (fun tbp => (String.intercalate " " tbp, "")) ∧
    base_path_line base overlay scale 0 smooth outcome
      = (transformed_base_paths base).map
          (fun tbp => "    <path android:fillColor=\"@android:color/white\""
            ++ " android:pathData=\"" ++ String.intercalate " " tbp ++ "\" />") := by
  have hg : gap_vb base 0 = 0 := by
    rw [gap_vb]
    split_ifs <;> ring
  have hhs : hole_scale base overlay scale 0 = scale := by
    rw [hole_scale]
    split_ifs with h
    · rfl
    · rw [hg]
      ring
  have hhp : hole_paths base overlay scale 0 smooth outcome = .ok [] := by
    rw [hole_paths, if_neg (by rw [hg]; exact lt_irrefl 0)]
  have hsb : smooth_base_paths base 0 smooth outcome = none := by
    simp only [smooth_base_paths, smooth_resolved]
    rw [if_neg (fun hc : gap_vb base 0 > 0 ∧ smooth = true =>
      absurd hc.1 (by rw [hg]; exact lt_irrefl 0))]
  have hcf : combined_base_and_fill base overlay scale 0 smooth outcome
      = (transformed_base_paths base).map
          (fun tbp => (String.intercalate " " tbp, "")) := by
    rw [combined_base_and_fill, hhp]
    cases htb : transformed_base_paths base with
    | error e => simp [hsb, htb, bind, Except.bind, Except.map]
    | ok tbp => simp [hsb, htb, bind, Except.bind, Except.map]
  refine ⟨hg, hhs, hhp, hsb, hcf, ?_⟩
  rw [base_path_line, hcf]
  cases htb : transformed_base_paths base with
  | error e => simp [bind, Except.bind, Except.map]
  | ok tbp => simp [bind, Except.bind, Except.map, String.append_empty]

/-! ### Step lemmas for the transform loop -/

/-- Binding a pure cons equals mapping it. -/
theorem except_bind_ok_cons {α : Type} (e : Except PErr (List α)) (a : α) :
    Except.bind e (fun out => Except.ok (a :: out))
      = Except.map (fun out => a :: out) e := by
  cases e <;> rfl

/-- Running the transform loop on an empty token list emits nothing. -/
theorem transformLoop_nil (scale tx ty : ℚ) (n : ℕ) (st : TState) :
    transformLoop scale tx ty (n + 1) [] st = .ok [] := by
  rw [transformLoop]

/-- One `M` command in transform mode. -/
theorem transformLoop_cmd_M (scale tx ty : ℚ) (n : ℕ) (x y : ℚ)
    (rest : List Tok) (st : TState) :
    transformLoop scale tx ty (n + 1)
        (Tok.cmd 'M' :: Tok.num x :: Tok.num y :: rest) st
      = Except.map
          (fun out => ("M" ++ fmt_number (x * scale + tx) ++ " "
            ++ fmt_number (y * scale + ty)) :: out)
          (transformLoop scale tx ty n rest
            { cmd := some 'L', x := x, y := y, startX := x, startY := y,
              lastCubic := none, lastQuad := none }) := by
  rw [transformLoop]
  simp only [headCommand, readNumT, bind, Except.bind, transform_point]
  simp
  cases transformLoop scale tx ty n rest ⟨some 'L', x, y, x, y, none, none⟩ <;> rfl

/-- One `L` command in transform mode. -/
theorem transformLoop_cmd_L (scale tx ty : ℚ) (n : ℕ) (x y : ℚ)
    (rest : List Tok) (st : TState) :
    transformLoop scale tx ty (n + 1)
        (Tok.cmd 'L' :: Tok.num x :: Tok.num y :: rest) st
      = Except.map
          (fun out => ("L" ++ fmt_number (x * scale + tx) ++ " "
            ++ fmt_number (y * scale + ty)) :: out)
          (transformLoop scale tx ty n rest
            { st with cmd := some 'L', x := x, y := y,
                      lastCubic := none, lastQuad := none }) := by
  rw [transformLoop]
  simp only [headCommand, readNumT, bind, Except.bind, transform_point]
  simp
  cases transformLoop scale tx ty n rest ⟨some 'L', x, y, st.startX, st.startY, none, none⟩ <;> rfl

/-- One `Z` command in transform mode. -/
theorem transformLoop_cmd_Z (scale tx ty : ℚ) (n : ℕ)
    (rest : List Tok) (st : TState) :
    transformLoop scale tx ty (n + 1) (Tok.cmd 'Z' :: rest) st
      = Except.map (fun out => "Z" :: out)
          (transformLoop scale tx ty n rest
            { st with cmd := some 'Z', x := st.startX, y := st.startY,
                      lastCubic := none, lastQuad := none }) := by
  rw [transformLoop]
  simp only [headCommand, readNumT, bind, Except.bind, transform_point]
  simp
  cases transformLoop scale tx ty n rest
    ⟨some 'Z', st.startX, st.startY, st.startX, st.startY, none, none⟩ <;> rfl

/-- One absolute `C` command in transform mode. -/
theorem transformLoop_cmd_C (scale tx ty : ℚ) (n : ℕ) (x1 y1 x2 y2 x3 y3 : ℚ)
    (rest : List Tok) (st : TState) :
    transformLoop scale tx ty (n + 1)
        (Tok.cmd 'C' :: Tok.num x1 :: Tok.num y1 :: Tok.num x2 :: Tok.num y2 ::
          Tok.num x3 :: Tok.num y3 :: rest) st
      = Except.map
          (fun out => ("C" ++ fmt_number (x1 * scale + tx) ++ " "
            ++ fmt_number (y1 * scale + ty) ++ " "
            ++ fmt_number (x2 * scale + tx) ++ " "
            ++ fmt_number (y2 * scale + ty) ++ " "
            ++ fmt_number (x3 * scale + tx) ++ " "
            ++ fmt_number (y3 * scale + ty)) :: out)
          (transformLoop scale tx ty n rest
            { st with cmd := some 'C', x := x3, y := y3,
                      lastCubic := some (x2, y2), lastQuad := none }) := by
  rw [transformLoop]
  simp only [headCommand, readNumT, bind, Except.bind, transform_point]
  simp
  cases transformLoop scale tx ty n rest
    ⟨some 'C', x3, y3, st.startX, st.startY, some (x2, y2), none⟩ <;> rfl

/-- One absolute `S` command in transform mode: emitted as an explicit `C`
whose first control point is the shorthand reflection. -/
theorem transformLoop_cmd_S (scale tx ty : ℚ) (n : ℕ) (x2 y2 x3 y3 : ℚ)
    (rest : List Tok) (st : TState) :
    transformLoop scale tx ty (n + 1)
        (Tok.cmd 'S' :: Tok.num x2 :: Tok.num y2 :: Tok.num x3 :: Tok.num y3 ::
          rest) st
      = Except.map
          (fun out => ("C" ++ fmt_number (s_reflect_x st * scale + tx) ++ " "
            ++ fmt_number (s_reflect_y st * scale + ty) ++ " "
            ++ fmt_number (x2 * scale + tx) ++ " "
            ++ fmt_number (y2 * scale + ty) ++ " "
            ++ fmt_number (x3 * scale + tx) ++ " "
            ++ fmt_number (y3 * scale + ty)) :: out)
          (transformLoop scale tx ty n rest
            { st with cmd := some 'S', x := x3, y := y3,
                      lastCubic := some (x2, y2), lastQuad := none }) := by
  rw [transformLoop]
  simp only [headCommand, readNumT, bind, Except.bind, transform_point,
    s_reflect_x, s_reflect_y]
  simp
  cases transformLoop scale tx ty n rest
    ⟨some 'S', x3, y3, st.startX, st.startY, some (x2, y2), none⟩ <;> rfl

/-- One absolute `Q` command in transform mode. -/
theorem transformLoop_cmd_Q (scale tx ty : ℚ) (n : ℕ) (x1 y1 x2 y2 : ℚ)
    (rest : List Tok) (st : TState) :
    transformLoop scale tx ty (n + 1)
        (Tok.cmd 'Q' :: Tok.num x1 :: Tok.num y1 :: Tok.num x2 :: Tok.num y2 ::
          rest) st
      = Except.map
          (fun out => ("Q" ++ fmt_number (x1 * scale + tx) ++ " "
            ++ fmt_number (y1 * scale + ty) ++ " "
            ++ fmt_number (x2 * scale + tx) ++ " "
            ++ fmt_number (y2 * scale + ty)) :: out)
          (transformLoop scale tx ty n rest
            { st with cmd := some 'Q', x := x2, y := y2,
                      lastQuad := some (x1, y1), lastCubic := none }) := by
  rw [transformLoop]
  simp only [headCommand, readNumT, bind, Except.bind, transform_point]
  simp
  cases transformLoop scale tx ty n rest
    ⟨some 'Q', x2, y2, st.startX, st.startY, none, some (x1, y1)⟩ <;> rfl

/-- Unfolding of `transform_path_data` on a string with tokens. -/
theorem transform_path_data_run (d : String) (scale tx ty : ℚ)
    (h : tokenize d ≠ []) :
    transform_path_data d scale tx ty
      = (transformLoop scale tx ty ((tokenize d).length + 1) (tokenize d)
          initT).map (String.intercalate " ") := by
  simp [transform_path_data, h]

/-- The transform loop ignores the stored active command when the next
token is not a number (no implicit repetition). -/
theorem transformLoop_set_cmd (scale tx ty : ℚ) (n : ℕ) (rest : List Tok)
    (st : TState) (c : Option Char) (hrest : headNotNumber rest) :
    transformLoop scale tx ty n rest { st with cmd := c }
      = transformLoop scale tx ty n rest st := by
  cases rest with
  | nil =>
    cases n with
    | zero => rfl
    | succ m => rw [transformLoop_nil, transformLoop_nil]
  | cons t rs =>
    cases t with
    | num q => exact absurd hrest (by simp [headNotNumber])
    | cmd c' =>
      cases n with
      | zero => rfl
      | succ m =>
        rw [transformLoop, transformLoop]
        rfl

/-- One relative `s` command in transform mode: emitted as an explicit `C`
whose first control point is the shorthand reflection (absolute) and whose
remaining operands are resolved against the cursor. -/
theorem transformLoop_cmd_s (scale tx ty : ℚ) (n : ℕ) (x2 y2 x3 y3 : ℚ)
    (rest : List Tok) (st : TState) :
    transformLoop scale tx ty (n + 1)
        (Tok.cmd 's' :: Tok.num x2 :: Tok.num y2 :: Tok.num x3 :: Tok.num y3 ::
          rest) st
      = Except.map
          (fun out => ("C" ++ fmt_number (s_reflect_x st * scale + tx) ++ " "
            ++ fmt_number (s_reflect_y st * scale + ty) ++ " "
            ++ fmt_number ((x2 + st.x) * scale + tx) ++ " "
            ++ fmt_number ((y2 + st.y) * scale + ty) ++ " "
            ++ fmt_number ((x3 + st.x) * scale + tx) ++ " "
            ++ fmt_number ((y3 + st.y) * scale + ty)) :: out)
          (transformLoop scale tx ty n rest
            { st with cmd := some 's', x := x3 + st.x, y := y3 + st.y,
                      lastCubic := some (x2 + st.x, y2 + st.y),
                      lastQuad := none }) := by
  rw [transformLoop]
  simp only [headCommand, readNumT, bind, Except.bind, transform_point,
    s_reflect_x, s_reflect_y]
  simp
  cases transformLoop scale tx ty n rest
    ⟨some 's', x3 + st.x, y3 + st.y, st.startX, st.startY,
     some (x2 + st.x, y2 + st.y), none⟩ <;> rfl

/-- One relative `s` command in bbox mode: the first control point is the
shorthand reflection (absolute), the remaining operands are resolved
against the cursor. -/
theorem bboxLoop_cmd_s (n : ℕ) (x2 y2 x3 y3 : ℚ) (rest : List Tok)
    (st : BState) :
    bboxLoop (n + 1) (Tok.cmd 's' :: Tok.num x2 :: Tok.num y2 :: Tok.num x3 ::
        Tok.num y3 :: rest) st
      = bboxLoop n rest
        { st with cmd := some 's', x := ↑x3 + st.x, y := ↑y3 + st.y,
                  lastCubic := some (↑x2 + st.x, ↑y2 + st.y), lastQuad := none,
                  bbox := bbox_union st.bbox
                    (some (cubic_bbox st.x st.y (s_reflect_bx st)
                      (s_reflect_by st) (↑x2 + st.x) (↑y2 + st.y)
                      (↑x3 + st.x) (↑y3 + st.y))) } := by
  rw [bboxLoop]
  simp only [headCommandB, readNumB, bind, Except.bind, s_reflect_bx,
    s_reflect_by]
  simp

/-- The bbox loop ignores the stored active command when the next token is
not a number (no implicit repetition). -/
theorem bboxLoop_set_cmd (n : ℕ) (rest : List Tok) (st : BState)
    (c : Option Char) (hrest : headNotNumber rest) :
    bboxLoop n rest { st with cmd := c } = bboxLoop n rest st := by
  cases rest with
  | nil =>
    cases n with
    | zero => rfl
    | succ m => rw [bboxLoop_nil, bboxLoop_nil]
  | cons t rs =>
    cases t with
    | num q => exact absurd hrest (by simp [headNotNumber])
    | cmd c' =>
      cases n with
      | zero => rfl
      | succ m =>
        rw [bboxLoop, bboxLoop]
        rfl

/-! ### Claim C6 -/

/-- Claim C6: in both interpreter modes, an `S`/`s` command uses as its
first control point the reflection of the previous cubic control about the
cursor when one was recorded, and the cursor otherwise: the implied control
(`s_reflect_x`/`s_reflect_y` in transform mode, `s_reflect_bx`/`s_reflect_by`
in bbox mode) satisfies exactly that case law; in transform mode `S`/`s`
is interpreted as the explicit `C` with that first control point, and in
bbox mode the `S`/`s` step accumulates the cubic box built from that first
control point. Consequently the concrete path
`C 0,0 10,0 10,10 S 10,20 0,20` yields the same bounding box and the same
transformed output (for every scale and translation) as its expanded form
`C 0,0 10,0 10,10 C 10,20 10,20 0,20`. -/
theorem c6_shorthand_reflection :
    (∀ (st : TState) (pc : ℚ × ℚ), st.lastCubic = some pc →
      s_reflect_x st = 2 * st.x - pc.1 ∧ s_reflect_y st = 2 * st.y - pc.2) ∧
    (∀ st : TState, st.lastCubic = none →
      s_reflect_x st = st.x ∧ s_reflect_y st = st.y) ∧
    (∀ (st : BState) (pc : ℝ × ℝ), st.lastCubic = some pc →
      s_reflect_bx st = 2 * st.x - pc.1 ∧ s_reflect_by st = 2 * st.y - pc.2) ∧
    (∀ st : BState, st.lastCubic = none →
      s_reflect_bx st = st.x ∧ s_reflect_by st = st.y) ∧
    (∀ (scale tx ty : ℚ) (n : ℕ) (st : TState) (x2 y2 x3 y3 : ℚ)
      (rest : List Tok), headNotNumber rest →
      transformLoop scale tx ty (n + 1)
          (Tok.cmd 'S' :: Tok.num x2 :: Tok.num y2 :: Tok.num x3 ::
            Tok.num y3 :: rest) st
        = transformLoop scale tx ty (n + 1)
            (Tok.cmd 'C' :: Tok.num (s_reflect_x st) :: Tok.num (s_reflect_y st) ::
              Tok.num x2 :: Tok.num y2 :: Tok.num x3 :: Tok.num y3 :: rest) st) ∧
    (∀ (scale tx ty : ℚ) (n : ℕ) (st : TState) (x2 y2 x3 y3 : ℚ)
      (rest : List Tok), headNotNumber rest →
      transformLoop scale tx ty (n + 1)
          (Tok.cmd 's' :: Tok.num x2 :: Tok.num y2 :: Tok.num x3 ::
            Tok.num y3 :: rest) st
        = transformLoop scale tx ty (n + 1)
            (Tok.cmd 'C' :: Tok.num (s_reflect_x st) :: Tok.num (s_reflect_y st) ::
              Tok.num (x2 + st.x) :: Tok.num (y2 + st.y) ::
              Tok.num (x3 + st.x) :: Tok.num (y3 + st.y) :: rest) st) ∧
    (∀ (n : ℕ) (x2 y2 x3 y3 : ℚ) (rest : List Tok) (st : BState),
      bboxLoop (n + 1) (Tok.cmd 'S' :: Tok.num x2 :: Tok.num y2 ::
          Tok.num x3 :: Tok.num y3 :: rest) st
        = bboxLoop n rest
          { st with cmd := some 'S', x := ↑x3, y := ↑y3,
                    lastCubic := some (↑x2, ↑y2), lastQuad := none,
                    bbox := bbox_union st.bbox
                      (some (cubic_bbox st.x st.y (s_reflect_bx st)
                        (s_reflect_by st) ↑x2 ↑y2 ↑x3 ↑y3)) }) ∧
    (∀ (n : ℕ) (x2 y2 x3 y3 : ℚ) (rest : List Tok) (st : BState),
      bboxLoop (n + 1) (Tok.cmd 's' :: Tok.num x2 :: Tok.num y2 ::
          Tok.num x3 :: Tok.num y3 :: rest) st
        = bboxLoop n rest
          { st with cmd := some 's', x := ↑x3 + st.x, y := ↑y3 + st.y,
                    lastCubic := some (↑x2 + st.x, ↑y2 + st.y), lastQuad := none,
                    bbox := bbox_union st.bbox
                      (some (cubic_bbox st.x st.y (s_reflect_bx st)
                        (s_reflect_by st) (↑x2 + st.x) (↑y2 + st.y)
                        (↑x3 + st.x) (↑y3 + st.y))) }) ∧
    path_bbox "C 0,0 10,0 10,10 S 10,20 0,20"
      = path_bbox "C 0,0 10,0 10,10 C 10,20 10,20 0,20" ∧
    (∀ k tkx tky : ℚ,
      transform_path_data "C 0,0 10,0 10,10 S 10,20 0,20" k tkx tky
        = transform_path_data "C 0,0 10,0 10,10 C 10,20 10,20 0,20" k tkx tky) := by
  have ht1 : tokenize "C 0,0 10,0 10,10 S 10,20 0,20"
      = [Tok.cmd 'C', Tok.num 0, Tok.num 0, Tok.num 10, Tok.num 0, Tok.num 10,
         Tok.num 10, Tok.cmd 'S', Tok.num 10, Tok.num 20, Tok.num 0,
         Tok.num 20] := by decide
  have ht2 : tokenize "C 0,0 10,0 10,10 C 10,20 10,20 0,20"
      = [Tok.cmd 'C', Tok.num 0, Tok.num 0, Tok.num 10, Tok.num 0, Tok.num 10,
         Tok.num 10, Tok.cmd 'C', Tok.num 10, Tok.num 20, Tok.num 10,
         Tok.num 20, Tok.num 0, Tok.num 20] := by decide
  refine ⟨?_, ?_, ?_, ?_, ?_, ?_, ?_, ?_, ?_, ?_⟩
  · intro st pc h
    unfold s_reflect_x s_reflect_y
    rw [h]
    exact ⟨rfl, rfl⟩
  · intro st h
    unfold s_reflect_x s_reflect_y
    rw [h]
    exact ⟨rfl, rfl⟩
  · intro st pc h
    unfold s_reflect_bx s_reflect_by
    rw [h]
    exact ⟨rfl, rfl⟩
  · intro st h
    unfold s_reflect_bx s_reflect_by
    rw [h]
    exact ⟨rfl, rfl⟩
  · intro scale tx ty n st x2 y2 x3 y3 rest hrest
    rw [transformLoop_cmd_S, transformLoop_cmd_C]
    have := transformLoop_set_cmd scale tx ty n rest
      ⟨some 'C', x3, y3, st.startX, st.startY, some (x2, y2), none⟩
      (some 'S') hrest
    congr 1
  · intro scale tx ty n st x2 y2 x3 y3 rest hrest
    rw [transformLoop_cmd_s, transformLoop_cmd_C]
    have := transformLoop_set_cmd scale tx ty n rest
      ⟨some 'C', x3 + st.x, y3 + st.y, st.startX, st.startY,
       some (x2 + st.x, y2 + st.y), none⟩
      (some 's') hrest
    congr 1
  · intro n x2 y2 x3 y3 rest st
    exact bboxLoop_cmd_S n x2 y2 x3 y3 rest st
  · intro n x2 y2 x3 y3 rest st
    exact bboxLoop_cmd_s n x2 y2 x3 y3 rest st
  · rw [path_bbox_eq, path_bbox_eq, ht1, ht2,
      bbox_of_tokens_run _ (by simp), bbox_of_tokens_run _ (by simp)]
    have h1 : ∀ st : BState,
        bboxLoop (12 + 1) [Tok.cmd 'C', Tok.num 0, Tok.num 0, Tok.num 10,
          Tok.num 0, Tok.num 10, Tok.num 10, Tok.cmd 'S', Tok.num 10,
          Tok.num 20, Tok.num 0, Tok.num 20] st
        = .ok (bbox_union
            (bbox_union st.bbox (some (cubic_bbox st.x st.y 0 0 10 0 10 10)))
            (some (cubic_bbox 10 10 (2 * 10 - 10) (2 * 10 - 0) 10 20 0 20))) := by
      intro st
      rw [bboxLoop_cmd_C, show (12 : ℕ) = 11 + 1 from rfl, bboxLoop_cmd_S,
        show (11 : ℕ) = 10 + 1 from rfl, bboxLoop_nil]
      push_cast
      norm_num
    have h2 : ∀ st : BState,
        bboxLoop (14 + 1) [Tok.cmd 'C', Tok.num 0, Tok.num 0, Tok.num 10,
          Tok.num 0, Tok.num 10, Tok.num 10, Tok.cmd 'C', Tok.num 10,
          Tok.num 20, Tok.num 10, Tok.num 20, Tok.num 0, Tok.num 20] st
        = .ok (bbox_union
            (bbox_union st.bbox (some (cubic_bbox st.x st.y 0 0 10 0 10 10)))
            (some (cubic_bbox 10 10 10 20 10 20 0 20))) := by
      intro st
      rw [bboxLoop_cmd_C, show (14 : ℕ) = 13 + 1 from rfl, bboxLoop_cmd_C,
        show (13 : ℕ) = 12 + 1 from rfl, bboxLoop_nil]
      push_cast
      norm_num
    rw [show ([Tok.cmd 'C', Tok.num 0, Tok.num 0, Tok.num 10, Tok.num 0,
        Tok.num 10, Tok.num 10, Tok.cmd 'S', Tok.num 10, Tok.num 20, Tok.num 0,
        Tok.num 20] : List Tok).length + 1 = 12 + 1 from by simp,
      show ([Tok.cmd 'C', Tok.num 0, Tok.num 0, Tok.num 10, Tok.num 0,
        Tok.num 10, Tok.num 10, Tok.cmd 'C', Tok.num 10, Tok.num 20, Tok.num 10,
        Tok.num 20, Tok.num 0, Tok.num 20] : List Tok).length + 1 = 14 + 1
        from by simp,
      h1 initB, h2 initB]
    norm_num
  · intro k tkx tky
    rw [transform_path_data_run _ _ _ _ (by rw [ht1]; simp),
      transform_path_data_run _ _ _ _ (by rw [ht2]; simp), ht1, ht2]
    rw [show ([Tok.cmd 'C', Tok.num 0, Tok.num 0, Tok.num 10, Tok.num 0,
        Tok.num 10, Tok.num 10, Tok.cmd 'S', Tok.num 10, Tok.num 20, Tok.num 0,
        Tok.num 20] : List Tok).length + 1 = 12 + 1 from by simp,
      show ([Tok.cmd 'C', Tok.num 0, Tok.num 0, Tok.num 10, Tok.num 0,
        Tok.num 10, Tok.num 10, Tok.cmd 'C', Tok.num 10, Tok.num 20, Tok.num 10,
        Tok.num 20, Tok.num 0, Tok.num 20] : List Tok).length + 1 = 14 + 1
        from by simp]
    rw [transformLoop_cmd_C, show (12 : ℕ) = 11 + 1 from rfl,
      transformLoop_cmd_S, show (11 : ℕ) = 10 + 1 from rfl, transformLoop_nil]
    rw [transformLoop_cmd_C, show (14 : ℕ) = 13 + 1 from rfl,
      transformLoop_cmd_C, show (13 : ℕ) = 12 + 1 from rfl, transformLoop_nil]
    simp only [Except.map, s_reflect_x, s_reflect_y]
    norm_num

/-- Claim C6 witness: the reflection formula at a concrete state with a
recorded cubic control, and the transform-mode `S` and `s` loop-level
equivalences instantiated at concrete states and operands (empty
continuation). -/
theorem c6_witness :
    (⟨some 'C', 10, 10, 0, 0, some (10, 0), none⟩ : TState).lastCubic
      = some (10, 0) ∧
    s_reflect_x ⟨some 'C', 10, 10, 0, 0, some (10, 0), none⟩ = 2 * 10 - 10 ∧
    s_reflect_y ⟨some 'C', 10, 10, 0, 0, some (10, 0), none⟩ = 2 * 10 - 0 ∧
    headNotNumber ([] : List Tok) ∧
    transformLoop 2 3 4 (0 + 1)
        [Tok.cmd 'S', Tok.num 1, Tok.num 2, Tok.num 5, Tok.num 6] initT
      = transformLoop 2 3 4 (0 + 1)
          [Tok.cmd 'C', Tok.num (s_reflect_x initT), Tok.num (s_reflect_y initT),
           Tok.num 1, Tok.num 2, Tok.num 5, Tok.num 6] initT ∧
    transformLoop 2 3 4 (0 + 1)
        [Tok.cmd 's', Tok.num 1, Tok.num 2, Tok.num 5, Tok.num 6] initT
      = transformLoop 2 3 4 (0 + 1)
          [Tok.cmd 'C', Tok.num (s_reflect_x initT), Tok.num (s_reflect_y initT),
           Tok.num (1 + initT.x), Tok.num (2 + initT.y),
           Tok.num (5 + initT.x), Tok.num (6 + initT.y)] initT :=
  ⟨rfl,
   (c6_shorthand_reflection.1 ⟨some 'C', 10, 10, 0, 0, some (10, 0), none⟩
     (10, 0) rfl).1,
   (c6_shorthand_reflection.1 ⟨some 'C', 10, 10, 0, 0, some (10, 0), none⟩
     (10, 0) rfl).2,
   trivial,
   c6_shorthand_reflection.2.2.2.2.1 2 3 4 0 initT 1 2 5 6 [] trivial,
   c6_shorthand_reflection.2.2.2.2.2.1 2 3 4 0 initT 1 2 5 6 [] trivial⟩

/-! ### Claim C7 -/

/-- Claim C7 counterexample: under the identity transform, an absolute `H`
command is rewritten as an `L` command, so the output's command letters
differ from the input's — the output is not the input "modulo reformatting
of its numbers". -/
theorem c7_counterexample :
    transform_path_data "M 0 0 H 5" 1 0 0 = .ok "M0 0 L5 0" ∧
    cmdsOf "M 0 0 H 5" = ['M', 'H'] ∧
    cmdsOf "M0 0 L5 0" = ['M', 'L'] ∧
    cmdsOf "M0 0 L5 0" ≠ cmdsOf "M 0 0 H 5" := by decide

/-- Each command group contributes at least one token. -/
theorem groups_length_le (gs : List (Char × List ℚ)) :
    gs.length ≤ (groupsTokens gs).length := by
  induction gs with
  | nil => simp [groupsTokens]
  | cons g gs' ih =>
    simp only [groupsTokens, List.map_cons, List.flatten_cons, List.length_append,
      List.length_cons, groupTokens]
    have : groupsTokens gs' = (gs'.map groupTokens).flatten := rfl
    rw [this] at ih
    omega

/-- The identity transform renders each explicit absolute `M`/`L`/`C`/`Q`/`Z`
group as the same command with `fmt_number`-formatted operands. -/
theorem transformLoop_groups (gs : List (Char × List ℚ)) :
    ∀ (m : ℕ) (st : TState), (∀ g ∈ gs, groupShapeOK g) →
    transformLoop 1 0 0 (gs.length + (m + 1)) (groupsTokens gs) st
      = .ok (gs.map renderGroup) := by
  induction gs with
  | nil =>
    intro m st _
    simp only [groupsTokens, List.map_nil, List.flatten_nil, List.length_nil,
      Nat.zero_add]
    rw [transformLoop_nil]
  | cons g gs' ih =>
    intro m st hgs
    obtain ⟨c, ops⟩ := g
    have hshape := hgs (c, ops) (List.mem_cons_self _ _)
    have htoks : groupsTokens ((c, ops) :: gs')
        = Tok.cmd c :: (ops.map Tok.num ++ groupsTokens gs') := by
      simp [groupsTokens, groupTokens]
    have hfuel : ((c, ops) :: gs').length + (m + 1)
        = (gs'.length + (m + 1)) + 1 := by
      simp only [List.length_cons]
      omega
    have ihr := ih m st
    rcases hshape with ⟨hc, hlen⟩ | ⟨hc, hlen⟩ | ⟨hc, hlen⟩ | ⟨hc, hlen⟩ |
      ⟨hc, hlen⟩ <;> subst hc
    · rcases ops with _ | ⟨x, _ | ⟨y, _ | ⟨z, t⟩⟩⟩ <;> simp at hlen
      rw [htoks, hfuel]
      simp only [List.map_cons, List.map_nil, List.cons_append, List.nil_append]
      rw [transformLoop_cmd_M,
        ih m _ (fun g hg => hgs g (List.mem_cons_of_mem _ hg))]
      simp [renderGroup, Except.map]
    · rcases ops with _ | ⟨x, _ | ⟨y, _ | ⟨z, t⟩⟩⟩ <;> simp at hlen
      rw [htoks, hfuel]
      simp only [List.map_cons, List.map_nil, List.cons_append, List.nil_append]
      rw [transformLoop_cmd_L,
        ih m _ (fun g hg => hgs g (List.mem_cons_of_mem _ hg))]
      simp [renderGroup, Except.map]
    · rcases ops with _ | ⟨x1, _ | ⟨y1, _ | ⟨x2, _ | ⟨y2, _ | ⟨x3, _ |
        ⟨y3, _ | ⟨w, t⟩⟩⟩⟩⟩⟩⟩ <;> simp at hlen
      rw [htoks, hfuel]
      simp only [List.map_cons, List.map_nil, List.cons_append, List.nil_append]
      rw [transformLoop_cmd_C,
        ih m _ (fun g hg => hgs g (List.mem_cons_of_mem _ hg))]
      simp [renderGroup, Except.map]
    · rcases ops with _ | ⟨x1, _ | ⟨y1, _ | ⟨x2, _ | ⟨y2, _ | ⟨w, t⟩⟩⟩⟩⟩ <;>
        simp at hlen
      rw [htoks, hfuel]
      simp only [List.map_cons, List.map_nil, List.cons_append, List.nil_append]
      rw [transformLoop_cmd_Q,
        ih m _ (fun g hg => hgs g (List.mem_cons_of_mem _ hg))]
      simp [renderGroup, Except.map]
    · subst hlen
      rw [htoks, hfuel]
      simp only [List.map_nil, List.nil_append]
      rw [transformLoop_cmd_Z,
        ih m _ (fun g hg => hgs g (List.mem_cons_of_mem _ hg))]
      simp [renderGroup, Except.map]

/-- Claim C7 amended: the identity transform `(scale=1, translate=(0,0))`
reproduces the input modulo the canonical numeric formatting for paths made
of explicit absolute `M`/`L`/`C`/`Q`/`Z` commands with their exact operand
counts: the output is the same command letters with each operand rendered
by `fmt_number` in the emitter's canonical spacing.  (Relative commands,
`H`/`V`, shorthand `S`/`T` and implicit repetition are rewritten to other
command forms, so the law cannot hold for them, as the counterexample
shows.) -/
theorem c7_identity (gs : List (Char × List ℚ)) (d : String)
    (hd : tokenize d = groupsTokens gs) (hgs : ∀ g ∈ gs, groupShapeOK g) :
    transform_path_data d 1 0 0 = .ok (canonical_form gs) := by
  cases gs with
  | nil =>
    have hz : tokenize d = [] := by simpa [groupsTokens] using hd
    simp only [transform_path_data, hz, if_pos rfl, canonical_form, List.map_nil]
    rfl
  | cons g gs' =>
    have hne : tokenize d ≠ [] := by
      rw [hd]
      simp [groupsTokens, groupTokens]
    rw [transform_path_data_run _ _ _ _ hne, hd]
    have hle := groups_length_le (g :: gs')
    have hfuel : (groupsTokens (g :: gs')).length + 1
        = (g :: gs').length
          + (((groupsTokens (g :: gs')).length - (g :: gs').length) + 1) := by
      omega
    rw [hfuel, transformLoop_groups (g :: gs') _ initT hgs]
    simp [canonical_form, Except.map]

/-- Claim C7 witness: the amended identity law applied to
`"M 0 0 L 5 6 Z"`. -/
theorem c7_witness :
    (tokenize "M 0 0 L 5 6 Z"
        = groupsTokens [('M', [0, 0]), ('L', [5, 6]), ('Z', [])] ∧
      ∀ g ∈ [('M', ([0, 0] : List ℚ)), ('L', [5, 6]), ('Z', [])],
        groupShapeOK g) ∧
    transform_path_data "M 0 0 L 5 6 Z" 1 0 0
      = .ok (canonical_form [('M', [0, 0]), ('L', [5, 6]), ('Z', [])]) :=
  ⟨⟨by decide,
    by
      intro g hg
      simp only [List.mem_cons, List.not_mem_nil, or_false] at hg
      rcases hg with rfl | rfl | rfl <;> simp [groupShapeOK]⟩,
    c7_identity [('M', [0, 0]), ('L', [5, 6]), ('Z', [])] "M 0 0 L 5 6 Z"
      (by decide)
      (by
        intro g hg
        simp only [List.mem_cons, List.not_mem_nil, or_false] at hg
        rcases hg with rfl | rfl | rfl <;> simp [groupShapeOK])⟩

/-! ### Claim C2: helper lemmas -/

/-- A min-fold is below its seed. -/
theorem foldl_min_le_seed (l : List ℝ) : ∀ seed : ℝ, l.foldl min seed ≤ seed := by
  induction l with
  | nil => intro seed; simp
  | cons a l ih =>
    intro seed
    exact le_trans (ih (min seed a)) (min_le_left _ _)

/-- A min-fold is below every member. -/
theorem foldl_min_le_mem (l : List ℝ) : ∀ (seed v : ℝ), v ∈ l →
    l.foldl min seed ≤ v := by
  induction l with
  | nil => intro seed v h; cases h
  | cons a l ih =>
    intro seed v h
    rcases List.mem_cons.mp h with rfl | h
    · exact le_trans (foldl_min_le_seed l (min seed v)) (min_le_right _ _)
    · exact ih (min seed a) v h

/-- A max-fold is above its seed. -/
theorem le_foldl_max_seed (l : List ℝ) : ∀ seed : ℝ, seed ≤ l.foldl max seed := by
  induction l with
  | nil => intro seed; simp
  | cons a l ih =>
    intro seed
    exact le_trans (le_max_left _ _) (ih (max seed a))

/-- A max-fold is above every member. -/
theorem le_foldl_max_mem (l : List ℝ) : ∀ (seed v : ℝ), v ∈ l →
    v ≤ l.foldl max seed := by
  induction l with
  | nil => intro seed v h; cases h
  | cons a l ih =>
    intro seed v h
    rcases List.mem_cons.mp h with rfl | h
    · exact le_trans (le_max_right _ _) (le_foldl_max_seed l (max seed v))
    · exact ih (max seed a) v h

/-- The cubic Bézier point formula as a polynomial in `t`. -/
theorem cubic_point_poly (p0 p1 p2 p3 t : ℝ) :
    cubic_point p0 p1 p2 p3 t
      = p0 + 3 * (p1 - p0) * t + 3 * (p0 - 2 * p1 + p2) * t ^ 2
          + (-p0 + 3 * p1 - 3 * p2 + p3) * t ^ 3 := by
  rw [cubic_point]
  ring

/-- The quadratic Bézier point formula as a polynomial in `t`. -/
theorem quadratic_point_poly (p0 p1 p2 t : ℝ) :
    quadratic_point p0 p1 p2 t
      = p0 + 2 * (p1 - p0) * t + (p0 - 2 * p1 + p2) * t ^ 2 := by
  rw [quadratic_point]
  ring

/-- Derivative of the cubic Bézier coordinate polynomial: three times the
quadratic `a t² + b t + c` solved by `cubic_extrema`. -/
theorem cubic_point_hasDerivAt (p0 p1 p2 p3 t : ℝ) :
    HasDerivAt (cubic_point p0 p1 p2 p3)
      (3 * ((-p0 + 3 * p1 - 3 * p2 + p3) * (t * t)
        + 2 * (p0 - 2 * p1 + p2) * t + (p1 - p0))) t := by
  have h : cubic_point p0 p1 p2 p3 = fun s =>
      p0 + 3 * (p1 - p0) * s + 3 * (p0 - 2 * p1 + p2) * s ^ 2
        + (-p0 + 3 * p1 - 3 * p2 + p3) * s ^ 3 := by
    funext s
    exact cubic_point_poly p0 p1 p2 p3 s
  rw [h]
  have d1 : HasDerivAt (fun s : ℝ => 3 * (p1 - p0) * s) (3 * (p1 - p0)) t := by
    simpa using (hasDerivAt_id t).const_mul (3 * (p1 - p0))
  have d2 : HasDerivAt (fun s : ℝ => 3 * (p0 - 2 * p1 + p2) * s ^ 2)
      (3 * (p0 - 2 * p1 + p2) * (2 * t)) t := by
    simpa using (hasDerivAt_pow 2 t).const_mul (3 * (p0 - 2 * p1 + p2))
  have d3 : HasDerivAt (fun s : ℝ => (-p0 + 3 * p1 - 3 * p2 + p3) * s ^ 3)
      ((-p0 + 3 * p1 - 3 * p2 + p3) * (3 * t ^ 2)) t := by
    simpa using (hasDerivAt_pow 3 t).const_mul (-p0 + 3 * p1 - 3 * p2 + p3)
  have := (((hasDerivAt_const t p0).add d1).add d2).add d3
  convert this using 1
  ring

/-- Derivative of the quadratic Bézier coordinate polynomial. -/
theorem quadratic_point_hasDerivAt (p0 p1 p2 t : ℝ) :
    HasDerivAt (quadratic_point p0 p1 p2)
      (2 * ((p0 - 2 * p1 + p2) * t + (p1 - p0))) t := by
  have h : quadratic_point p0 p1 p2 = fun s =>
      p0 + 2 * (p1 - p0) * s + (p0 - 2 * p1 + p2) * s ^ 2 := by
    funext s
    exact quadratic_point_poly p0 p1 p2 s
  rw [h]
  have d1 : HasDerivAt (fun s : ℝ => 2 * (p1 - p0) * s) (2 * (p1 - p0)) t := by
    simpa using (hasDerivAt_id t).const_mul (2 * (p1 - p0))
  have d2 : HasDerivAt (fun s : ℝ => (p0 - 2 * p1 + p2) * s ^ 2)
      ((p0 - 2 * p1 + p2) * (2 * t)) t := by
    simpa using (hasDerivAt_pow 2 t).const_mul (p0 - 2 * p1 + p2)
  have := ((hasDerivAt_const t p0).add d1).add d2
  convert this using 1
  ring

/-- Maximum principle on `[0,1]`: a differentiable function bounded by `M`
at the endpoints and at every interior critical point is bounded by `M`
everywhere on the interval. -/
theorem le_max_of_critical (f f' : ℝ → ℝ)
    (hderiv : ∀ t, HasDerivAt f (f' t) t) (M : ℝ)
    (h0 : f 0 ≤ M) (h1 : f 1 ≤ M)
    (hcrit : ∀ t, 0 < t → t < 1 → f' t = 0 → f t ≤ M) :
    ∀ t, 0 ≤ t → t ≤ 1 → f t ≤ M := by
  intro t ht0 ht1
  have hcont : ContinuousOn f (Set.Icc 0 1) := fun x _ =>
    (hderiv x).differentiableAt.continuousAt.continuousWithinAt
  obtain ⟨c, hc, hmax⟩ := isCompact_Icc.exists_isMaxOn
    ⟨0, by norm_num⟩ hcont
  have hft : f t ≤ f c := hmax (Set.mem_Icc.mpr ⟨ht0, ht1⟩)
  rcases eq_or_lt_of_le hc.1 with h0c | h0c
  · exact hft.trans (by rw [← h0c]; exact h0)
  rcases eq_or_lt_of_le hc.2 with hc1 | hc1
  · exact hft.trans (by rw [hc1]; exact h1)
  have hloc : IsLocalMax f c := hmax.isLocalMax (Icc_mem_nhds h0c hc1)
  have hz : f' c = 0 := hloc.hasDerivAt_eq_zero (hderiv c)
  exact hft.trans (hcrit c h0c hc1 hz)

/-- Minimum principle on `[0,1]`, dual to `le_max_of_critical`. -/
theorem min_le_of_critical (f f' : ℝ → ℝ)
    (hderiv : ∀ t, HasDerivAt f (f' t) t) (m : ℝ)
    (h0 : m ≤ f 0) (h1 : m ≤ f 1)
    (hcrit : ∀ t, 0 < t → t < 1 → f' t = 0 → m ≤ f t) :
    ∀ t, 0 ≤ t → t ≤ 1 → m ≤ f t := by
  intro t ht0 ht1
  have := le_max_of_critical (fun s => -f s) (fun s => -f' s)
    (fun s => (hderiv s).neg) (-m) (by simpa using h0) (by simpa using h1)
    (fun s hs0 hs1 hz => by
      have hz' : -f' s = 0 := hz
      have : f' s = 0 := by linarith
      simpa using hcrit s hs0 hs1 this) t ht0 ht1
  have h2 : -f t ≤ -m := this
  linarith

/-- Under the exactness condition, every critical parameter of the cubic
coordinate polynomial in `(0,1)` is either retained by `cubic_extrema` or
the polynomial is constant. -/
theorem cubic_extrema_complete (p0 p1 p2 p3 : ℝ)
    (hex : cubicExtremaExact p0 p1 p2 p3) (t : ℝ) (ht0 : 0 < t) (ht1 : t < 1)
    (hroot : (-p0 + 3 * p1 - 3 * p2 + p3) * (t * t)
      + 2 * (p0 - 2 * p1 + p2) * t + (p1 - p0) = 0) :
    t ∈ cubic_extrema p0 p1 p2 p3 ∨ ∀ s, cubic_point p0 p1 p2 p3 s = p0 := by
  rw [cubic_extrema]
  by_cases ha : |(-p0 + 3 * p1 - 3 * p2 + p3 : ℝ)| < 1 / 100000000
  · have ha0 : -p0 + 3 * p1 - 3 * p2 + p3 = 0 := hex.1 ha
    rw [if_pos ha]
    by_cases hb : |(2 * (p0 - 2 * p1 + p2) : ℝ)| > 1 / 100000000
    · left
      rw [if_pos hb]
      have hb0 : (2 * (p0 - 2 * p1 + p2) : ℝ) ≠ 0 := by
        intro h
        rw [h] at hb
        norm_num at hb
      have hteq : t = -(p1 - p0) / (2 * (p0 - 2 * p1 + p2)) := by
        rw [ha0] at hroot
        field_simp
        linarith [hroot]
      rw [if_pos (by rw [← hteq]; exact ⟨ht0, ht1⟩)]
      simp [hteq]
    · right
      have hb0 : 2 * (p0 - 2 * p1 + p2) = 0 := hex.2 ha hb
      have hc0 : p1 - p0 = 0 := by
        rw [ha0, hb0] at hroot
        linarith [hroot]
      intro s
      rw [cubic_point_poly]
      have h2 : p0 - 2 * p1 + p2 = 0 := by linarith
      rw [ha0, hc0, h2]
      ring
  · left
    rw [if_neg ha]
    set a := -p0 + 3 * p1 - 3 * p2 + p3 with hadef
    set b := 2 * (p0 - 2 * p1 + p2) with hbdef
    set c := p1 - p0 with hcdef
    have ha0 : a ≠ 0 := by
      intro h
      rw [h] at ha
      norm_num at ha
    have hdisc : discrim a b c = (2 * a * t + b) ^ 2 :=
      discrim_eq_sq_of_quadratic_eq_zero hroot
    have hdisc' : b * b - 4 * a * c = discrim a b c := by
      rw [discrim]
      ring
    have hd0 : b * b - 4 * a * c ≥ 0 := by
      rw [hdisc', hdisc]
      positivity
    rw [if_pos hd0]
    have hs : discrim a b c = Real.sqrt (b * b - 4 * a * c)
        * Real.sqrt (b * b - 4 * a * c) := by
      rw [Real.mul_self_sqrt hd0, hdisc']
    have := (quadratic_eq_zero_iff ha0 hs t).mp hroot
    rcases this with h1 | h1
    · rw [List.mem_append]
      left
      rw [if_pos (by rw [← h1]; exact ⟨ht0, ht1⟩)]
      simp [h1]
    · rw [List.mem_append]
      right
      rw [if_pos (by rw [← h1]; exact ⟨ht0, ht1⟩)]
      simp [h1]

/-- Quadratic analogue of `cubic_extrema_complete`. -/
theorem quadratic_extrema_complete (p0 p1 p2 : ℝ)
    (hex : quadExtremaExact p0 p1 p2) (t : ℝ) (ht0 : 0 < t) (ht1 : t < 1)
    (hroot : (p0 - 2 * p1 + p2) * t + (p1 - p0) = 0) :
    t ∈ quadratic_extrema p0 p1 p2 ∨ ∀ s, quadratic_point p0 p1 p2 s = p0 := by
  rw [quadratic_extrema]
  by_cases hd : |(p0 - 2 * p1 + p2 : ℝ)| < 1 / 100000000
  · right
    have hd0 : p0 - 2 * p1 + p2 = 0 := hex hd
    have hc0 : p1 - p0 = 0 := by
      rw [hd0] at hroot
      linarith [hroot]
    intro s
    rw [quadratic_point_poly, hd0, hc0]
    ring
  · left
    rw [if_neg hd]
    have hd0 : (p0 - 2 * p1 + p2 : ℝ) ≠ 0 := by
      intro h
      rw [h] at hd
      norm_num at hd
    have hteq : t = (p0 - p1) / (p0 - 2 * p1 + p2) := by
      field_simp
      linarith [hroot]
    rw [if_pos (by rw [← hteq]; exact ⟨ht0, ht1⟩)]
    simp [hteq]

/-- Per-coordinate containment for the cubic box under the exactness
condition. -/
theorem cubic_coord_bounds (p0 p1 p2 p3 : ℝ)
    (hex : cubicExtremaExact p0 p1 p2 p3) (t : ℝ) (ht0 : 0 ≤ t) (ht1 : t ≤ 1) :
    (p0 :: p3 :: (cubic_extrema p0 p1 p2 p3).map
        (cubic_point p0 p1 p2 p3)).foldl min p0 ≤ cubic_point p0 p1 p2 p3 t ∧
    cubic_point p0 p1 p2 p3 t
      ≤ (p0 :: p3 :: (cubic_extrema p0 p1 p2 p3).map
          (cubic_point p0 p1 p2 p3)).foldl max p0 := by
  have hB0 : cubic_point p0 p1 p2 p3 0 = p0 := by rw [cubic_point_poly]; ring
  have hB1 : cubic_point p0 p1 p2 p3 1 = p3 := by rw [cubic_point_poly]; ring
  have hp0 : p0 ∈ p0 :: p3 :: (cubic_extrema p0 p1 p2 p3).map
      (cubic_point p0 p1 p2 p3) := List.mem_cons_self _ _
  have hp3 : p3 ∈ p0 :: p3 :: (cubic_extrema p0 p1 p2 p3).map
      (cubic_point p0 p1 p2 p3) :=
    List.mem_cons_of_mem _ (List.mem_cons_self _ _)
  have hmem : ∀ s ∈ cubic_extrema p0 p1 p2 p3,
      cubic_point p0 p1 p2 p3 s ∈ p0 :: p3 :: (cubic_extrema p0 p1 p2 p3).map
        (cubic_point p0 p1 p2 p3) := fun s hs =>
    List.mem_cons_of_mem _ (List.mem_cons_of_mem _ (List.mem_map_of_mem _ hs))
  constructor
  · refine min_le_of_critical (cubic_point p0 p1 p2 p3)
      (fun s => 3 * ((-p0 + 3 * p1 - 3 * p2 + p3) * (s * s)
        + 2 * (p0 - 2 * p1 + p2) * s + (p1 - p0)))
      (fun s => cubic_point_hasDerivAt p0 p1 p2 p3 s) _
      (by rw [hB0]; exact foldl_min_le_mem _ _ _ hp0)
      (by rw [hB1]; exact foldl_min_le_mem _ _ _ hp3)
      (fun s hs0 hs1 hz => ?_) t ht0 ht1
    have hz' : 3 * ((-p0 + 3 * p1 - 3 * p2 + p3) * (s * s)
        + 2 * (p0 - 2 * p1 + p2) * s + (p1 - p0)) = 0 := hz
    have hroot : (-p0 + 3 * p1 - 3 * p2 + p3) * (s * s)
        + 2 * (p0 - 2 * p1 + p2) * s + (p1 - p0) = 0 := by linarith
    rcases cubic_extrema_complete p0 p1 p2 p3 hex s hs0 hs1 hroot with hm | hconst
    · exact foldl_min_le_mem _ _ _ (hmem s hm)
    · rw [hconst s]
      exact foldl_min_le_seed _ _
  · refine le_max_of_critical (cubic_point p0 p1 p2 p3)
      (fun s => 3 * ((-p0 + 3 * p1 - 3 * p2 + p3) * (s * s)
        + 2 * (p0 - 2 * p1 + p2) * s + (p1 - p0)))
      (fun s => cubic_point_hasDerivAt p0 p1 p2 p3 s) _
      (by rw [hB0]; exact le_foldl_max_mem _ _ _ hp0)
      (by rw [hB1]; exact le_foldl_max_mem _ _ _ hp3)
      (fun s hs0 hs1 hz => ?_) t ht0 ht1
    have hz' : 3 * ((-p0 + 3 * p1 - 3 * p2 + p3) * (s * s)
        + 2 * (p0 - 2 * p1 + p2) * s + (p1 - p0)) = 0 := hz
    have hroot : (-p0 + 3 * p1 - 3 * p2 + p3) * (s * s)
        + 2 * (p0 - 2 * p1 + p2) * s + (p1 - p0) = 0 := by linarith
    rcases cubic_extrema_complete p0 p1 p2 p3 hex s hs0 hs1 hroot with hm | hconst
    · exact le_foldl_max_mem _ _ _ (hmem s hm)
    · rw [hconst s]
      exact le_foldl_max_seed _ _

/-- Per-coordinate containment for the quadratic box under the exactness
condition. -/
theorem quadratic_coord_bounds (p0 p1 p2 : ℝ)
    (hex : quadExtremaExact p0 p1 p2) (t : ℝ) (ht0 : 0 ≤ t) (ht1 : t ≤ 1) :
    (p0 :: p2 :: (quadratic_extrema p0 p1 p2).map
        (quadratic_point p0 p1 p2)).foldl min p0 ≤ quadratic_point p0 p1 p2 t ∧
    quadratic_point p0 p1 p2 t
      ≤ (p0 :: p2 :: (quadratic_extrema p0 p1 p2).map
          (quadratic_point p0 p1 p2)).foldl max p0 := by
  have hB0 : quadratic_point p0 p1 p2 0 = p0 := by rw [quadratic_point_poly]; ring
  have hB1 : quadratic_point p0 p1 p2 1 = p2 := by rw [quadratic_point_poly]; ring
  have hp0 : p0 ∈ p0 :: p2 :: (quadratic_extrema p0 p1 p2).map
      (quadratic_point p0 p1 p2) := List.mem_cons_self _ _
  have hp2 : p2 ∈ p0 :: p2 :: (quadratic_extrema p0 p1 p2).map
      (quadratic_point p0 p1 p2) :=
    List.mem_cons_of_mem _ (List.mem_cons_self _ _)
  have hmem : ∀ s ∈ quadratic_extrema p0 p1 p2,
      quadratic_point p0 p1 p2 s ∈ p0 :: p2 :: (quadratic_extrema p0 p1 p2).map
        (quadratic_point p0 p1 p2) := fun s hs =>
    List.mem_cons_of_mem _ (List.mem_cons_of_mem _ (List.mem_map_of_mem _ hs))
  constructor
  · refine min_le_of_critical (quadratic_point p0 p1 p2)
      (fun s => 2 * ((p0 - 2 * p1 + p2) * s + (p1 - p0)))
      (fun s => quadratic_point_hasDerivAt p0 p1 p2 s) _
      (by rw [hB0]; exact foldl_min_le_mem _ _ _ hp0)
      (by rw [hB1]; exact foldl_min_le_mem _ _ _ hp2)
      (fun s hs0 hs1 hz => ?_) t ht0 ht1
    have hz' : 2 * ((p0 - 2 * p1 + p2) * s + (p1 - p0)) = 0 := hz
    have hroot : (p0 - 2 * p1 + p2) * s + (p1 - p0) = 0 := by linarith
    rcases quadratic_extrema_complete p0 p1 p2 hex s hs0 hs1 hroot with hm | hconst
    · exact foldl_min_le_mem _ _ _ (hmem s hm)
    · rw [hconst s]
      exact foldl_min_le_seed _ _
  · refine le_max_of_critical (quadratic_point p0 p1 p2)
      (fun s => 2 * ((p0 - 2 * p1 + p2) * s + (p1 - p0)))
      (fun s => quadratic_point_hasDerivAt p0 p1 p2 s) _
      (by rw [hB0]; exact le_foldl_max_mem _ _ _ hp0)
      (by rw [hB1]; exact le_foldl_max_mem _ _ _ hp2)
      (fun s hs0 hs1 hz => ?_) t ht0 ht1
    have hz' : 2 * ((p0 - 2 * p1 + p2) * s + (p1 - p0)) = 0 := hz
    have hroot : (p0 - 2 * p1 + p2) * s + (p1 - p0) = 0 := by linarith
    rcases quadratic_extrema_complete p0 p1 p2 hex s hs0 hs1 hroot with hm | hconst
    · exact le_foldl_max_mem _ _ _ (hmem s hm)
    · rw [hconst s]
      exact le_foldl_max_seed _ _

/-- C2 (corrected): for every cubic Bézier segment whose per-axis derivative
coefficients are not silently truncated by the `1e-8` degeneracy guards of
`cubic_extrema` (the `cubicExtremaExact` condition: whenever a guard takes a
degenerate branch the discarded coefficient is exactly zero), the curve point
at any `t ∈ [0,1]` lies inside the box computed by `cubic_bbox`; likewise for
quadratic segments, `quadExtremaExact` and `quadratic_bbox`. Without the
exactness condition the claim is false (`c2_counterexample`): the guards can
drop a genuine interior extremum, making the box smaller than the curve. -/
theorem c2_curve_containment :
    (∀ x0 y0 x1 y1 x2 y2 x3 y3 t : ℝ,
      cubicExtremaExact x0 x1 x2 x3 → cubicExtremaExact y0 y1 y2 y3 →
      0 ≤ t → t ≤ 1 →
      inBox (cubic_point x0 x1 x2 x3 t) (cubic_point y0 y1 y2 y3 t)
        (cubic_bbox x0 y0 x1 y1 x2 y2 x3 y3)) ∧
    (∀ x0 y0 x1 y1 x2 y2 t : ℝ,
      quadExtremaExact x0 x1 x2 → quadExtremaExact y0 y1 y2 →
      0 ≤ t → t ≤ 1 →
      inBox (quadratic_point x0 x1 x2 t) (quadratic_point y0 y1 y2 t)
        (quadratic_bbox x0 y0 x1 y1 x2 y2)) := by
  constructor
  · intro x0 y0 x1 y1 x2 y2 x3 y3 t hx hy ht0 ht1
    obtain ⟨hxmin, hxmax⟩ := cubic_coord_bounds x0 x1 x2 x3 hx t ht0 ht1
    obtain ⟨hymin, hymax⟩ := cubic_coord_bounds y0 y1 y2 y3 hy t ht0 ht1
    exact ⟨hxmin, hxmax, hymin, hymax⟩
  · intro x0 y0 x1 y1 x2 y2 t hx hy ht0 ht1
    obtain ⟨hxmin, hxmax⟩ := quadratic_coord_bounds x0 x1 x2 hx t ht0 ht1
    obtain ⟨hymin, hymax⟩ := quadratic_coord_bounds y0 y1 y2 hy t ht0 ht1
    exact ⟨hxmin, hxmax, hymin, hymax⟩

/-- C2 counterexample for the claim as stated: with control points
`(0, -5e-9, -5e-9, 0)` the derivative's leading coefficient is `0` (so the
degenerate branch is taken) and its linear coefficient is exactly `1e-8`,
which fails the strict `> 1e-8` test, so `cubic_extrema` retains no root;
the box degenerates to `{0}` although the curve at `t = 1/2` reaches
`-3/8e8 < 0`. The curve point is NOT inside `cubic_bbox`. -/
theorem c2_counterexample :
    ¬ inBox (cubic_point 0 (-(1 : ℝ) / 200000000) (-(1 : ℝ) / 200000000) 0 (1 / 2))
        (cubic_point 0 0 0 0 (1 / 2))
        (cubic_bbox 0 0 (-(1 : ℝ) / 200000000) 0 (-(1 : ℝ) / 200000000) 0 0 0) := by
  have hex : cubic_extrema 0 (-(1 : ℝ) / 200000000) (-(1 : ℝ) / 200000000) 0 = [] := by
    unfold cubic_extrema
    norm_num
    rw [abs_of_nonneg] <;> norm_num
  intro h
  simp only [inBox] at h
  have h1 := h.1
  simp only [cubic_bbox, hex, List.map_nil, List.foldl] at h1
  unfold cubic_point at h1
  norm_num at h1

/-- Witness for `c2_curve_containment` on concrete segments: the cubic with
x-coordinates `(0,0,10,10)` and y-coordinates `(0,10,10,0)` and the quadratic
with x-coordinates `(0,0,10)` and y-coordinates `(0,10,0)`, both at
`t = 1/2`. -/
theorem c2_witness :
    inBox (cubic_point 0 0 10 10 (1 / 2)) (cubic_point 0 10 10 0 (1 / 2))
        (cubic_bbox 0 0 0 10 10 10 10 0) ∧
    inBox (quadratic_point 0 0 10 (1 / 2)) (quadratic_point 0 10 0 (1 / 2))
        (quadratic_bbox 0 0 0 10 10 0) :=
  ⟨c2_curve_containment.1 0 0 0 10 10 10 10 0 (1 / 2)
      (by unfold cubicExtremaExact; norm_num)
      (by unfold cubicExtremaExact; norm_num)
      (by norm_num) (by norm_num),
   c2_curve_containment.2 0 0 0 10 10 0 (1 / 2)
      (by unfold quadExtremaExact; norm_num)
      (by unfold quadExtremaExact; norm_num)
      (by norm_num) (by norm_num)⟩

/-! ### Infrastructure for the bbox-transform commutation (C1) -/

/-- An affine map with positive slope commutes with `min`. -/
theorem min_affine (k t a b : ℝ) (hk : 0 < k) :
    min a b * k + t = min (a * k + t) (b * k + t) := by
  rcases le_total a b with h | h
  · rw [min_eq_left h, min_eq_left (by nlinarith)]
  · rw [min_eq_right h, min_eq_right (by nlinarith)]

/-- An affine map with positive slope commutes with `max`. -/
theorem max_affine (k t a b : ℝ) (hk : 0 < k) :
    max a b * k + t = max (a * k + t) (b * k + t) := by
  rcases le_total a b with h | h
  · rw [max_eq_right h, max_eq_right (by nlinarith)]
  · rw [max_eq_left h, max_eq_left (by nlinarith)]

/-- `bbox_union` commutes with the (positive-slope) affine image. -/
theorem bbox_union_affine (k tx ty : ℝ) (hk : 0 < k) (a b : Option (Box ℝ)) :
    bbox_union (a.map (boxAffine k tx ty)) (b.map (boxAffine k tx ty))
      = (bbox_union a b).map (boxAffine k tx ty) := by
  cases a with
  | none => cases b <;> rfl
  | some p =>
    cases b with
    | none => rfl
    | some q =>
      simp [bbox_union, boxAffine]
      refine ⟨(min_affine k tx _ _ hk).symm, (min_affine k ty _ _ hk).symm,
              (max_affine k tx _ _ hk).symm, (max_affine k ty _ _ hk).symm⟩

/-- Inversion of `Except.map` on a successful result. -/
theorem except_map_ok {ε α β : Type} (f : α → β) (e : Except ε α) (b : β)
    (h : e.map f = .ok b) : ∃ a, e = .ok a ∧ b = f a := by
  cases e with
  | error _ => exact absurd h (by simp [Except.map])
  | ok a => exact ⟨a, rfl, by simpa [Except.map] using h.symm⟩

/-- A numeric token re-enters the active command in the exact-emission
transform loop. -/
theorem transformAbsLoop_num_entry (k tx ty : ℚ) (n : ℕ) (c : Char) (q : ℚ)
    (rest : List Tok) (ts : TState) (h : ts.cmd = some c) :
    transformAbsLoop k tx ty (n + 1) (Tok.num q :: rest) ts
      = transformAbsLoop k tx ty (n + 1) (Tok.cmd c :: Tok.num q :: rest) ts := by
  have hst : { ts with cmd := some c } = ts := by
    cases ts; cases h; rfl
  rw [transformAbsLoop, transformAbsLoop]
  simp only [headCommand, h, hst]

/-- One `M` command in the exact-emission transform loop. -/
theorem transformAbsLoop_cmd_M (k tx ty : ℚ) (n : ℕ) (x y : ℚ)
    (rest : List Tok) (ts : TState) :
    transformAbsLoop k tx ty (n + 1)
        (Tok.cmd 'M' :: Tok.num x :: Tok.num y :: rest) ts
      = Except.map (fun out => AbsCmd.move (x * k + tx) (y * k + ty) :: out)
          (transformAbsLoop k tx ty n rest
            { cmd := some 'L', x := x, y := y, startX := x, startY := y,
              lastCubic := none, lastQuad := none }) := by
  rw [transformAbsLoop]
  simp only [headCommand, readNumT, bind, Except.bind, transform_point]
  simp
  cases transformAbsLoop k tx ty n rest ⟨some 'L', x, y, x, y, none, none⟩ <;> rfl

/-- One `m` command in the exact-emission transform loop. -/
theorem transformAbsLoop_cmd_m (k tx ty : ℚ) (n : ℕ) (x y : ℚ)
    (rest : List Tok) (ts : TState) :
    transformAbsLoop k tx ty (n + 1)
        (Tok.cmd 'm' :: Tok.num x :: Tok.num y :: rest) ts
      = Except.map (fun out =>
            AbsCmd.move ((x + ts.x) * k + tx) ((y + ts.y) * k + ty) :: out)
          (transformAbsLoop k tx ty n rest
            { cmd := some 'l', x := x + ts.x, y := y + ts.y,
              startX := x + ts.x, startY := y + ts.y,
              lastCubic := none, lastQuad := none }) := by
  rw [transformAbsLoop]
  simp only [headCommand, readNumT, bind, Except.bind, transform_point]
  simp
  cases transformAbsLoop k tx ty n rest
    ⟨some 'l', x + ts.x, y + ts.y, x + ts.x, y + ts.y, none, none⟩ <;> rfl

/-- One `L` command in the exact-emission transform loop. -/
theorem transformAbsLoop_cmd_L (k tx ty : ℚ) (n : ℕ) (x y : ℚ)
    (rest : List Tok) (ts : TState) :
    transformAbsLoop k tx ty (n + 1)
        (Tok.cmd 'L' :: Tok.num x :: Tok.num y :: rest) ts
      = Except.map (fun out => AbsCmd.line (x * k + tx) (y * k + ty) :: out)
          (transformAbsLoop k tx ty n rest
            { ts with cmd := some 'L', x := x, y := y,
                      lastCubic := none, lastQuad := none }) := by
  rw [transformAbsLoop]
  simp only [headCommand, readNumT, bind, Except.bind, transform_point]
  simp
  cases transformAbsLoop k tx ty n rest
    ⟨some 'L', x, y, ts.startX, ts.startY, none, none⟩ <;> rfl

/-- One `l` command in the exact-emission transform loop. -/
theorem transformAbsLoop_cmd_l (k tx ty : ℚ) (n : ℕ) (x y : ℚ)
    (rest : List Tok) (ts : TState) :
    transformAbsLoop k tx ty (n + 1)
        (Tok.cmd 'l' :: Tok.num x :: Tok.num y :: rest) ts
      = Except.map (fun out =>
            AbsCmd.line ((x + ts.x) * k + tx) ((y + ts.y) * k + ty) :: out)
          (transformAbsLoop k tx ty n rest
            { ts with cmd := some 'l', x := x + ts.x, y := y + ts.y,
                      lastCubic := none, lastQuad := none }) := by
  rw [transformAbsLoop]
  simp only [headCommand, readNumT, bind, Except.bind, transform_point]
  simp
  cases transformAbsLoop k tx ty n rest
    ⟨some 'l', x + ts.x, y + ts.y, ts.startX, ts.startY, none, none⟩ <;> rfl

/-- One `H` command in the exact-emission transform loop. -/
theorem transformAbsLoop_cmd_H (k tx ty : ℚ) (n : ℕ) (x : ℚ)
    (rest : List Tok) (ts : TState) :
    transformAbsLoop k tx ty (n + 1) (Tok.cmd 'H' :: Tok.num x :: rest) ts
      = Except.map (fun out => AbsCmd.line (x * k + tx) (ts.y * k + ty) :: out)
          (transformAbsLoop k tx ty n rest
            { ts with cmd := some 'H', x := x,
                      lastCubic := none, lastQuad := none }) := by
  rw [transformAbsLoop]
  simp only [headCommand, readNumT, bind, Except.bind, transform_point]
  simp
  cases transformAbsLoop k tx ty n rest
    ⟨some 'H', x, ts.y, ts.startX, ts.startY, none, none⟩ <;> rfl

/-- One `h` command in the exact-emission transform loop. -/
theorem transformAbsLoop_cmd_h (k tx ty : ℚ) (n : ℕ) (x : ℚ)
    (rest : List Tok) (ts : TState) :
    transformAbsLoop k tx ty (n + 1) (Tok.cmd 'h' :: Tok.num x :: rest) ts
      = Except.map (fun out =>
            AbsCmd.line ((x + ts.x) * k + tx) (ts.y * k + ty) :: out)
          (transformAbsLoop k tx ty n rest
            { ts with cmd := some 'h', x := x + ts.x,
                      lastCubic := none, lastQuad := none }) := by
  rw [transformAbsLoop]
  simp only [headCommand, readNumT, bind, Except.bind, transform_point]
  simp
  cases transformAbsLoop k tx ty n rest
    ⟨some 'h', x + ts.x, ts.y, ts.startX, ts.startY, none, none⟩ <;> rfl

/-- One `V` command in the exact-emission transform loop. -/
theorem transformAbsLoop_cmd_V (k tx ty : ℚ) (n : ℕ) (y : ℚ)
    (rest : List Tok) (ts : TState) :
    transformAbsLoop k tx ty (n + 1) (Tok.cmd 'V' :: Tok.num y :: rest) ts
      = Except.map (fun out => AbsCmd.line (ts.x * k + tx) (y * k + ty) :: out)
          (transformAbsLoop k tx ty n rest
            { ts with cmd := some 'V', y := y,
                      lastCubic := none, lastQuad := none }) := by
  rw [transformAbsLoop]
  simp only [headCommand, readNumT, bind, Except.bind, transform_point]
  simp
  cases transformAbsLoop k tx ty n rest
    ⟨some 'V', ts.x, y, ts.startX, ts.startY, none, none⟩ <;> rfl

/-- One `v` command in the exact-emission transform loop. -/
theorem transformAbsLoop_cmd_v (k tx ty : ℚ) (n : ℕ) (y : ℚ)
    (rest : List Tok) (ts : TState) :
    transformAbsLoop k tx ty (n + 1) (Tok.cmd 'v' :: Tok.num y :: rest) ts
      = Except.map (fun out =>
            AbsCmd.line (ts.x * k + tx) ((y + ts.y) * k + ty) :: out)
          (transformAbsLoop k tx ty n rest
            { ts with cmd := some 'v', y := y + ts.y,
                      lastCubic := none, lastQuad := none }) := by
  rw [transformAbsLoop]
  simp only [headCommand, readNumT, bind, Except.bind, transform_point]
  simp
  cases transformAbsLoop k tx ty n rest
    ⟨some 'v', ts.x, y + ts.y, ts.startX, ts.startY, none, none⟩ <;> rfl

/-- One `Z` command in the exact-emission transform loop. -/
theorem transformAbsLoop_cmd_Z (k tx ty : ℚ) (n : ℕ)
    (rest : List Tok) (ts : TState) :
    transformAbsLoop k tx ty (n + 1) (Tok.cmd 'Z' :: rest) ts
      = Except.map (fun out => AbsCmd.close :: out)
          (transformAbsLoop k tx ty n rest
            { ts with cmd := some 'Z', x := ts.startX, y := ts.startY,
                      lastCubic := none, lastQuad := none }) := by
  rw [transformAbsLoop]
  simp only [headCommand, readNumT, bind, Except.bind, transform_point]
  simp
  cases transformAbsLoop k tx ty n rest
    ⟨some 'Z', ts.startX, ts.startY, ts.startX, ts.startY, none, none⟩ <;> rfl

/-- One `z` command in the exact-emission transform loop. -/
theorem transformAbsLoop_cmd_z (k tx ty : ℚ) (n : ℕ)
    (rest : List Tok) (ts : TState) :
    transformAbsLoop k tx ty (n + 1) (Tok.cmd 'z' :: rest) ts
      = Except.map (fun out => AbsCmd.close :: out)
          (transformAbsLoop k tx ty n rest
            { ts with cmd := some 'z', x := ts.startX, y := ts.startY,
                      lastCubic := none, lastQuad := none }) := by
  rw [transformAbsLoop]
  simp only [headCommand, readNumT, bind, Except.bind, transform_point]
  simp
  cases transformAbsLoop k tx ty n rest
    ⟨some 'z', ts.startX, ts.startY, ts.startX, ts.startY, none, none⟩ <;> rfl

/-- Each absolute command contributes at least one token. -/
theorem length_le_tokens_of_abs (cs : List AbsCmd) :
    cs.length ≤ (tokens_of_abs cs).length := by
  induction cs with
  | nil => simp [tokens_of_abs]
  | cons c cs ih =>
    have h1 : 1 ≤ (absTokens c).length := by cases c <;> simp [absTokens]
    have hflat : tokens_of_abs (c :: cs) = absTokens c ++ tokens_of_abs cs := by
      simp [tokens_of_abs]
    rw [hflat]
    simp only [List.length_cons, List.length_append]
    omega

/-- Replaying the emitted tokens of straight absolute commands through the
bbox interpreter folds `absStep` over the commands. -/
theorem bboxLoop_abs_run (cs : List AbsCmd) :
    ∀ (n : ℕ) (st : BState), cs.all straightAbs = true → cs.length < n →
    bboxLoop n (tokens_of_abs cs) st = .ok ((cs.foldl absStep st).bbox) := by
  induction cs with
  | nil =>
    intro n st _ hn
    obtain ⟨m, rfl⟩ : ∃ m, n = m + 1 := ⟨n - 1, by omega⟩
    exact bboxLoop_nil m st
  | cons c cs ih =>
    intro n st hall hn
    obtain ⟨m, rfl⟩ : ∃ m, n = m + 1 := ⟨n - 1, by omega⟩
    have hc : straightAbs c = true := by
      simp only [List.all_cons, Bool.and_eq_true] at hall; exact hall.1
    have hcs : cs.all straightAbs = true := by
      simp only [List.all_cons, Bool.and_eq_true] at hall; exact hall.2
    have hm : cs.length < m := by simp at hn; omega
    cases c with
    | move x y =>
      have ht : tokens_of_abs (AbsCmd.move x y :: cs)
          = Tok.cmd 'M' :: Tok.num x :: Tok.num y :: tokens_of_abs cs := by
        simp [tokens_of_abs, absTokens]
      rw [ht, bboxLoop_cmd_M, ih m _ hcs hm]
      rfl
    | line x y =>
      have ht : tokens_of_abs (AbsCmd.line x y :: cs)
          = Tok.cmd 'L' :: Tok.num x :: Tok.num y :: tokens_of_abs cs := by
        simp [tokens_of_abs, absTokens]
      rw [ht, bboxLoop_cmd_L, ih m _ hcs hm]
      rfl
    | close =>
      have ht : tokens_of_abs (AbsCmd.close :: cs)
          = Tok.cmd 'Z' :: tokens_of_abs cs := by
        simp [tokens_of_abs, absTokens]
      rw [ht, bboxLoop_cmd_Z, ih m _ hcs hm]
      rfl
    | curve x1 y1 x2 y2 x3 y3 => exact absurd hc (by simp [straightAbs])
    | quad x1 y1 x2 y2 => exact absurd hc (by simp [straightAbs])
    | arc rx ry rot la sw x y => exact absurd hc (by simp [straightAbs])

/-- `bbox_of_tokens` on the emitted tokens of straight absolute commands. -/
theorem bbox_of_tokens_abs (cs : List AbsCmd) (h : cs.all straightAbs = true) :
    bbox_of_tokens (tokens_of_abs cs) = .ok ((cs.foldl absStep initB).bbox) := by
  cases hcs : cs with
  | nil => simp [bbox_of_tokens, tokens_of_abs, initB]
  | cons c cs' =>
    have hne : tokens_of_abs (c :: cs') ≠ [] := by
      cases c <;> simp [tokens_of_abs, absTokens]
    rw [bbox_of_tokens_run _ hne, ← hcs]
    exact bboxLoop_abs_run cs _ initB h
      (by rw [hcs] at *; have := length_le_tokens_of_abs (c :: cs'); omega)

/-- `min` of two points on an affine image. -/
theorem min_affine_of_eq (kk t a b x y : ℝ) (hk : 0 < kk) (hx : x = a * kk + t)
    (hy : y = b * kk + t) : min x y = min a b * kk + t := by
  rw [hx, hy]
  exact (min_affine kk t a b hk).symm

/-- `max` of two points on an affine image. -/
theorem max_affine_of_eq (kk t a b x y : ℝ) (hk : 0 < kk) (hx : x = a * kk + t)
    (hy : y = b * kk + t) : max x y = max a b * kk + t := by
  rw [hx, hy]
  exact (max_affine kk t a b hk).symm

/-- Extending both accumulated boxes by affinely-related contributions keeps
them affinely related. -/
theorem bbox_acc_step (k tx ty : ℚ) (hk : 0 < k) (stb fsb : Option (Box ℝ))
    (h5 : fsb = stb.map (boxAffine ↑k ↑tx ↑ty)) (b b' : Box ℝ)
    (hb : b' = boxAffine ↑k ↑tx ↑ty b) :
    bbox_union fsb (some b')
      = (bbox_union stb (some b)).map (boxAffine ↑k ↑tx ↑ty) := by
  rw [h5, hb]
  exact bbox_union_affine _ _ _ (by exact_mod_cast hk) stb (some b)

/-- One-command simulation step: a straight command letter at the head of
the token stream preserves the simulation invariant between the bbox run on
the original tokens and the `absStep` fold over the emitted commands. -/
theorem sim_letter (k tx ty : ℚ) (hk : 0 < k) (n : ℕ)
    (ih : ∀ (T : List Tok) (ts : TState) (st fs : BState),
      straightToks T = true → simInv k tx ty ts st fs →
      (ts.cmd = none → headIsMove T = true) →
      ∀ cs : List AbsCmd, transformAbsLoop k tx ty n T ts = .ok cs →
      ∃ b, bboxLoop n T st = .ok b ∧
        (cs.foldl absStep fs).bbox = b.map (boxAffine ↑k ↑tx ↑ty) ∧
        cs.all straightAbs = true) :
    ∀ (c : Char) (toks : List Tok) (ts : TState) (st fs : BState),
    straightChars.contains c = true → straightToks toks = true →
    simInv k tx ty ts st fs → (ts.cmd = none → c = 'M' ∨ c = 'm') →
    ∀ cs : List AbsCmd,
    transformAbsLoop k tx ty (n + 1) (Tok.cmd c :: toks) ts = .ok cs →
    ∃ b, bboxLoop (n + 1) (Tok.cmd c :: toks) st = .ok b ∧
      (cs.foldl absStep fs).bbox = b.map (boxAffine ↑k ↑tx ↑ty) ∧
      cs.all straightAbs = true := by
  intro c toks ts st fs hcst htoks hinv hmv cs htr
  obtain ⟨h1, h2, hx, hy, hsx, hsy, h4, h5⟩ := hinv
  have hk' : (0 : ℝ) < (k : ℝ) := by exact_mod_cast hk
  have hcases : c = 'M' ∨ c = 'm' ∨ c = 'L' ∨ c = 'l' ∨ c = 'H' ∨ c = 'h'
      ∨ c = 'V' ∨ c = 'v' ∨ c = 'Z' ∨ c = 'z' := by
    simpa [straightChars, List.contains] using hcst
  rcases hcases with rfl | rfl | rfl | rfl | rfl | rfl | rfl | rfl | rfl | rfl
  · -- M
    cases toks with
    | nil =>
      rw [transformAbsLoop] at htr
      simp [headCommand, readNumT, bind, Except.bind] at htr
    | cons t1 rest1 =>
      cases t1 with
      | cmd c' =>
        rw [transformAbsLoop] at htr
        simp [headCommand, readNumT, bind, Except.bind] at htr
      | num x =>
        cases rest1 with
        | nil =>
          rw [transformAbsLoop] at htr
          simp [headCommand, readNumT, bind, Except.bind] at htr
        | cons t2 rest2 =>
          cases t2 with
          | cmd c' =>
            rw [transformAbsLoop] at htr
            simp [headCommand, readNumT, bind, Except.bind] at htr
          | num y =>
            rw [transformAbsLoop_cmd_M] at htr
            obtain ⟨out, hout, hcs⟩ := except_map_ok _ _ _ htr
            subst hcs
            have ht2 : straightToks rest2 = true := by
              have h := htoks
              simp only [straightToks, List.all_cons, Bool.and_eq_true] at h
              exact h.2.2
            have hinv' : simInv k tx ty
                { cmd := some 'L', x := x, y := y, startX := x, startY := y,
                  lastCubic := none, lastQuad := none }
                { cmd := some 'L', x := ↑x, y := ↑y, startX := ↑x, startY := ↑y,
                  lastCubic := none, lastQuad := none,
                  bbox := bbox_union st.bbox (some ⟨↑x, ↑y, ↑x, ↑y⟩) }
                (absStep fs (AbsCmd.move (x * k + tx) (y * k + ty))) := by
              refine ⟨rfl, Or.inr ⟨'L', rfl, by decide⟩, rfl, rfl, rfl, rfl, ?_, ?_⟩
              · intro _
                dsimp only [absStep]
                refine ⟨?_, ?_, ?_, ?_⟩ <;> · push_cast; try ring
              · dsimp only [absStep]
                refine bbox_acc_step k tx ty hk _ _ h5 _ _ ?_
                simp only [boxAffine, Box.mk.injEq]
                refine ⟨?_, ?_, ?_, ?_⟩ <;> · push_cast; try ring
            obtain ⟨b, hb, hfold, hall⟩ := ih rest2 _ _ _ ht2 hinv'
              (fun h => by simp at h) out hout
            refine ⟨b, ?_, ?_, ?_⟩
            · rw [bboxLoop_cmd_M]
              exact hb
            · exact hfold
            · simp [straightAbs, hall]
  · -- m
    cases toks with
    | nil =>
      rw [transformAbsLoop] at htr
      simp [headCommand, readNumT, bind, Except.bind] at htr
    | cons t1 rest1 =>
      cases t1 with
      | cmd c' =>
        rw [transformAbsLoop] at htr
        simp [headCommand, readNumT, bind, Except.bind] at htr
      | num x =>
        cases rest1 with
        | nil =>
          rw [transformAbsLoop] at htr
          simp [headCommand, readNumT, bind, Except.bind] at htr
        | cons t2 rest2 =>
          cases t2 with
          | cmd c' =>
            rw [transformAbsLoop] at htr
            simp [headCommand, readNumT, bind, Except.bind] at htr
          | num y =>
            rw [transformAbsLoop_cmd_m] at htr
            obtain ⟨out, hout, hcs⟩ := except_map_ok _ _ _ htr
            subst hcs
            have ht2 : straightToks rest2 = true := by
              have h := htoks
              simp only [straightToks, List.all_cons, Bool.and_eq_true] at h
              exact h.2.2
            have hinv' : simInv k tx ty
                { cmd := some 'l', x := x + ts.x, y := y + ts.y,
                  startX := x + ts.x, startY := y + ts.y,
                  lastCubic := none, lastQuad := none }
                { cmd := some 'l', x := ↑x + st.x, y := ↑y + st.y,
                  startX := ↑x + st.x, startY := ↑y + st.y,
                  lastCubic := none, lastQuad := none,
                  bbox := bbox_union st.bbox
                    (some ⟨↑x + st.x, ↑y + st.y, ↑x + st.x, ↑y + st.y⟩) }
                (absStep fs
                  (AbsCmd.move ((x + ts.x) * k + tx) ((y + ts.y) * k + ty))) := by
              refine ⟨rfl, Or.inr ⟨'l', rfl, by decide⟩, ?_, ?_, ?_, ?_, ?_, ?_⟩
              · dsimp only; rw [hx]; push_cast; try ring
              · dsimp only; rw [hy]; push_cast; try ring
              · dsimp only; rw [hx]; push_cast; try ring
              · dsimp only; rw [hy]; push_cast; try ring
              · intro _
                dsimp only [absStep]
                refine ⟨?_, ?_, ?_, ?_⟩
                · rw [hx]; push_cast; try ring
                · rw [hy]; push_cast; try ring
                · rw [hx]; push_cast; try ring
                · rw [hy]; push_cast; try ring
              · dsimp only [absStep]
                refine bbox_acc_step k tx ty hk _ _ h5 _ _ ?_
                simp only [boxAffine, Box.mk.injEq]
                refine ⟨?_, ?_, ?_, ?_⟩
                · rw [hx]; push_cast; try ring
                · rw [hy]; push_cast; try ring
                · rw [hx]; push_cast; try ring
                · rw [hy]; push_cast; try ring
            obtain ⟨b, hb, hfold, hall⟩ := ih rest2 _ _ _ ht2 hinv'
              (fun h => by simp at h) out hout
            refine ⟨b, ?_, ?_, ?_⟩
            · rw [bboxLoop_cmd_m]
              exact hb
            · exact hfold
            · simp [straightAbs, hall]
  · -- L
    have hcmdne : ts.cmd ≠ none := by
      intro h
      rcases hmv h with h' | h' <;> simp at h'
    obtain ⟨hfx, hfy, hfsx, hfsy⟩ := h4 hcmdne
    cases toks with
    | nil =>
      rw [transformAbsLoop] at htr
      simp [headCommand, readNumT, bind, Except.bind] at htr
    | cons t1 rest1 =>
      cases t1 with
      | cmd c' =>
        rw [transformAbsLoop] at htr
        simp [headCommand, readNumT, bind, Except.bind] at htr
      | num x =>
        cases rest1 with
        | nil =>
          rw [transformAbsLoop] at htr
          simp [headCommand, readNumT, bind, Except.bind] at htr
        | cons t2 rest2 =>
          cases t2 with
          | cmd c' =>
            rw [transformAbsLoop] at htr
            simp [headCommand, readNumT, bind, Except.bind] at htr
          | num y =>
            rw [transformAbsLoop_cmd_L] at htr
            obtain ⟨out, hout, hcs⟩ := except_map_ok _ _ _ htr
            subst hcs
            have ht2 : straightToks rest2 = true := by
              have h := htoks
              simp only [straightToks, List.all_cons, Bool.and_eq_true] at h
              exact h.2.2
            have hinv' : simInv k tx ty
                { ts with cmd := some 'L', x := x, y := y,
                          lastCubic := none, lastQuad := none }
                { st with cmd := some 'L', x := ↑x, y := ↑y,
                          lastCubic := none, lastQuad := none,
                          bbox := bbox_union st.bbox
                            (some ⟨min st.x ↑x, min st.y ↑y,
                                   max st.x ↑x, max st.y ↑y⟩) }
                (absStep fs (AbsCmd.line (x * k + tx) (y * k + ty))) := by
              refine ⟨rfl, Or.inr ⟨'L', rfl, by decide⟩, rfl, rfl, hsx, hsy, ?_, ?_⟩
              · intro _
                dsimp only [absStep]
                refine ⟨?_, ?_, ?_, ?_⟩
                · push_cast; try ring
                · push_cast; try ring
                · exact hfsx
                · exact hfsy
              · dsimp only [absStep]
                refine bbox_acc_step k tx ty hk _ _ h5 _ _ ?_
                simp only [boxAffine, Box.mk.injEq]
                refine ⟨?_, ?_, ?_, ?_⟩
                · exact min_affine_of_eq _ _ _ _ _ _ hk' hfx (by push_cast; ring)
                · exact min_affine_of_eq _ _ _ _ _ _ hk' hfy (by push_cast; ring)
                · exact max_affine_of_eq _ _ _ _ _ _ hk' hfx (by push_cast; ring)
                · exact max_affine_of_eq _ _ _ _ _ _ hk' hfy (by push_cast; ring)
            obtain ⟨b, hb, hfold, hall⟩ := ih rest2 _ _ _ ht2 hinv'
              (fun h => by simp at h) out hout
            refine ⟨b, ?_, ?_, ?_⟩
            · rw [bboxLoop_cmd_L]
              exact hb
            · exact hfold
            · simp [straightAbs, hall]
  · -- l
    have hcmdne : ts.cmd ≠ none := by
      intro h
      rcases hmv h with h' | h' <;> simp at h'
    obtain ⟨hfx, hfy, hfsx, hfsy⟩ := h4 hcmdne
    cases toks with
    | nil =>
      rw [transformAbsLoop] at htr
      simp [headCommand, readNumT, bind, Except.bind] at htr
    | cons t1 rest1 =>
      cases t1 with
      | cmd c' =>
        rw [transformAbsLoop] at htr
        simp [headCommand, readNumT, bind, Except.bind] at htr
      | num x =>
        cases rest1 with
        | nil =>
          rw [transformAbsLoop] at htr
          simp [headCommand, readNumT, bind, Except.bind] at htr
        | cons t2 rest2 =>
          cases t2 with
          | cmd c' =>
            rw [transformAbsLoop] at htr
            simp [headCommand, readNumT, bind, Except.bind] at htr
          | num y =>
            rw [transformAbsLoop_cmd_l] at htr
            obtain ⟨out, hout, hcs⟩ := except_map_ok _ _ _ htr
            subst hcs
            have ht2 : straightToks rest2 = true := by
              have h := htoks
              simp only [straightToks, List.all_cons, Bool.and_eq_true] at h
              exact h.2.2
            have hinv' : simInv k tx ty
                { ts with cmd := some 'l', x := x + ts.x, y := y + ts.y,
                          lastCubic := none, lastQuad := none }
                { st with cmd := some 'l', x := ↑x + st.x, y := ↑y + st.y,
                          lastCubic := none, lastQuad := none,
                          bbox := bbox_union st.bbox
                            (some ⟨min st.x (↑x + st.x), min st.y (↑y + st.y),
                                   max st.x (↑x + st.x), max st.y (↑y + st.y)⟩) }
                (absStep fs
                  (AbsCmd.line ((x + ts.x) * k + tx) ((y + ts.y) * k + ty))) := by
              refine ⟨rfl, Or.inr ⟨'l', rfl, by decide⟩, ?_, ?_, hsx, hsy, ?_, ?_⟩
              · dsimp only; rw [hx]; push_cast; try ring
              · dsimp only; rw [hy]; push_cast; try ring
              · intro _
                dsimp only [absStep]
                refine ⟨?_, ?_, ?_, ?_⟩
                · rw [hx]; push_cast; try ring
                · rw [hy]; push_cast; try ring
                · exact hfsx
                · exact hfsy
              · dsimp only [absStep]
                refine bbox_acc_step k tx ty hk _ _ h5 _ _ ?_
                simp only [boxAffine, Box.mk.injEq]
                refine ⟨?_, ?_, ?_, ?_⟩
                · exact min_affine_of_eq _ _ _ _ _ _ hk' hfx
                    (by rw [hx]; push_cast; ring)
                · exact min_affine_of_eq _ _ _ _ _ _ hk' hfy
                    (by rw [hy]; push_cast; ring)
                · exact max_affine_of_eq _ _ _ _ _ _ hk' hfx
                    (by rw [hx]; push_cast; ring)
                · exact max_affine_of_eq _ _ _ _ _ _ hk' hfy
                    (by rw [hy]; push_cast; ring)
            obtain ⟨b, hb, hfold, hall⟩ := ih rest2 _ _ _ ht2 hinv'
              (fun h => by simp at h) out hout
            refine ⟨b, ?_, ?_, ?_⟩
            · rw [bboxLoop_cmd_l]
              exact hb
            · exact hfold
            · simp [straightAbs, hall]
  · -- H
    have hcmdne : ts.cmd ≠ none := by
      intro h
      rcases hmv h with h' | h' <;> simp at h'
    obtain ⟨hfx, hfy, hfsx, hfsy⟩ := h4 hcmdne
    cases toks with
    | nil =>
      rw [transformAbsLoop] at htr
      simp [headCommand, readNumT, bind, Except.bind] at htr
    | cons t1 rest1 =>
      cases t1 with
      | cmd c' =>
        rw [transformAbsLoop] at htr
        simp [headCommand, readNumT, bind, Except.bind] at htr
      | num x =>
        rw [transformAbsLoop_cmd_H] at htr
        obtain ⟨out, hout, hcs⟩ := except_map_ok _ _ _ htr
        subst hcs
        have ht1 : straightToks rest1 = true := by
          have h := htoks
          simp only [straightToks, List.all_cons, Bool.and_eq_true] at h
          exact h.2
        have hpy : ((ts.y * k + ty : ℚ) : ℝ) = fs.y := by
          rw [hfy, hy]
          push_cast
          ring
        have hinv' : simInv k tx ty
            { ts with cmd := some 'H', x := x,
                      lastCubic := none, lastQuad := none }
            { st with cmd := some 'H', x := ↑x,
                      lastCubic := none, lastQuad := none,
                      bbox := bbox_union st.bbox
                        (some ⟨min st.x ↑x, st.y, max st.x ↑x, st.y⟩) }
            (absStep fs (AbsCmd.line (x * k + tx) (ts.y * k + ty))) := by
          refine ⟨rfl, Or.inr ⟨'H', rfl, by decide⟩, rfl, hy, hsx, hsy, ?_, ?_⟩
          · intro _
            dsimp only [absStep]
            refine ⟨?_, ?_, ?_, ?_⟩
            · push_cast; try ring
            · rw [hy]; push_cast; try ring
            · exact hfsx
            · exact hfsy
          · dsimp only [absStep]
            refine bbox_acc_step k tx ty hk _ _ h5 _ _ ?_
            simp only [boxAffine, Box.mk.injEq]
            refine ⟨?_, ?_, ?_, ?_⟩
            · exact min_affine_of_eq _ _ _ _ _ _ hk' hfx (by push_cast; ring)
            · rw [hpy, min_self]
              exact hfy
            · exact max_affine_of_eq _ _ _ _ _ _ hk' hfx (by push_cast; ring)
            · rw [hpy, max_self]
              exact hfy
        obtain ⟨b, hb, hfold, hall⟩ := ih rest1 _ _ _ ht1 hinv'
          (fun h => by simp at h) out hout
        refine ⟨b, ?_, ?_, ?_⟩
        · rw [bboxLoop_cmd_H]
          exact hb
        · exact hfold
        · simp [straightAbs, hall]
  · -- h
    have hcmdne : ts.cmd ≠ none := by
      intro h
      rcases hmv h with h' | h' <;> simp at h'
    obtain ⟨hfx, hfy, hfsx, hfsy⟩ := h4 hcmdne
    cases toks with
    | nil =>
      rw [transformAbsLoop] at htr
      simp [headCommand, readNumT, bind, Except.bind] at htr
    | cons t1 rest1 =>
      cases t1 with
      | cmd c' =>
        rw [transformAbsLoop] at htr
        simp [headCommand, readNumT, bind, Except.bind] at htr
      | num x =>
        rw [transformAbsLoop_cmd_h] at htr
        obtain ⟨out, hout, hcs⟩ := except_map_ok _ _ _ htr
        subst hcs
        have ht1 : straightToks rest1 = true := by
          have h := htoks
          simp only [straightToks, List.all_cons, Bool.and_eq_true] at h
          exact h.2
        have hpy : ((ts.y * k + ty : ℚ) : ℝ) = fs.y := by
          rw [hfy, hy]
          push_cast
          ring
        have hinv' : simInv k tx ty
            { ts with cmd := some 'h', x := x + ts.x,
                      lastCubic := none, lastQuad := none }
            { st with cmd := some 'h', x := ↑x + st.x,
                      lastCubic := none, lastQuad := none,
                      bbox := bbox_union st.bbox
                        (some ⟨min st.x (↑x + st.x), st.y,
                               max st.x (↑x + st.x), st.y⟩) }
            (absStep fs (AbsCmd.line ((x + ts.x) * k + tx) (ts.y * k + ty))) := by
          refine ⟨rfl, Or.inr ⟨'h', rfl, by decide⟩, ?_, hy, hsx, hsy, ?_, ?_⟩
          · dsimp only; rw [hx]; push_cast; try ring
          · intro _
            dsimp only [absStep]
            refine ⟨?_, ?_, ?_, ?_⟩
            · rw [hx]; push_cast; try ring
            · rw [hy]; push_cast; try ring
            · exact hfsx
            · exact hfsy
          · dsimp only [absStep]
            refine bbox_acc_step k tx ty hk _ _ h5 _ _ ?_
            simp only [boxAffine, Box.mk.injEq]
            refine ⟨?_, ?_, ?_, ?_⟩
            · exact min_affine_of_eq _ _ _ _ _ _ hk' hfx
                (by rw [hx]; push_cast; ring)
            · rw [hpy, min_self]
              exact hfy
            · exact max_affine_of_eq _ _ _ _ _ _ hk' hfx
                (by rw [hx]; push_cast; ring)
            · rw [hpy, max_self]
              exact hfy
        obtain ⟨b, hb, hfold, hall⟩ := ih rest1 _ _ _ ht1 hinv'
          (fun h => by simp at h) out hout
        refine ⟨b, ?_, ?_, ?_⟩
        · rw [bboxLoop_cmd_h]
          exact hb
        · exact hfold
        · simp [straightAbs, hall]
  · -- V
    have hcmdne : ts.cmd ≠ none := by
      intro h
      rcases hmv h with h' | h' <;> simp at h'
    obtain ⟨hfx, hfy, hfsx, hfsy⟩ := h4 hcmdne
    cases toks with
    | nil =>
      rw [transformAbsLoop] at htr
      simp [headCommand, readNumT, bind, Except.bind] at htr
    | cons t1 rest1 =>
      cases t1 with
      | cmd c' =>
        rw [transformAbsLoop] at htr
        simp [headCommand, readNumT, bind, Except.bind] at htr
      | num y =>
        rw [transformAbsLoop_cmd_V] at htr
        obtain ⟨out, hout, hcs⟩ := except_map_ok _ _ _ htr
        subst hcs
        have ht1 : straightToks rest1 = true := by
          have h := htoks
          simp only [straightToks, List.all_cons, Bool.and_eq_true] at h
          exact h.2
        have hpx : ((ts.x * k + tx : ℚ) : ℝ) = fs.x := by
          rw [hfx, hx]
          push_cast
          ring
        have hinv' : simInv k tx ty
            { ts with cmd := some 'V', y := y,
                      lastCubic := none, lastQuad := none }
            { st with cmd := some 'V', y := ↑y,
                      lastCubic := none, lastQuad := none,
                      bbox := bbox_union st.bbox
                        (some ⟨st.x, min st.y ↑y, st.x, max st.y ↑y⟩) }
            (absStep fs (AbsCmd.line (ts.x * k + tx) (y * k + ty))) := by
          refine ⟨rfl, Or.inr ⟨'V', rfl, by decide⟩, hx, rfl, hsx, hsy, ?_, ?_⟩
          · intro _
            dsimp only [absStep]
            refine ⟨?_, ?_, ?_, ?_⟩
            · rw [hx]; push_cast; try ring
            · push_cast; try ring
            · exact hfsx
            · exact hfsy
          · dsimp only [absStep]
            refine bbox_acc_step k tx ty hk _ _ h5 _ _ ?_
            simp only [boxAffine, Box.mk.injEq]
            refine ⟨?_, ?_, ?_, ?_⟩
            · rw [hpx, min_self]
              exact hfx
            · exact min_affine_of_eq _ _ _ _ _ _ hk' hfy (by push_cast; ring)
            · rw [hpx, max_self]
              exact hfx
            · exact max_affine_of_eq _ _ _ _ _ _ hk' hfy (by push_cast; ring)
        obtain ⟨b, hb, hfold, hall⟩ := ih rest1 _ _ _ ht1 hinv'
          (fun h => by simp at h) out hout
        refine ⟨b, ?_, ?_, ?_⟩
        · rw [bboxLoop_cmd_V]
          exact hb
        · exact hfold
        · simp [straightAbs, hall]
  · -- v
    have hcmdne : ts.cmd ≠ none := by
      intro h
      rcases hmv h with h' | h' <;> simp at h'
    obtain ⟨hfx, hfy, hfsx, hfsy⟩ := h4 hcmdne
    cases toks with
    | nil =>
      rw [transformAbsLoop] at htr
      simp [headCommand, readNumT, bind, Except.bind] at htr
    | cons t1 rest1 =>
      cases t1 with
      | cmd c' =>
        rw [transformAbsLoop] at htr
        simp [headCommand, readNumT, bind, Except.bind] at htr
      | num y =>
        rw [transformAbsLoop_cmd_v] at htr
        obtain ⟨out, hout, hcs⟩ := except_map_ok _ _ _ htr
        subst hcs
        have ht1 : straightToks rest1 = true := by
          have h := htoks
          simp only [straightToks, List.all_cons, Bool.and_eq_true] at h
          exact h.2
        have hpx : ((ts.x * k + tx : ℚ) : ℝ) = fs.x := by
          rw [hfx, hx]
          push_cast
          ring
        have hinv' : simInv k tx ty
            { ts with cmd := some 'v', y := y + ts.y,
                      lastCubic := none, lastQuad := none }
            { st with cmd := some 'v', y := ↑y + st.y,
                      lastCubic := none, lastQuad := none,
                      bbox := bbox_union st.bbox
                        (some ⟨st.x, min st.y (↑y + st.y),
                               st.x, max st.y (↑y + st.y)⟩) }
            (absStep fs (AbsCmd.line (ts.x * k + tx) ((y + ts.y) * k + ty))) := by
          refine ⟨rfl, Or.inr ⟨'v', rfl, by decide⟩, hx, ?_, hsx, hsy, ?_, ?_⟩
          · dsimp only; rw [hy]; push_cast; try ring
          · intro _
            dsimp only [absStep]
            refine ⟨?_, ?_, ?_, ?_⟩
            · rw [hx]; push_cast; try ring
            · rw [hy]; push_cast; try ring
            · exact hfsx
            · exact hfsy
          · dsimp only [absStep]
            refine bbox_acc_step k tx ty hk _ _ h5 _ _ ?_
            simp only [boxAffine, Box.mk.injEq]
            refine ⟨?_, ?_, ?_, ?_⟩
            · rw [hpx, min_self]
              exact hfx
            · exact min_affine_of_eq _ _ _ _ _ _ hk' hfy
                (by rw [hy]; push_cast; ring)
            · rw [hpx, max_self]
              exact hfx
            · exact max_affine_of_eq _ _ _ _ _ _ hk' hfy
                (by rw [hy]; push_cast; ring)
        obtain ⟨b, hb, hfold, hall⟩ := ih rest1 _ _ _ ht1 hinv'
          (fun h => by simp at h) out hout
        refine ⟨b, ?_, ?_, ?_⟩
        · rw [bboxLoop_cmd_v]
          exact hb
        · exact hfold
        · simp [straightAbs, hall]
  · -- Z
    have hcmdne : ts.cmd ≠ none := by
      intro h
      rcases hmv h with h' | h' <;> simp at h'
    obtain ⟨hfx, hfy, hfsx, hfsy⟩ := h4 hcmdne
    rw [transformAbsLoop_cmd_Z] at htr
    obtain ⟨out, hout, hcs⟩ := except_map_ok _ _ _ htr
    subst hcs
    have hinv' : simInv k tx ty
        { ts with cmd := some 'Z', x := ts.startX, y := ts.startY,
                  lastCubic := none, lastQuad := none }
        { st with cmd := some 'Z', x := st.startX, y := st.startY,
                  lastCubic := none, lastQuad := none,
                  bbox := bbox_union st.bbox
                    (some ⟨st.startX, st.startY, st.startX, st.startY⟩) }
        (absStep fs AbsCmd.close) := by
      refine ⟨rfl, Or.inr ⟨'Z', rfl, by decide⟩, hsx, hsy, hsx, hsy, ?_, ?_⟩
      · intro _
        exact ⟨hfsx, hfsy, hfsx, hfsy⟩
      · dsimp only [absStep]
        refine bbox_acc_step k tx ty hk _ _ h5 _ _ ?_
        simp only [boxAffine, Box.mk.injEq]
        exact ⟨hfsx, hfsy, hfsx, hfsy⟩
    obtain ⟨b, hb, hfold, hall⟩ := ih toks _ _ _ htoks hinv'
      (fun h => by simp at h) out hout
    refine ⟨b, ?_, ?_, ?_⟩
    · rw [bboxLoop_cmd_Z]
      exact hb
    · exact hfold
    · simp [straightAbs, hall]
  · -- z
    have hcmdne : ts.cmd ≠ none := by
      intro h
      rcases hmv h with h' | h' <;> simp at h'
    obtain ⟨hfx, hfy, hfsx, hfsy⟩ := h4 hcmdne
    rw [transformAbsLoop_cmd_z] at htr
    obtain ⟨out, hout, hcs⟩ := except_map_ok _ _ _ htr
    subst hcs
    have hinv' : simInv k tx ty
        { ts with cmd := some 'z', x := ts.startX, y := ts.startY,
                  lastCubic := none, lastQuad := none }
        { st with cmd := some 'z', x := st.startX, y := st.startY,
                  lastCubic := none, lastQuad := none,
                  bbox := bbox_union st.bbox
                    (some ⟨st.startX, st.startY, st.startX, st.startY⟩) }
        (absStep fs AbsCmd.close) := by
      refine ⟨rfl, Or.inr ⟨'z', rfl, by decide⟩, hsx, hsy, hsx, hsy, ?_, ?_⟩
      · intro _
        exact ⟨hfsx, hfsy, hfsx, hfsy⟩
      · dsimp only [absStep]
        refine bbox_acc_step k tx ty hk _ _ h5 _ _ ?_
        simp only [boxAffine, Box.mk.injEq]
        exact ⟨hfsx, hfsy, hfsx, hfsy⟩
    obtain ⟨b, hb, hfold, hall⟩ := ih toks _ _ _ htoks hinv'
      (fun h => by simp at h) out hout
    refine ⟨b, ?_, ?_, ?_⟩
    · rw [bboxLoop_cmd_z]
      exact hb
    · exact hfold
    · simp [straightAbs, hall]

/-- Main simulation: on straight, moveto-led token streams, a successful
exact-emission transform run determines a successful bbox run, and folding
`absStep` over the emitted commands computes the affine image of the
original bounding box. -/
theorem sim_straight (k tx ty : ℚ) (hk : 0 < k) :
    ∀ (n : ℕ) (T : List Tok) (ts : TState) (st fs : BState),
    straightToks T = true → simInv k tx ty ts st fs →
    (ts.cmd = none → headIsMove T = true) →
    ∀ cs : List AbsCmd, transformAbsLoop k tx ty n T ts = .ok cs →
    ∃ b, bboxLoop n T st = .ok b ∧
      (cs.foldl absStep fs).bbox = b.map (boxAffine ↑k ↑tx ↑ty) ∧
      cs.all straightAbs = true := by
  intro n
  induction n with
  | zero =>
    intro T ts st fs _ _ _ cs htr
    rw [transformAbsLoop] at htr
    simp at htr
  | succ n ih =>
    intro T ts st fs hT hinv hmv cs htr
    cases T with
    | nil =>
      rw [transformAbsLoop] at htr
      obtain rfl : cs = [] := by simpa using htr.symm
      exact ⟨st.bbox, bboxLoop_nil n st, hinv.2.2.2.2.2.2.2, rfl⟩
    | cons t rest =>
      cases t with
      | cmd c =>
        have hparts := hT
        simp only [straightToks, List.all_cons, Bool.and_eq_true] at hparts
        have hc : straightChars.contains c = true := hparts.1
        have hrest : straightToks rest = true := hparts.2
        have hmv' : ts.cmd = none → c = 'M' ∨ c = 'm' := by
          intro h
          have hh := hmv h
          simpa [headIsMove] using hh
        exact sim_letter k tx ty hk n ih c rest ts st fs hc hrest hinv hmv' cs htr
      | num q =>
        cases hcmd : ts.cmd with
        | none =>
          rw [transformAbsLoop] at htr
          simp [headCommand, hcmd] at htr
        | some c =>
          have hscmd : st.cmd = some c := hinv.1.trans hcmd
          have hc : straightChars.contains c = true := by
            rcases hinv.2.1 with h | ⟨c', hc', hstr⟩
            · rw [hcmd] at h
              exact absurd h (by simp)
            · rw [hcmd] at hc'
              injection hc' with h
              subst h
              exact hstr
          rw [transformAbsLoop_num_entry k tx ty n c q rest ts hcmd] at htr
          rw [bboxLoop_num_entry n c q rest st hscmd]
          exact sim_letter k tx ty hk n ih c (Tok.num q :: rest) ts st fs hc hT
            hinv (fun h => by rw [hcmd] at h; exact absurd h (by simp)) cs htr

/-- C1 (corrected): for a path of straight commands (`M/m/L/l/H/h/V/v/Z/z`
and numbers) that starts with a moveto, any scale `k > 0` and any
translation, computing the bounding box of the transformed path equals
scaling-then-translating the original bounding box, provided the emitted
coordinates are kept exact (`transform_abs`, the loop of
`transform_path_data` before `fmt_number` formatting). With the formatted
string itself the law fails (`c1_counterexample`): `fmt_number` rounds to 4
decimals, which moves the recomputed box. -/
theorem c1_straight_commute (d : String) (k tx ty : ℚ) (hk : 0 < k)
    (hstraight : straightToks (tokenize d) = true)
    (hmove : headIsMove (tokenize d) = true)
    (cs : List AbsCmd) (hcs : transform_abs d k tx ty = .ok cs)
    (ob : Option (Box ℝ)) (hob : path_bbox d = .ok ob) :
    bbox_of_tokens (tokens_of_abs cs)
      = .ok (bbox_translate (bbox_scale ob ↑k) ↑tx ↑ty) := by
  by_cases hT : tokenize d = []
  · have hcs' : cs = [] := by
      simp [transform_abs, hT] at hcs
      exact hcs
    have hob' : ob = none := by
      simp [path_bbox, hT] at hob
      exact hob.symm
    subst hcs'
    subst hob'
    simp [tokens_of_abs, bbox_of_tokens, bbox_scale, bbox_translate]
  · have hcs' : transformAbsLoop k tx ty ((tokenize d).length + 1) (tokenize d)
        initT = .ok cs := by
      simpa [transform_abs, hT] using hcs
    have hob' : bboxLoop ((tokenize d).length + 1) (tokenize d) initB
        = .ok ob := by
      simpa [path_bbox, hT] using hob
    have hinv0 : simInv k tx ty initT initB initB := by
      refine ⟨rfl, Or.inl rfl, ?_, ?_, ?_, ?_, ?_, rfl⟩
      · simp [initT, initB]
      · simp [initT, initB]
      · simp [initT, initB]
      · simp [initT, initB]
      · intro h
        exact absurd rfl h
    obtain ⟨b, hb, hfold, hall⟩ := sim_straight k tx ty hk
      ((tokenize d).length + 1) (tokenize d) initT initB initB
      hstraight hinv0 (fun _ => hmove) cs hcs'
    have hbo : b = ob := by
      rw [hb] at hob'
      exact Except.ok.inj hob'
    subst hbo
    rw [bbox_of_tokens_abs cs hall, hfold]
    cases b <;> simp [bbox_scale, bbox_translate, boxAffine]

/-- C1 counterexample for the claim as stated: the identity transform
(scale 1, translation 0) of `"M 0.00001 0"` emits `"M0 0"` because
`fmt_number` rounds to 4 decimal places, so the bounding box recomputed
from the transformed string is `{(0,0)}` while scaling-then-translating the
original box keeps `minX = maxX = 1e-5` — the two sides differ. -/
theorem c1_counterexample :
    transform_path_data "M 0.00001 0" 1 0 0 = .ok "M0 0" ∧
    path_bbox "M 0.00001 0"
      = .ok (some ⟨1 / 100000, 0, 1 / 100000, 0⟩) ∧
    path_bbox "M0 0" = .ok (some ⟨0, 0, 0, 0⟩) ∧
    bbox_translate (bbox_scale (some ⟨(1 / 100000 : ℝ), 0, 1 / 100000, 0⟩)
        ((1 : ℚ) : ℝ)) ((0 : ℚ) : ℝ) ((0 : ℚ) : ℝ)
      ≠ some ⟨0, 0, 0, 0⟩ := by
  refine ⟨by decide, ?_, ?_, ?_⟩
  · rw [path_bbox_eq, show tokenize "M 0.00001 0"
        = [Tok.cmd 'M', Tok.num (1 / 100000), Tok.num 0] from by decide]
    rw [bbox_of_tokens_run _ (by simp)]
    rw [show ([Tok.cmd 'M', Tok.num (1 / 100000), Tok.num 0] : List Tok).length
        + 1 = 3 + 1 from by simp]
    rw [bboxLoop_cmd_M]
    rw [show (3 : ℕ) = 2 + 1 from rfl]
    rw [bboxLoop_nil]
    norm_num [initB, bbox_union]
  · rw [path_bbox_eq, show tokenize "M0 0"
        = [Tok.cmd 'M', Tok.num 0, Tok.num 0] from by decide]
    rw [bbox_of_tokens_run _ (by simp)]
    rw [show ([Tok.cmd 'M', Tok.num 0, Tok.num 0] : List Tok).length
        + 1 = 3 + 1 from by simp]
    rw [bboxLoop_cmd_M]
    rw [show (3 : ℕ) = 2 + 1 from rfl]
    rw [bboxLoop_nil]
    norm_num [initB, bbox_union]
  · simp [bbox_scale, bbox_translate]

/-- Witness for `c1_straight_commute`: the path `"M 1 2 L 3 4"` under scale
`2` and translation `(5, 6)`. -/
theorem c1_witness :
    (0 : ℚ) < 2 ∧ straightToks (tokenize "M 1 2 L 3 4") = true ∧
    headIsMove (tokenize "M 1 2 L 3 4") = true ∧
    transform_abs "M 1 2 L 3 4" 2 5 6
      = .ok [AbsCmd.move 7 10, AbsCmd.line 11 14] ∧
    bbox_of_tokens (tokens_of_abs [AbsCmd.move 7 10, AbsCmd.line 11 14])
      = .ok (bbox_translate (bbox_scale (some ⟨1, 2, 3, 4⟩) ((2 : ℚ) : ℝ))
          ((5 : ℚ) : ℝ) ((6 : ℚ) : ℝ)) := by
  refine ⟨by decide, by decide, by decide, by decide, ?_⟩
  refine c1_straight_commute "M 1 2 L 3 4" 2 5 6 (by decide) (by decide)
    (by decide) _ (by decide) (some ⟨1, 2, 3, 4⟩) ?_
  rw [path_bbox_eq, show tokenize "M 1 2 L 3 4"
      = [Tok.cmd 'M', Tok.num 1, Tok.num 2, Tok.cmd 'L', Tok.num 3, Tok.num 4]
      from by decide]
  rw [bbox_of_tokens_run _ (by simp)]
  rw [show ([Tok.cmd 'M', Tok.num 1, Tok.num 2, Tok.cmd 'L', Tok.num 3,
      Tok.num 4] : List Tok).length + 1 = 6 + 1 from by simp]
  rw [bboxLoop_cmd_M]
  rw [show (6 : ℕ) = 5 + 1 from rfl]
  rw [bboxLoop_cmd_L]
  rw [show (5 : ℕ) = 4 + 1 from rfl]
  rw [bboxLoop_nil]
  norm_num [initB, bbox_union, min_def, max_def]
